import Mathlib

/-!
# go-nursys: the invocation pipeline of `client.go` and the codec of `time.go`

A shallow embedding of `nsHTTPClient.invokeEndpoint`, of `New` and `WithHTTPClient`
(`src/client.go`), of the endpoint wrappers `ChangePassword` (`src/change_password.go`) and
`RetrieveDocuments` (`src/retrieve_documents.go`), and of the methods `MarshalJSON` and
`UnmarshalJSON` of `Time` (`src/time.go`).

The Go standard library is not part of the repository.  The calls whose result depends on
the outside world or on reflection over a Go type (`json.Marshal`, `Decoder.Decode`,
`url.Parse`, `http.Client.Do`) are fields of an environment `Env`; the parts of
`net/http` whose behaviour is fixed (`NewRequestWithContext`, `Header.Add`, `Header.Get`)
are written out, and so are the scanner and the decoder of `encoding/json` for the types of
the package, the formatting and the parsing of `time` for the layouts that `time.go` uses,
and `url.QueryEscape`.  Go strings and byte slices are modelled by `String`.
-/

namespace Nursys

/-! ## Go values -/

/-- The two values `ctx.Err()` takes once a context is done:
`context.Canceled` and `context.DeadlineExceeded`. -/
inductive ContextError where
  | canceled
  | deadlineExceeded
deriving DecidableEq

/-- A non-nil `context.Context`, observed when the call is entered:
`err` is the value of `ctx.Err()` (`none` while the context is live). -/
structure Context where
  err : Option ContextError
deriving DecidableEq

/-- A Go `error` value as `invokeEndpoint` can return it.  `lib e` is an error value handed
back by a library call and passed on as it is; `errorString msg` is the
`*errors.errorString` that `errors.New` and `fmt.Errorf` (without `%w`) allocate, whose
`Error()` text is `msg`; `invalidMethod method` is the value of
`fmt.Errorf("net/http: invalid method %q", method)`. -/
inductive GoError (ε : Type) where
  | lib (e : ε)
  | errorString (msg : String)
  | invalidMethod (method : String)
deriving DecidableEq

/-- The type `http.Header`, a map from canonical key to the list of values added under it. -/
abbrev Header := List (String × List String)

/-- The bytes `net/textproto` accepts in a header field name (`validHeaderFieldByte`):
the RFC 7230 token characters. -/
def isTokenRune (c : Char) : Bool :=
  c.isAlphanum ||
    c.toNat ∈ [33, 35, 36, 37, 38, 39, 42, 43, 45, 46, 94, 95, 96, 124, 126]

/-- The second loop of `textproto.canonicalMIMEHeaderKey`: upper case for the first letter
and for a letter after a dash, lower case elsewhere. -/
def canonicalLetters : Bool → List Char → List Char
  | _, [] => []
  | upper, c :: cs =>
    let c := if upper && c.isLower then c.toUpper
             else if !upper && c.isUpper then c.toLower else c
    c :: canonicalLetters (c == '-') cs

/-- The function `textproto.CanonicalMIMEHeaderKey`: a key holding a byte that is not a
token character is returned unchanged, any other key is put in canonical letter case. -/
def CanonicalMIMEHeaderKey (s : String) : String :=
  if s.data.all isTokenRune then ⟨canonicalLetters true s.data⟩ else s

/-- The update `h[key] = append(h[key], value)` on the association list. -/
def Header.append : Header → String → String → Header
  | [], key, value => [(key, [value])]
  | (k, vs) :: h, key, value =>
    if k = key then (k, vs ++ [value]) :: h else (k, vs) :: Header.append h key value

/-- The method `Header.Add(key, value)`: appends `value` under the canonical form of `key`. -/
def Header.Add (h : Header) (key value : String) : Header :=
  Header.append h (CanonicalMIMEHeaderKey key) value

/-- The method `Header.Get(key)`: the first value stored under the canonical form of `key`,
or the empty string. -/
def Header.Get (h : Header) (key : String) : String :=
  match h.lookup (CanonicalMIMEHeaderKey key) with
  | some (v :: _) => v
  | _ => ""

/-- The fields of an outgoing `*http.Request` that `invokeEndpoint` determines.
`υ` is the type of parsed URLs (`*url.URL`). -/
structure Request (υ : Type) where
  ctx : Context
  method : String
  url : υ
  header : Header
  body : String
deriving DecidableEq

/-- A response body stream (`io.ReadCloser`): reading yields the bytes `data`, after which
`Read` reports `io.EOF` (`err = none`) or fails with `e` (`err = some e`). -/
structure Body (ε : Type) where
  data : String
  err : Option ε
deriving DecidableEq

/-- The fields of `*http.Response` that `invokeEndpoint` reads. -/
structure Response (ε : Type) where
  statusCode : Int
  body : Body ε
deriving DecidableEq

/-- A non-nil `*http.Client`, given by what its `Do` method returns for a request:
a response, or an error (then the response is ignored by every caller). -/
structure HttpClient (ε υ : Type) where
  Do : Request υ → Except ε (Response ε)

/-- The library calls of `client.go` that are not fixed by the language:
* `marshal v` is `json.Marshal(v)` for a non-nil `v` of the request type `β`;
* `decode body t` is `json.NewDecoder(body).Decode(&x)` for a variable `x` of the target
  type `τ` that holds `t`: the value `x` holds afterwards and the error returned;
* `parseURL` is `url.Parse` (followed by the port normalisation of `NewRequestWithContext`);
* `defaultClient` is the behaviour of `&http.Client{}`. -/
structure Env (β τ ε υ : Type) where
  marshal : β → Except ε String
  decode : Body ε → τ → τ × Option ε
  parseURL : String → Except ε υ
  defaultClient : HttpClient ε υ

/-- The call `json.Marshal(body)` for a request value of interface type: the nil interface
marshals to the JSON literal `null`. -/
def jsonMarshal {β τ ε υ : Type} (env : Env β τ ε υ) : Option β → Except ε String
  | none => .ok "null"
  | some v => env.marshal v

/-- The function `validMethod` of `net/http`: non-empty and made of token characters only. -/
def validMethod (method : String) : Bool :=
  method.length > 0 && method.data.all isTokenRune

/-- The function `http.NewRequestWithContext(ctx, method, url, body)`.  An empty method
stands for `GET`; an invalid method, a nil context (`ctx = none`) and a URL that does not
parse are the three failures, tested in this order.  The context is stored in the request,
its state is not looked at. -/
def NewRequestWithContext {β τ ε υ : Type} (env : Env β τ ε υ) (ctx : Option Context)
    (method url body : String) : Except (GoError ε) (Request υ) :=
  let method := if method = "" then "GET" else method
  if !validMethod method then
    .error (.invalidMethod method)
  else
    match ctx with
    | none => .error (.errorString "net/http: nil Context")
    | some ctx =>
      match env.parseURL url with
      | .error e => .error (.lib e)
      | .ok u => .ok { ctx := ctx, method := method, url := u, header := [], body := body }

/-- The function `io.ReadAll(body)`: the bytes read before the stream ended, and the error
that ended it when that was not `io.EOF`. -/
def ReadAll {ε : Type} (body : Body ε) : String × Option ε :=
  (body.data, body.err)

/-- The `%d` verb of `fmt` on an `int`: decimal digits, with a minus sign when negative. -/
def formatInt : Int → String
  | .ofNat m => Nat.repr m
  | .negSucc m => "-" ++ Nat.repr (m + 1)

/-! ## `client.go` -/

/-- HeaderUsername is the non-standard HTTP header in which to send the API username. -/
def HeaderUsername : String := "username"

/-- HeaderPassword is the non-standard HTTP header in which to send the API password. -/
def HeaderPassword : String := "password"

/-- The struct `nsHTTPClient`; `httpClient = none` is the nil pointer. -/
structure nsHTTPClient (ε υ : Type) where
  httpClient : Option (HttpClient ε υ)
  username : String
  pasword : String
  endpointURL : String

/-- ClientOption are configuration functions that can be passed to New. -/
abbrev ClientOption (ε υ : Type) := nsHTTPClient ε υ → nsHTTPClient ε υ

/-- The function `New(baseURL, username, password, options...)`: the options are applied in
order to the struct built from the three strings, then a nil `httpClient` is replaced by
`&http.Client{}`. -/
def New {β τ ε υ : Type} (env : Env β τ ε υ) (baseURL username password : String)
    (options : List (ClientOption ε υ)) : nsHTTPClient ε υ :=
  let client : nsHTTPClient ε υ :=
    { httpClient := none, username := username, pasword := password, endpointURL := baseURL }
  let client := options.foldl (fun c opt => opt c) client
  match client.httpClient with
  | none => { client with httpClient := some env.defaultClient }
  | some _ => client

/-- The option `WithHTTPClient(httpClient)`; the argument may be the nil pointer. -/
def WithHTTPClient {ε υ : Type} (httpClient : Option (HttpClient ε υ)) : ClientOption ε υ :=
  fun c => { c with httpClient := httpClient }

/-- What a call of `invokeEndpoint` does besides returning: the requests handed to
`httpClient.Do`, the reads of a response body and its release, in order. -/
inductive Event (υ : Type) where
  | doCall (req : Request υ)
  | readAll
  | decode
  | close
deriving DecidableEq

/-- How a call ends: it returns an `error` (`none` is the nil error), or it panics. -/
inductive Outcome (ε : Type) where
  | returned (err : Option (GoError ε))
  | panicked
deriving DecidableEq

/-- The observable result of a call of `invokeEndpoint`: how it ended, the value the target
variable holds afterwards (`none` for a nil target) and what it did. -/
structure Result (τ ε υ : Type) where
  outcome : Outcome ε
  target : Option τ
  trace : List (Event υ)
deriving DecidableEq

/-- Lines 80 to 91 of `invokeEndpoint`: the request value is marshalled, the request is
built against `cfg.endpointURL+endpoint`, and the three headers are added. -/
def buildRequest {β τ ε υ : Type} (env : Env β τ ε υ) (cfg : nsHTTPClient ε υ)
    (ctx : Option Context) (method endpoint : String) (body : Option β) :
    Except (GoError ε) (Request υ) :=
  match jsonMarshal env body with
  | .error err => .error (.lib err)
  | .ok jsonStr =>
    match NewRequestWithContext env ctx method (cfg.endpointURL ++ endpoint) jsonStr with
    | .error err => .error err
    | .ok req =>
      .ok { req with
        header := ((req.header.Add "Content-Type" "application/json").Add
          "username" cfg.username).Add "password" cfg.pasword }

/-- The error `fmt.Errorf("nursys: request returned %d: %s", statusCode, respBody)`. -/
def remoteError {ε : Type} (statusCode : Int) (respBody : String) : GoError ε :=
  .errorString ("nursys: request returned " ++ formatInt statusCode ++ ": " ++ respBody)

/-- The method `(cfg *nsHTTPClient) invokeEndpoint(ctx, method, endpoint, body, target)`.
`body = none` is the nil request value; `target` is nil (`none`) or a pointer to a variable
of type `τ` holding the given value.  A nil `cfg.httpClient` makes `Do` dereference a nil
pointer. -/
def invokeEndpoint {β τ ε υ : Type} (env : Env β τ ε υ) (cfg : nsHTTPClient ε υ)
    (ctx : Option Context) (method endpoint : String) (body : Option β)
    (target : Option τ) : Result τ ε υ :=
  match buildRequest env cfg ctx method endpoint body with
  | .error err => { outcome := .returned (some err), target := target, trace := [] }
  | .ok req =>
    match cfg.httpClient with
    | none => { outcome := .panicked, target := target, trace := [] }
    | some httpClient =>
      match httpClient.Do req with
      | .ok resp =>
        if resp.statusCode ≠ 200 ∧ resp.statusCode ≠ 202 then
          let respBody := (ReadAll resp.body).1
          { outcome := .returned (some (remoteError resp.statusCode respBody)),
            target := target, trace := [.doCall req, .readAll, .close] }
        else
          match target with
          | some t =>
            let r := env.decode resp.body t
            { outcome := .returned (r.2.map .lib), target := some r.1,
              trace := [.doCall req, .decode, .close] }
          | none =>
            { outcome := .returned none, target := none, trace := [.doCall req, .close] }
      | .error err =>
        { outcome := .returned (some (.lib err)), target := target, trace := [.doCall req] }

/-! ## `change_password.go` and `transaction.go` -/

/-- TransactionError models an error in the API response JSON. -/
structure TransactionError where
  ErrorID : Int
  ErrorMessage : String
deriving DecidableEq

/-- The Transaction JSON object contains information about the API request and response.
`θ` is the type `Time` of `time.go`; a nil slice is `none`. -/
structure Transaction (θ : Type) where
  TransactionID : String
  TransactionDate : θ
  TransactionComment : String
  TransactionSuccessFlag : Bool
  TransactionErrors : Option (List TransactionError)
deriving DecidableEq

/-- The ChangePasswordSubmitRequestMessage object is the input into the Change Password
HTTP POST method. -/
structure ChangePasswordSubmitRequestMessage where
  NewPassword : String
deriving DecidableEq

/-- The ChangePasswordSubmitResponseMessage models the response from the Change Password
HTTP POST method. -/
structure ChangePasswordSubmitResponseMessage (θ : Type) where
  Transaction : Transaction θ
deriving DecidableEq

/-- The zero value of `ChangePasswordSubmitResponseMessage`, given the zero `Time`. -/
def ChangePasswordSubmitResponseMessage.zero {θ : Type} (zeroTime : θ) :
    ChangePasswordSubmitResponseMessage θ :=
  { Transaction :=
      { TransactionID := "", TransactionDate := zeroTime, TransactionComment := "",
        TransactionSuccessFlag := false, TransactionErrors := none } }

/-- The method `(c *nsHTTPClient) ChangePassword(ctx, request)`: the pair `(response, err)`
it returns, `response` being the variable whose address was given to `invokeEndpoint`. -/
def ChangePassword {θ ε υ : Type}
    (env : Env ChangePasswordSubmitRequestMessage (ChangePasswordSubmitResponseMessage θ) ε υ)
    (zeroTime : θ) (c : nsHTTPClient ε υ) (ctx : Option Context)
    (request : ChangePasswordSubmitRequestMessage) :
    ChangePasswordSubmitResponseMessage θ × Outcome ε :=
  let response := ChangePasswordSubmitResponseMessage.zero zeroTime
  let r := invokeEndpoint env c ctx "POST" "/changepassword" (some request) (some response)
  (r.target.getD response, r.outcome)

/-! ## `encoding/json`: one call of `Decoder.Decode` into a struct

The scanner follows the state machine of `encoding/json/scanner.go`; the decoder follows
`decode.go` for target structs whose fields are strings, booleans, integers, structs, slices
of structs and values with an `UnmarshalJSON` method. -/

/-- A scanned JSON value.  Strings and object keys keep the text between their quotes as it
was written (escapes included), numbers keep their literal. -/
inductive Json where
  | null
  | bool (b : Bool)
  | number (lit : String)
  | string (raw : String)
  | array (items : List Json)
  | object (members : List (String × Json))

/-- Why scanning stopped without a value: the input ended inside the value, or a byte
cannot continue it. -/
inductive ScanError where
  | needMore
  | invalid
deriving DecidableEq

/-- The JSON white space bytes (`isSpace`). -/
def isSpace (c : Char) : Bool :=
  c = ' ' || c = '\t' || c = '\r' || c = '\n'

/-- Drops leading white space. -/
def skipSpace : List Char → List Char
  | [] => []
  | c :: cs => if isSpace c then skipSpace cs else c :: cs

/-- A hexadecimal digit of a `\u` escape. -/
def isHex (c : Char) : Bool :=
  c.isDigit || ('a' ≤ c && c ≤ 'f') || ('A' ≤ c && c ≤ 'F')

/-- The scanner states inside a string: `stateInString`, `stateInStringEsc` and
`stateInStringEscU` to `stateInStringEscU123` (`hex n`: `n` more digits after this one). -/
inductive StringState where
  | plain
  | esc
  | hex (left : Nat)
deriving DecidableEq

/-- Scans a string after its opening quote; returns the text before the closing quote and
the input after it. -/
def scanString : StringState → List Char → List Char → Except ScanError (String × List Char)
  | _, [], _ => .error .needMore
  | .plain, c :: cs, acc =>
    if c = '"' then .ok (⟨acc.reverse⟩, cs)
    else if c = '\\' then scanString .esc cs (c :: acc)
    else if c.toNat < 32 then .error .invalid
    else scanString .plain cs (c :: acc)
  | .esc, c :: cs, acc =>
    if c = 'u' then scanString (.hex 3) cs (c :: acc)
    else if c ∈ ['b', 'f', 'n', 'r', 't', '\\', '/', '"'] then scanString .plain cs (c :: acc)
    else .error .invalid
  | .hex n, c :: cs, acc =>
    if isHex c then scanString (if n = 0 then .plain else .hex (n - 1)) cs (c :: acc)
    else .error .invalid

/-- The scanner states inside a number: `stateNeg`, `state0`, `state1`, `stateDot`,
`stateDot0`, `stateE`, `stateESign`, `stateE0`. -/
inductive NumberState where
  | neg | zero | digits | dot | dot0 | exp | expSign | exp0
deriving DecidableEq

/-- Scans a number whose first byte has been read; returns its literal and the input from
the first byte that does not belong to it. -/
def scanNumber : NumberState → List Char → List Char → Except ScanError (String × List Char)
  | st, [], acc =>
    if st = .zero ∨ st = .digits ∨ st = .dot0 ∨ st = .exp0 then .ok (⟨acc.reverse⟩, [])
    else .error .needMore
  | .neg, c :: cs, acc =>
    if c = '0' then scanNumber .zero cs (c :: acc)
    else if c.isDigit then scanNumber .digits cs (c :: acc)
    else .error .invalid
  | .zero, c :: cs, acc =>
    if c = '.' then scanNumber .dot cs (c :: acc)
    else if c = 'e' ∨ c = 'E' then scanNumber .exp cs (c :: acc)
    else .ok (⟨acc.reverse⟩, c :: cs)
  | .digits, c :: cs, acc =>
    if c.isDigit then scanNumber .digits cs (c :: acc)
    else if c = '.' then scanNumber .dot cs (c :: acc)
    else if c = 'e' ∨ c = 'E' then scanNumber .exp cs (c :: acc)
    else .ok (⟨acc.reverse⟩, c :: cs)
  | .dot, c :: cs, acc =>
    if c.isDigit then scanNumber .dot0 cs (c :: acc) else .error .invalid
  | .dot0, c :: cs, acc =>
    if c.isDigit then scanNumber .dot0 cs (c :: acc)
    else if c = 'e' ∨ c = 'E' then scanNumber .exp cs (c :: acc)
    else .ok (⟨acc.reverse⟩, c :: cs)
  | .exp, c :: cs, acc =>
    if c = '+' ∨ c = '-' then scanNumber .expSign cs (c :: acc)
    else if c.isDigit then scanNumber .exp0 cs (c :: acc)
    else .error .invalid
  | .expSign, c :: cs, acc =>
    if c.isDigit then scanNumber .exp0 cs (c :: acc) else .error .invalid
  | .exp0, c :: cs, acc =>
    if c.isDigit then scanNumber .exp0 cs (c :: acc)
    else .ok (⟨acc.reverse⟩, c :: cs)

/-- Scans the rest of `true`, `false` or `null` after its first letter. -/
def scanLiteral : List Char → List Char → Except ScanError (List Char)
  | [], cs => .ok cs
  | _ :: _, [] => .error .needMore
  | e :: es, c :: cs => if c = e then scanLiteral es cs else .error .invalid

/-- The nesting limit of the scanner (`maxNestingDepth`). -/
def maxNestingDepth : Nat := 10000

mutual
/-- Scans one JSON value at nesting depth `depth`.  `fuel` bounds the recursion: a value
costs one unit, and one more for each element or member it holds, so twice the length of the
input and one more is enough (`scanValue_fuel`). -/
def scanValue : Nat → Nat → List Char → Except ScanError (Json × List Char)
  | 0, _, _ => .error .invalid
  | fuel + 1, depth, cs =>
    match skipSpace cs with
    | [] => .error .needMore
    | c :: rest =>
      if c = '{' then
        if depth + 1 > maxNestingDepth then .error .invalid
        else match skipSpace rest with
          | [] => .error .needMore
          | c' :: rest' =>
            if c' = '}' then .ok (.object [], rest')
            else scanMembers fuel (depth + 1) (c' :: rest') []
      else if c = '[' then
        if depth + 1 > maxNestingDepth then .error .invalid
        else match skipSpace rest with
          | [] => .error .needMore
          | c' :: rest' =>
            if c' = ']' then .ok (.array [], rest')
            else scanElements fuel (depth + 1) (c' :: rest') []
      else if c = '"' then
        (scanString .plain rest []).map (fun r => (.string r.1, r.2))
      else if c = '-' then
        (scanNumber .neg rest [c]).map (fun r => (.number r.1, r.2))
      else if c = '0' then
        (scanNumber .zero rest [c]).map (fun r => (.number r.1, r.2))
      else if c.isDigit then
        (scanNumber .digits rest [c]).map (fun r => (.number r.1, r.2))
      else if c = 't' then (scanLiteral ['r', 'u', 'e'] rest).map (fun r => (.bool true, r))
      else if c = 'f' then
        (scanLiteral ['a', 'l', 's', 'e'] rest).map (fun r => (.bool false, r))
      else if c = 'n' then (scanLiteral ['u', 'l', 'l'] rest).map (fun r => (.null, r))
      else .error .invalid
/-- Scans the elements of an array from an element on, up to the closing bracket. -/
def scanElements : Nat → Nat → List Char → List Json → Except ScanError (Json × List Char)
  | 0, _, _, _ => .error .invalid
  | fuel + 1, depth, cs, acc =>
    match scanValue fuel depth cs with
    | .error e => .error e
    | .ok (v, rest) =>
      match skipSpace rest with
      | [] => .error .needMore
      | c :: rest' =>
        if c = ',' then scanElements fuel depth rest' (v :: acc)
        else if c = ']' then .ok (.array (v :: acc).reverse, rest')
        else .error .invalid
/-- Scans the members of an object from a key on, up to the closing brace. -/
def scanMembers : Nat → Nat → List Char → List (String × Json) →
    Except ScanError (Json × List Char)
  | 0, _, _, _ => .error .invalid
  | fuel + 1, depth, cs, acc =>
    match skipSpace cs with
    | [] => .error .needMore
    | q :: rest =>
      if q ≠ '"' then .error .invalid
      else match scanString .plain rest [] with
        | .error e => .error e
        | .ok (key, rest) =>
          match skipSpace rest with
          | [] => .error .needMore
          | c :: rest =>
            if c ≠ ':' then .error .invalid
            else match scanValue fuel depth rest with
              | .error e => .error e
              | .ok (v, rest) =>
                match skipSpace rest with
                | [] => .error .needMore
                | c :: rest' =>
                  if c = ',' then scanMembers fuel depth rest' ((key, v) :: acc)
                  else if c = '}' then .ok (.object ((key, v) :: acc).reverse, rest')
                  else .error .invalid
end

/-- The library errors that occur in the scenarios: `io.EOF`, `io.ErrUnexpectedEOF`,
`*json.SyntaxError`, `*json.UnmarshalTypeError` (with its `Value` and `Field`),
`*url.Error` (with `Op`, `URL` and the wrapped `Err`), the error of a done context, and
any other error, given by its text. -/
inductive LibError where
  | EOF
  | ErrUnexpectedEOF
  | SyntaxError
  | UnmarshalTypeError (value field : String)
  | urlError (op url : String) (err : LibError)
  | context (e : ContextError)
  | text (msg : String)
deriving DecidableEq

/-- Whether a value is an object or an array: the scanner knows at their closing byte that
these are complete, any other top-level value is complete only at the byte after it. -/
def Json.isComposite : Json → Bool
  | .array _ => true
  | .object _ => true
  | _ => false

/-- The method `Decoder.readValue`: the first JSON value of the stream, what follows it being left
unread.  A stream holding white space only ends with its own error or `io.EOF`; a stream
that ends inside a value ends with its own error or `io.ErrUnexpectedEOF`. -/
def readValue (body : Body LibError) : Except LibError Json :=
  match skipSpace body.data.data with
  | [] => .error (body.err.getD .EOF)
  | cs =>
    match scanValue (2 * cs.length + 1) 0 cs with
    | .error .needMore => .error (body.err.getD .ErrUnexpectedEOF)
    | .error .invalid => .error .SyntaxError
    | .ok (v, rest) =>
      if !v.isComposite && rest.isEmpty then
        match body.err with
        | some e => .error e
        | none => .ok v
      else .ok v

/-- The value of a hexadecimal digit. -/
def hexValue (c : Char) : Nat :=
  if c.isDigit then c.toNat - 48
  else if 'a' ≤ c && c ≤ 'f' then c.toNat - 87
  else c.toNat - 55

/-- The code unit written by four hexadecimal digits (`getu4`). -/
def getu4 (a b c d : Char) : Nat :=
  ((hexValue a * 16 + hexValue b) * 16 + hexValue c) * 16 + hexValue d

/-- What is written for a surrogate that found no partner: U+FFFD. -/
def flushSurrogate : Option Nat → List Char
  | some _ => [Char.ofNat 0xFFFD]
  | none => []

/-- The function `unquote` of `decode.go` on the text between the quotes of a scanned string:
escapes are replaced by the characters they stand for, a surrogate pair by its code point
and a lone surrogate by U+FFFD.  The first argument is a high surrogate read just before,
whose output waits for the next escape. -/
def unquoteChars : Option Nat → List Char → List Char
  | p, [] => flushSurrogate p
  | p, '\\' :: 'u' :: a :: b :: c :: d :: rest =>
    let r := getu4 a b c d
    match p with
    | some hi =>
      if 0xDC00 ≤ r ∧ r < 0xE000 then
        Char.ofNat ((hi - 0xD800) * 1024 + (r - 0xDC00) + 0x10000) :: unquoteChars none rest
      else if 0xD800 ≤ r ∧ r < 0xDC00 then Char.ofNat 0xFFFD :: unquoteChars (some r) rest
      else Char.ofNat 0xFFFD :: Char.ofNat r :: unquoteChars none rest
    | none =>
      if 0xD800 ≤ r ∧ r < 0xDC00 then unquoteChars (some r) rest
      else if 0xDC00 ≤ r ∧ r < 0xE000 then Char.ofNat 0xFFFD :: unquoteChars none rest
      else Char.ofNat r :: unquoteChars none rest
  | p, '\\' :: e :: rest =>
    flushSurrogate p ++
      (if e = 'b' then Char.ofNat 8 else if e = 'f' then Char.ofNat 12
       else if e = 'n' then '\n' else if e = 'r' then '\r' else if e = 't' then '\t'
       else e) :: unquoteChars none rest
  | p, c :: rest => flushSurrogate p ++ c :: unquoteChars none rest

/-- The Go string a scanned string or key denotes. -/
def unquote (raw : String) : String := ⟨unquoteChars none raw.data⟩

/-- How `decodeState.value` ends on a Go value: the value the Go value holds afterwards, the
error `saveError` has kept (`d.savedError`), and the error returned, after which nothing
more is decoded. -/
structure Stored (τ : Type) where
  value : τ
  savedError : Option LibError
  err : Option LibError
deriving DecidableEq

/-- The method `decodeState.value` on the Go values of one type: from the `FieldStack` of
the error context, the scanned JSON value, the value held and the error kept so far, to how
it ends. -/
abbrev ValueDecoder (τ : Type) := List String → Json → τ → Option LibError → Stored τ

/-- A field of the target struct: its JSON name and `decodeState.value` on the field, as a
function on the struct. -/
structure FieldDecoder (τ : Type) where
  name : String
  store : ValueDecoder τ

/-- The case folding of `foldName` on the characters that can fold to an ASCII letter:
the ASCII letters themselves, U+017F and U+212A. -/
def foldRune (c : Char) : Char :=
  if c.isLower then c.toUpper
  else if c.toNat = 0x17F then 'S'
  else if c.toNat = 0x212A then 'K'
  else c

/-- The folded form of a key or field name. -/
def foldName (s : String) : String := ⟨s.data.map foldRune⟩

/-- The field a key selects: the one of that exact name, else the first whose name equals
the key up to case folding. -/
def findField {τ : Type} (fields : List (FieldDecoder τ)) (key : String) :
    Option (FieldDecoder τ) :=
  match fields.find? (fun f => f.name = key) with
  | some f => some f
  | none => fields.find? (fun f => foldName f.name = foldName key)

/-- The `Value` an `UnmarshalTypeError` reports for a JSON value that does not fit the kind
of the Go value. -/
def Json.describe : Json → String
  | .null => "null"
  | .bool _ => "bool"
  | .number _ => "number"
  | .string _ => "string"
  | .array _ => "array"
  | .object _ => "object"

/-- The method `saveError` on an `UnmarshalTypeError` with the given `Value`: the first
error is the one kept; `addErrorContext` gives it the field stack, joined by periods, as its
`Field`. -/
def saveError (savedError : Option LibError) (fieldStack : List String) (value : String) :
    Option LibError :=
  match savedError with
  | some e => some e
  | none => some (.UnmarshalTypeError value (".".intercalate fieldStack))

/-- A JSON value that does not fit the Go value: the Go value is left as it is, the error
is saved and decoding goes on. -/
def mismatch {τ : Type} (fieldStack : List String) (value : String) (t : τ)
    (savedError : Option LibError) : Stored τ :=
  { value := t, savedError := saveError savedError fieldStack value, err := none }

/-- The loop of `decodeState.object` over the members of a JSON object, for a struct target:
a member whose key selects no field is skipped; the name of the field is pushed on the field
stack while its value is decoded; an error returned for a value ends the loop, as in
`decode.go` of Go 1.21.  An implementation that goes on after the error of an
`UnmarshalJSON` method differs in what the members after the failing one leave in the
target, not in the error; the scenarios below whose member fails in `UnmarshalJSON` have
that member last. -/
def storeMembers {τ : Type} (fields : List (FieldDecoder τ)) (fieldStack : List String) :
    List (String × Json) → τ → Option LibError → Stored τ
  | [], t, savedError => { value := t, savedError := savedError, err := none }
  | (key, v) :: members, t, savedError =>
    match findField fields (unquote key) with
    | none => storeMembers fields fieldStack members t savedError
    | some f =>
      let r := f.store (fieldStack ++ [f.name]) v t savedError
      match r.err with
      | some _ => r
      | none => storeMembers fields fieldStack members r.value r.savedError

/-- The method `decodeState.value` on a struct with the given fields: a JSON object is
stored member by member, `null` leaves the struct as it is, any other value does not
fit. -/
def decodeObject {τ : Type} (fields : List (FieldDecoder τ)) : ValueDecoder τ :=
  fun fieldStack v t savedError =>
    match v with
    | .object members => storeMembers fields fieldStack members t savedError
    | .null => { value := t, savedError := savedError, err := none }
    | v => mismatch fieldStack v.describe t savedError

/-- The end of `decodeState.unmarshal`: an error returned by `value` is returned, otherwise
the saved error. -/
def Stored.result {τ : Type} (r : Stored τ) : τ × Option LibError :=
  (r.value,
   match r.err with
   | some e => some e
   | none => r.savedError)

/-- The call `json.NewDecoder(body).Decode(&x)` for a struct variable `x` holding `t`: the
first JSON value of the stream is decoded into `x`; an error of the scanner leaves `x`
untouched. -/
def decodeStruct {τ : Type} (fields : List (FieldDecoder τ)) (body : Body LibError)
    (t : τ) : τ × Option LibError :=
  match readValue body with
  | .error e => (t, some e)
  | .ok v => (decodeObject fields [] v t none).result

/-- The function `json.Unmarshal(data, &x)` for a struct variable `x` holding `t`: `data`
must be one JSON value with nothing but white space around it (`checkValid`), which is then
decoded into `x`. -/
def Unmarshal {τ : Type} (fields : List (FieldDecoder τ)) (data : String) (t : τ) :
    τ × Option LibError :=
  match scanValue (2 * data.data.length + 1) 0 data.data with
  | .error _ => (t, some .SyntaxError)
  | .ok (v, rest) =>
    if (skipSpace rest).isEmpty then (decodeObject fields [] v t none).result
    else (t, some .SyntaxError)

/-- Storing into a field of Go type `string`: a JSON string sets it, `null` leaves it. -/
def storeString {τ : Type} (set : τ → String → τ) : ValueDecoder τ :=
  fun fieldStack v t savedError =>
    match v with
    | .string raw => { value := set t (unquote raw), savedError := savedError, err := none }
    | .null => { value := t, savedError := savedError, err := none }
    | v => mismatch fieldStack v.describe t savedError

/-- Storing into a field of Go type `bool`: `true` and `false` set it, `null` leaves it. -/
def storeBool {τ : Type} (set : τ → Bool → τ) : ValueDecoder τ :=
  fun fieldStack v t savedError =>
    match v with
    | .bool b => { value := set t b, savedError := savedError, err := none }
    | .null => { value := t, savedError := savedError, err := none }
    | v => mismatch fieldStack v.describe t savedError

/-- The value of a run of decimal digits, `none` when a character is not a digit. -/
def parseDigits : List Char → Nat → Option Nat
  | [], n => some n
  | c :: cs, n => if c.isDigit then parseDigits cs (10 * n + (c.toNat - 48)) else none

/-- The call `strconv.ParseInt(lit, 10, 64)` on a JSON number literal: `none` when the literal has a
fraction or an exponent or is outside the range of `int64`. -/
def parseInt64 (lit : String) : Option Int :=
  match lit.data with
  | '-' :: ds =>
    match parseDigits ds 0 with
    | some n => if n ≤ 2 ^ 63 then some (-(n : Int)) else none
    | none => none
  | ds =>
    match parseDigits ds 0 with
    | some n => if n < 2 ^ 63 then some (n : Int) else none
    | none => none

/-- Storing into a field of Go type `int64`: a JSON number that `ParseInt` accepts sets it,
`null` leaves it; a number that `ParseInt` rejects is reported with its literal. -/
def storeInt64 {τ : Type} (set : τ → Int → τ) : ValueDecoder τ :=
  fun fieldStack v t savedError =>
    match v with
    | .number lit =>
      match parseInt64 lit with
      | some n => { value := set t n, savedError := savedError, err := none }
      | none => mismatch fieldStack ("number " ++ lit) t savedError
    | .null => { value := t, savedError := savedError, err := none }
    | v => mismatch fieldStack v.describe t savedError

/-- Storing into a field whose value is decoded by `decode`: the field is read with `get`
and written with `set`. -/
def storeField {τ α : Type} (get : τ → α) (set : τ → α → τ) (decode : ValueDecoder α) :
    ValueDecoder τ :=
  fun fieldStack v t savedError =>
    let r := decode fieldStack v (get t) savedError
    { value := set t r.value, savedError := r.savedError, err := r.err }

/-- The loop of `decodeState.array` over the elements of a JSON array, for a slice without
spare capacity: element `i` is decoded into the element the slice holds at `i`, or into a
zero element when the slice is shorter.  `old` holds the elements of the slice from index
`i` on.  When an element returns an error the loop ends and the elements after it stay. -/
def storeElements {α : Type} (zero : α) (decode : ValueDecoder α) (fieldStack : List String) :
    List Json → List α → Option LibError → Stored (List α)
  | [], _, savedError => { value := [], savedError := savedError, err := none }
  | v :: items, old, savedError =>
    let r := decode fieldStack v (old.headD zero) savedError
    match r.err with
    | some e => { value := r.value :: old.tail, savedError := r.savedError, err := some e }
    | none =>
      let rest := storeElements zero decode fieldStack items old.tail r.savedError
      { rest with value := r.value :: rest.value }

/-- The method `decodeState.value` on a slice, `none` being the nil slice: a JSON array is
stored element by element and the slice is cut to the number of elements, an empty array
giving an empty slice that is not nil; `null` sets the nil slice; any other value does not
fit. -/
def decodeSlice {α : Type} (zero : α) (decode : ValueDecoder α) :
    ValueDecoder (Option (List α)) :=
  fun fieldStack v s savedError =>
    match v with
    | .array items =>
      let r := storeElements zero decode fieldStack items (s.getD []) savedError
      { value := some r.value, savedError := r.savedError, err := r.err }
    | .null => { value := none, savedError := savedError, err := none }
    | v => mismatch fieldStack v.describe s savedError

/-! ## The scenarios of `client_test.go` -/

/-- The struct `TestResponseMessage` of `TestInvokeEndpoint_Basic`. -/
structure TestResponseMessage where
  OperationID : String
deriving DecidableEq

/-- The field of `TestResponseMessage`, with its tag `json:"operation_id"`. -/
def TestResponseMessage.fields : List (FieldDecoder TestResponseMessage) :=
  [{ name := "operation_id", store := storeString (fun t s => { t with OperationID := s }) }]

/-- The fields of `TransactionError`, with their tags. -/
def TransactionError.fields : List (FieldDecoder TransactionError) :=
  [{ name := "ErrorID", store := storeInt64 (fun t n => { t with ErrorID := n }) },
   { name := "ErrorMessage", store := storeString (fun t s => { t with ErrorMessage := s }) }]

/-- The `Op` of the `*url.Error` that `http.Client.Do` returns (`urlErrorOp`). -/
def urlErrorOp (method : String) : String :=
  if method = "" then "Get"
  else ⟨method.data.take 1 ++ (method.data.drop 1).map Char.toLower⟩

/-- An `*http.Client` in front of a server that answers every request with the given status
code and body, as `httptest.NewServer` does in the tests.  As `http.Transport` does, `Do`
fails with the error of the request's context when that context is done. -/
def serverClient (statusCode : Int) (body : String) : HttpClient LibError String where
  Do req :=
    match req.ctx.err with
    | some e => .error (.urlError (urlErrorOp req.method) req.url (.context e))
    | none => .ok { statusCode := statusCode, body := { data := body, err := none } }

/-- The `*http.Client` of `TestInvokeEndpoint_GoError`, whose transport fails every request
with the error `oh no an error`. -/
def failingClient : HttpClient LibError String where
  Do req := .error (.urlError (urlErrorOp req.method) req.url (.text "oh no an error"))

/-- The function `url.Parse` at the URLs of the scenarios, and only there: these are made of
the scheme `https`, the host `example.com` and a path and query of letters, digits and the
characters `/`, `?`, `=`, `%`, which `url.Parse` accepts; the parsed URL is
represented by its text.  Of the checks of `url.Parse` the first alone is written out: a
URL holding an ASCII control character is rejected.  The theorems that hold for every call
take `url.Parse` as the field `parseURL` of an arbitrary environment; this function enters
the closed scenarios only. -/
def testParseURL (rawURL : String) : Except LibError String :=
  if rawURL.data.any (fun c => c.toNat < 32 || c.toNat = 127) then
    .error (.urlError "parse" rawURL (.text "net/url: invalid control character in URL"))
  else .ok rawURL

/-- The library as the scenarios use it: request values are Go booleans, the target is a
struct with the given fields, the default client reaches a server answering `200` with an
empty JSON object. -/
def testEnv {τ : Type} (fields : List (FieldDecoder τ)) : Env Bool τ LibError String where
  marshal b := .ok (if b then "true" else "false")
  decode := decodeStruct fields
  parseURL := testParseURL
  defaultClient := serverClient 200 "\x7b\x7d"

/-- The client of the tests,
`New("https://example.com/api", "acme", "1234!", WithHTTPClient(httpClient))`. -/
def testConnection {τ : Type} (fields : List (FieldDecoder τ))
    (httpClient : HttpClient LibError String) : nsHTTPClient LibError String :=
  New (testEnv fields) "https://example.com/api" "acme" "1234!"
    [WithHTTPClient (some httpClient)]

/-- The request the tests expect at the server for endpoint `/endpoint`. -/
def testRequest (ctx : Context) (method body : String) : Request String :=
  { ctx := ctx, method := method, url := "https://example.com/api/endpoint",
    header := [("Content-Type", ["application/json"]), ("Username", ["acme"]),
      ("Password", ["1234!"])],
    body := body }

/-- The response body written by the handler of `TestInvokeEndpoint_Basic`. -/
def basicBody : String :=
  "\x7b\"ok\": true,\"operation_id\": \"df6a6b50\",\"push_ids\": [\"9d78a53b\"]," ++
    "\"message_ids\": [], \"content_urls\": []\x7d"

/-- The response body written by the handler of `TestInvokeEndpoint_HttpError`,
sent with status `403`. -/
def forbiddenBody : String := "\x7b\"error\": \"Forbidden\"\x7d"

/-- A live context, as `context.Background()`. -/
def background : Context := { err := none }

/-! ## The package `time`

A `time.Time` is represented by its calendar reading in its own zone together with the
offset of that zone: two `time.Time` values with the same reading and the same offset denote
the same instant at the same offset.  The name and the identity of the location (`UTC`,
`Local`, a fixed zone) are not represented.  The functions follow the sources of Go 1.21. -/

/-- A `time.Time`: the date and the clock it shows in its zone, and the offset of that zone
east of UTC in seconds. -/
structure GoTime where
  year : Int
  month : Nat
  day : Nat
  hour : Nat
  minute : Nat
  second : Nat
  nanosecond : Nat
  offset : Int
deriving DecidableEq

/-- The zero `time.Time`: January 1, year 1, 00:00:00 UTC. -/
def GoTime.zero : GoTime :=
  { year := 1, month := 1, day := 1, hour := 0, minute := 0, second := 0, nanosecond := 0,
    offset := 0 }

/-- The function `isLeap` of `time`. -/
def isLeap (year : Int) : Bool :=
  year % 4 = 0 && (year % 100 ≠ 0 || year % 400 = 0)

/-- The function `daysIn` of `time`: the number of days of a month of a year. -/
def daysIn (month : Nat) (year : Int) : Nat :=
  if month = 2 then (if isLeap year then 29 else 28)
  else if month = 4 ∨ month = 6 ∨ month = 9 ∨ month = 11 then 30
  else 31

/-- The readings a `time.Time` can show: a day of the calendar and a time of the day. -/
def GoTime.Valid (t : GoTime) : Prop :=
  1 ≤ t.month ∧ t.month ≤ 12 ∧ 1 ≤ t.day ∧ t.day ≤ daysIn t.month t.year ∧
    t.hour < 24 ∧ t.minute < 60 ∧ t.second < 60 ∧ t.nanosecond < 1000000000

instance (t : GoTime) : Decidable t.Valid := by
  unfold GoTime.Valid
  infer_instance

/-- The function `appendInt` of `time`: the decimal digits of `x`, padded with zeros on the
left to `width` digits, after a minus sign when `x` is negative. -/
def appendInt (x : Int) (width : Nat) : List Char :=
  (if x < 0 then ['-'] else []) ++
    List.replicate (width - (Nat.toDigits 10 x.natAbs).length) '0' ++
    Nat.toDigits 10 x.natAbs

/-- Removes the zeros at the end of a run of digits. -/
def trimZeros (digits : List Char) : List Char :=
  (digits.reverse.dropWhile (fun c => c = '0')).reverse

/-- The function `appendNano` of `time` for the layout element `.999999999`: nothing for a
whole second, otherwise a period and the nine digits of the nanoseconds without the zeros at
their end. -/
def appendNano (nanosecond : Nat) : List Char :=
  if nanosecond = 0 then [] else '.' :: trimZeros (appendInt nanosecond 9)

/-- The zone written for the layout element `Z07:00`: `Z` for offset zero, otherwise the
sign, the hours and the minutes of the offset.  The offset is first divided by 60, Go's
division truncating toward zero; the sign is that of the quotient. -/
def appendZone (offset : Int) : List Char :=
  if offset = 0 then ['Z']
  else
    (if offset ≤ -60 then '-' else '+') ::
      appendInt ((offset.natAbs / 60 / 60 : Nat) : Int) 2 ++
      ':' :: appendInt ((offset.natAbs / 60 % 60 : Nat) : Int) 2

/-- The method `Time.appendFormatRFC3339(b, true)`: the time in the layout
`2006-01-02T15:04:05.999999999Z07:00` (`time.RFC3339Nano`). -/
def appendFormatRFC3339 (t : GoTime) : List Char :=
  appendInt t.year 4 ++ '-' :: appendInt t.month 2 ++ '-' :: appendInt t.day 2 ++
    'T' :: appendInt t.hour 2 ++ ':' :: appendInt t.minute 2 ++ ':' :: appendInt t.second 2 ++
    appendNano t.nanosecond ++ appendZone t.offset

/-- The method `time.Time.MarshalJSON`: the quoted `RFC3339Nano` text.  The checks that
`appendStrictRFC3339` makes on the written bytes (the year is four digits wide, the hour of
the zone is two digits wide and below 24) are made here on the numbers. -/
def timeMarshalJSON (t : GoTime) : Except LibError String :=
  if t.year < 0 ∨ 9999 < t.year then
    .error (.text "Time.MarshalJSON: year outside of range [0,9999]")
  else if t.offset ≠ 0 ∧ 24 ≤ t.offset.natAbs / 60 / 60 then
    .error (.text "Time.MarshalJSON: timezone hour outside of range [0,23]")
  else .ok ⟨'"' :: appendFormatRFC3339 t ++ ['"']⟩

/-- The function `isDigit(s, 0)` of `time`. -/
def isDigitAt (s : List Char) : Bool :=
  match s with
  | c :: _ => c.isDigit
  | [] => false

/-- The function `getnum` of `time`: a number of two digits, or of one digit when `fixed`
is false and no second digit follows. -/
def getnum (s : List Char) (fixed : Bool) : Option (Nat × List Char) :=
  match s with
  | a :: rest =>
    if !a.isDigit then none
    else
      match rest with
      | b :: rest' =>
        if b.isDigit then some ((a.toNat - 48) * 10 + (b.toNat - 48), rest')
        else if fixed then none else some (a.toNat - 48, rest)
      | [] => if fixed then none else some (a.toNat - 48, rest)
  | [] => none

/-- The value of a run of characters that are all decimal digits (`atoi`, `parseUint`);
`none` when a character is not a digit. -/
def digitsValue : List Char → Nat → Option Nat
  | [], n => some n
  | c :: cs, n => if c.isDigit then digitsValue cs (10 * n + (c.toNat - 48)) else none

/-- The fractional second after its separator, as `parseNanoseconds` reads it: the digits
that follow, of which nine at most count, scaled to nanoseconds, and the input after the
digits. -/
def parseFraction (afterSeparator : List Char) : Nat × List Char :=
  let digits := (afterSeparator.takeWhile Char.isDigit).take 9
  (digits.foldl (fun n c => 10 * n + (c.toNat - 48)) 0 * 10 ^ (9 - digits.length),
   afterSeparator.dropWhile Char.isDigit)

/-- The fractional second that may follow the seconds: a period, or a comma when
`allowComma` holds, followed by a digit.  Gives the nanoseconds, if a fraction is there, and
the input after it. -/
def optionalFraction (allowComma : Bool) (value : List Char) : Option Nat × List Char :=
  match value with
  | sep :: d :: rest =>
    if (sep = '.' ∨ (allowComma = true ∧ sep = ',')) ∧ d.isDigit = true then
      (some (parseFraction (d :: rest)).1, (parseFraction (d :: rest)).2)
    else (none, value)
  | _ => (none, value)

/-- The elements of a layout, as `nextStdChunk` cuts it: literal text, `2006`, `01`, `02`,
`15`, `04`, `05`, `Z07:00` and `-07:00`. -/
inductive Chunk where
  | literal (text : List Char)
  | longYear
  | zeroMonth
  | zeroDay
  | hour
  | zeroMinute
  | zeroSecond
  | iso8601ColonTZ
  | numColonTZ
deriving DecidableEq

/-- The function `skip` of `time`: the literal text of a layout is matched byte by byte,
except that a run of spaces in the layout matches a run of spaces in the value, which may be
empty only at the end of the value.  `inSpaces` holds while a run of spaces of the layout is
being passed. -/
def skip : Bool → List Char → List Char → Option (List Char)
  | _, [], value => some value
  | inSpaces, p :: text, value =>
    if p = ' ' then
      if inSpaces then skip true text value
      else
        match value with
        | v :: _ =>
          if v ≠ ' ' then none else skip true text (value.dropWhile (fun c => c = ' '))
        | [] => skip true text value
    else
      match value with
      | v :: value' => if v = p then skip false text value' else none
      | [] => none

/-- What `time.Parse` has read so far: the fields of the date and the clock, and the offset
of the zone in seconds, which is zero for `Z` and when the value names no zone. -/
structure Parsed where
  year : Nat
  month : Nat
  day : Nat
  hour : Nat
  minute : Nat
  second : Nat
  nanosecond : Nat
  offset : Int
deriving DecidableEq

/-- The zone of the layout elements `Z07:00` (`allowZ`) and `-07:00`: `Z`, or a sign, two
digits, a colon and two digits, the hours being at most 24 and the minutes at most 60. -/
def parseZone (allowZ : Bool) (value : List Char) : Option (Int × List Char) :=
  match value with
  | 'Z' :: rest => if allowZ then some (0, rest) else none
  | sign :: h1 :: h2 :: colon :: m1 :: m2 :: rest =>
    if colon ≠ ':' then none
    else
      match getnum [h1, h2] true, getnum [m1, m2] true with
      | some (hr, _), some (mm, _) =>
        if hr > 24 ∨ mm > 60 then none
        else if sign = '+' then some ((((hr * 60 + mm) * 60 : Nat) : Int), rest)
        else if sign = '-' then some (-(((hr * 60 + mm) * 60 : Nat) : Int), rest)
        else none
      | _, _ => none
  | _ => none

/-- The fields before anything is read: year 0, January 1, midnight, no zone. -/
def Parsed.initial : Parsed :=
  { year := 0, month := 1, day := 1, hour := 0, minute := 0, second := 0, nanosecond := 0,
    offset := 0 }

/-- One turn of the loop of `time.Parse`: the value is matched against one element of the
layout.  The month, the hour, the minute and the second are checked against their ranges as
they are read; the day is checked at the end.  After the seconds a fractional second is
accepted although the layout has none: a period or a comma followed by a digit.  Without
it the nanoseconds stay as they are. -/
def parseChunk (chunk : Chunk) (p : Parsed) (value : List Char) :
    Option (Parsed × List Char) :=
  match chunk with
  | .literal text => (skip false text value).map (fun v => (p, v))
  | .longYear =>
    match value with
    | a :: b :: c :: d :: rest =>
      if !a.isDigit then none
      else (digitsValue [a, b, c, d] 0).map (fun y => ({ p with year := y }, rest))
    | _ => none
  | .zeroMonth =>
    match getnum value true with
    | some (m, rest) => if m = 0 ∨ 12 < m then none else some ({ p with month := m }, rest)
    | none => none
  | .zeroDay =>
    match getnum value true with
    | some (d, rest) => some ({ p with day := d }, rest)
    | none => none
  | .hour =>
    match getnum value false with
    | some (h, rest) => if 24 ≤ h then none else some ({ p with hour := h }, rest)
    | none => none
  | .zeroMinute =>
    match getnum value true with
    | some (m, rest) => if 60 ≤ m then none else some ({ p with minute := m }, rest)
    | none => none
  | .zeroSecond =>
    match getnum value true with
    | some (s, rest) =>
      if 60 ≤ s then none
      else
        some ({ p with second := s,
                       nanosecond := (optionalFraction true rest).1.getD p.nanosecond },
              (optionalFraction true rest).2)
    | none => none
  | .iso8601ColonTZ => (parseZone true value).map (fun r => ({ p with offset := r.1 }, r.2))
  | .numColonTZ => (parseZone false value).map (fun r => ({ p with offset := r.1 }, r.2))

/-- The loop of `time.Parse` over the elements of the layout. -/
def parseChunks : List Chunk → Parsed → List Char → Option (Parsed × List Char)
  | [], p, value => some (p, value)
  | chunk :: layout, p, value =>
    match parseChunk chunk p value with
    | some (p', value') => parseChunks layout p' value'
    | none => none

/-- The function `time.Parse` for a layout cut into its elements: the value is read
element by element, nothing may follow the last element, and the day must exist in its
month.  The time returned shows the fields read, in a zone of the offset read. -/
def parseLayout (layout : List Chunk) (value : String) : Option GoTime :=
  match parseChunks layout Parsed.initial value.data with
  | some (p, []) =>
    if p.day < 1 ∨ daysIn p.month p.year < p.day then none
    else
      some { year := p.year, month := p.month, day := p.day, hour := p.hour,
             minute := p.minute, second := p.second, nanosecond := p.nanosecond,
             offset := p.offset }
  | _ => none

/-- The date and the clock of the four layouts, the date separated from the clock by
`separator`. -/
def dateTimeChunks (separator : Char) : List Chunk :=
  [.longYear, .literal ['-'], .zeroMonth, .literal ['-'], .zeroDay, .literal [separator],
   .hour, .literal [':'], .zeroMinute, .literal [':'], .zeroSecond]

/-- The elements `nextStdChunk` cuts each layout of `time.go` into; `none` for any other
layout. -/
def layoutChunks (layout : String) : Option (List Chunk) :=
  if layout = "2006-01-02T15:04:05Z07:00" then some (dateTimeChunks 'T' ++ [.iso8601ColonTZ])
  else if layout = "2006-01-02 15:04:05Z07:00" then
    some (dateTimeChunks ' ' ++ [.iso8601ColonTZ])
  else if layout = "2006-01-02T15:04:05" then some (dateTimeChunks 'T')
  else if layout = "2006-01-02T15:04:05-07:00" then some (dateTimeChunks 'T' ++ [.numColonTZ])
  else none

/-- The function `time.Parse(layout, value)`, for the layouts of `time.go`. -/
def timeParse (layout value : String) : Option GoTime :=
  match layoutChunks layout with
  | some chunks => parseLayout chunks value
  | none => none

/-- The helper `parseUint` of `parseRFC3339`: a run of digits whose value lies between
`min` and `max`. -/
def parseUint (s : List Char) (min max : Nat) : Option Nat :=
  match digitsValue s 0 with
  | some x => if x < min ∨ max < x then none else some x
  | none => none

/-- The zone of `parseRFC3339`: `Z` alone, or a sign, two digits for an hour up to 23, a
colon and two digits for a minute up to 59, with nothing after them. -/
def parseZoneRFC3339 (s : List Char) : Option Int :=
  match s with
  | ['Z'] => some 0
  | [sign, h1, h2, colon, m1, m2] =>
    match parseUint [h1, h2] 0 23, parseUint [m1, m2] 0 59 with
    | some hr, some mm =>
      if colon ≠ ':' then none
      else if sign = '+' then some ((((hr * 60 + mm) * 60 : Nat) : Int))
      else if sign = '-' then some (-(((hr * 60 + mm) * 60 : Nat) : Int))
      else none
    | _, _ => none
  | _ => none

/-- The function `parseRFC3339` of `time`, the fast path for the layout `RFC3339`: the
fields are read at fixed positions and checked against their ranges, an optional fractional
second follows a period, and the zone ends the text. -/
def parseRFC3339 (s : List Char) : Option GoTime :=
  match s with
  | y1 :: y2 :: y3 :: y4 :: c1 :: m1 :: m2 :: c2 :: d1 :: d2 :: cT :: h1 :: h2 :: c3 ::
      n1 :: n2 :: c4 :: s1 :: s2 :: rest =>
    match parseUint [y1, y2, y3, y4] 0 9999, parseUint [m1, m2] 1 12 with
    | some year, some month =>
      match parseUint [d1, d2] 1 (daysIn month year), parseUint [h1, h2] 0 23,
          parseUint [n1, n2] 0 59, parseUint [s1, s2] 0 59 with
      | some day, some hour, some minute, some second =>
        if c1 = '-' ∧ c2 = '-' ∧ cT = 'T' ∧ c3 = ':' ∧ c4 = ':' then
          match parseZoneRFC3339 (optionalFraction false rest).2 with
          | some offset =>
            some { year := year, month := month, day := day, hour := hour,
                   minute := minute, second := second,
                   nanosecond := (optionalFraction false rest).1.getD 0,
                   offset := offset }
          | none => none
        else none
      | _, _, _, _ => none
    | _, _ => none
  | _ => none

/-- The function `parseStrictRFC3339` of `time`: the fast path, and when it fails
`time.Parse` with the layout `RFC3339`, whose result is returned as it is. -/
def parseStrictRFC3339 (s : String) : Option GoTime :=
  match parseRFC3339 s.data with
  | some t => some t
  | none => timeParse "2006-01-02T15:04:05Z07:00" s

/-- The method `time.Time.UnmarshalJSON` on a zero `time.Time`: the time it leaves there,
or `none` for an error.  The data `null` leaves the zero time; any other data must be a
quoted text that `parseStrictRFC3339` accepts. -/
def timeUnmarshalJSON (data : String) : Option GoTime :=
  if data = "null" then some GoTime.zero
  else
    match data.data with
    | first :: rest =>
      match rest.getLast? with
      | some last =>
        if first = '"' ∧ last = '"' then parseStrictRFC3339 ⟨rest.dropLast⟩ else none
      | none => none
    | [] => none

/-- The functions of the package `time` that `time.go` calls, for a representation `θ` of
`time.Time`: `MarshalJSON`; `UnmarshalJSON` on a zero `time.Time`, giving the time it leaves
there or `none` for an error; and `Parse`, giving `none` for an error. -/
structure TimeLib (θ : Type) where
  MarshalJSON : θ → Except LibError String
  UnmarshalJSON : String → Option θ
  Parse : String → String → Option θ

/-- The package `time` on `GoTime`. -/
def goTime : TimeLib GoTime where
  MarshalJSON := timeMarshalJSON
  UnmarshalJSON := timeUnmarshalJSON
  Parse := timeParse

/-! ## `time.go` -/

/-- The method `(t Time) MarshalJSON()`. -/
def Time.MarshalJSON {θ : Type} (lib : TimeLib θ) (t : θ) : Except LibError String :=
  lib.MarshalJSON t

/-- How a call of `UnmarshalJSON` ends: it returns, leaving a value in the receiver and
giving an error or nil, or it panics on an index or a slice bound out of range. -/
inductive Unmarshaled (θ : Type) where
  | returned (t : θ) (err : Option LibError)
  | panicked
deriving DecidableEq

/-- The method `(t *Time) UnmarshalJSON(data)` for a receiver holding `t`.  `data[0]` needs
one byte and `s[1 : len(s)-1]` needs two; the four parsers are tried in order, the first
being given `data` and the other three the text between the quotes. -/
def Time.UnmarshalJSON {θ : Type} (lib : TimeLib θ) (t : θ) (data : String) :
    Unmarshaled θ :=
  match data.data with
  | [] => .panicked
  | first :: rest =>
    if first ≠ '"' ∨ (first :: rest).getLast? ≠ some '"' then
      .returned t (some (.text "invalid JSON string"))
    else if rest = [] then .panicked
    else
      let s : String := ⟨rest.dropLast⟩
      match lib.UnmarshalJSON data with
      | some tm => .returned tm none
      | none =>
        match lib.Parse "2006-01-02 15:04:05Z07:00" s with
        | some tm => .returned tm none
        | none =>
          match lib.Parse "2006-01-02T15:04:05" s with
          | some tm => .returned tm none
          | none =>
            match lib.Parse "2006-01-02T15:04:05-07:00" s with
            | some tm => .returned tm none
            | none => .returned t (some (.text "invalid time format"))

/-! ## Texts of dates and times -/

/-- The `width` last decimal digits of `n`, most significant first. -/
def digitsFixed : Nat → Nat → List Char
  | 0, _ => []
  | width + 1, n => digitsFixed width (n / 10) ++ [Nat.digitChar (n % 10)]

/-- The text `YYYY-MM-DD?HH:MM:SS` of a date and a clock, `separator` standing between the
day and the hour. -/
def dateTimeText (year month day hour minute second : Nat) (separator : Char) : List Char :=
  appendInt year 4 ++ '-' :: appendInt month 2 ++ '-' :: appendInt day 2 ++
    separator :: appendInt hour 2 ++ ':' :: appendInt minute 2 ++ ':' :: appendInt second 2

/-- The text `±HH:MM` of a numeric offset: the sign, the hours and the minutes. -/
def offsetText (negative : Bool) (hours minutes : Nat) : List Char :=
  (if negative then '-' else '+') :: appendInt hours 2 ++ ':' :: appendInt minutes 2

/-- The offset in seconds that `±HH:MM` denotes. -/
def offsetSeconds (negative : Bool) (hours minutes : Nat) : Int :=
  if negative then -(((hours * 60 + minutes) * 60 : Nat) : Int)
  else (((hours * 60 + minutes) * 60 : Nat) : Int)

/-- The canonical form the specification describes for an encoded time,
`"YYYY-MM-DDTHH:MM:SS.ffffff±HH:MM"`: six digits of microseconds and a numeric offset, with
sign, also for offset zero. -/
def canonicalText (t : GoTime) : String :=
  ⟨'"' :: dateTimeText t.year.toNat t.month t.day t.hour t.minute t.second 'T' ++
    '.' :: appendInt ((t.nanosecond / 1000 : Nat) : Int) 6 ++
    offsetText (decide (t.offset < 0)) (t.offset.natAbs / 60 / 60) (t.offset.natAbs / 60 % 60) ++
    ['"']⟩

/-- A text between double quotes. -/
def quoted (text : List Char) : String := ⟨'"' :: text ++ ['"']⟩

/-- The nanoseconds that the digits of a fractional second denote, for nine digits at most:
the number they write, scaled by the digits that are missing. -/
def fractionNanoseconds (digits : List Char) : Nat :=
  digits.foldl (fun n c => 10 * n + (c.toNat - 48)) 0 * 10 ^ (9 - digits.length)

/-- The text of a fractional second: nothing for no digits, otherwise a period and the
digits. -/
def fractionText (digits : List Char) : List Char :=
  if digits = [] then [] else '.' :: digits

/-- The zone a text of a time ends with: `Z`, or a numeric offset `±HH:MM`. -/
inductive ZoneText where
  | utc
  | numeric (negative : Bool) (hours minutes : Nat)
deriving DecidableEq

/-- The characters of a zone. -/
def ZoneText.text : ZoneText → List Char
  | .utc => ['Z']
  | .numeric negative hours minutes => offsetText negative hours minutes

/-- The offset in seconds that a zone denotes. -/
def ZoneText.seconds : ZoneText → Int
  | .utc => 0
  | .numeric negative hours minutes => offsetSeconds negative hours minutes

/-- The zones with an hour up to 23 and a minute up to 59. -/
def ZoneText.InRange : ZoneText → Prop
  | .utc => True
  | .numeric _ hours minutes => hours ≤ 23 ∧ minutes ≤ 59

/-- A date of the calendar and a time of the day, to the second. -/
structure DateTime where
  year : Nat
  month : Nat
  day : Nat
  hour : Nat
  minute : Nat
  second : Nat
deriving DecidableEq

/-- The valid calendar date-times with a year of four digits: the month and the day exist,
the hour is below 24, the minute and the second are below 60. -/
def DateTime.Valid (c : DateTime) : Prop :=
  c.year ≤ 9999 ∧ 1 ≤ c.month ∧ c.month ≤ 12 ∧ 1 ≤ c.day ∧ c.day ≤ daysIn c.month c.year ∧
    c.hour < 24 ∧ c.minute < 60 ∧ c.second < 60

instance (c : DateTime) : Decidable c.Valid := by
  unfold DateTime.Valid
  infer_instance

/-- The text `YYYY-MM-DD?HH:MM:SS` of a date-time. -/
def DateTime.text (c : DateTime) (separator : Char) : List Char :=
  dateTimeText c.year c.month c.day c.hour c.minute c.second separator

/-- The `time.Time` that shows a date-time and a fractional second at an offset. -/
def DateTime.at (c : DateTime) (nanosecond : Nat) (offset : Int) : GoTime :=
  { year := c.year, month := c.month, day := c.day, hour := c.hour, minute := c.minute,
    second := c.second, nanosecond := nanosecond, offset := offset }

/-! ## The times of `time_test.go` -/

/-- The time `time.Date(2021, 1, 2, 3, 4, 5, 1000, EST)` of the tests, `EST` being the
location `America/New_York`, five hours west of UTC on that day. -/
def dateTime : GoTime :=
  { year := 2021, month := 1, day := 2, hour := 3, minute := 4, second := 5,
    nanosecond := 1000, offset := -18000 }

/-! ## The types of the package under `encoding/json` -/

/-- The bytes of a scanned value that is not an array or an object, as `literalStore` hands
them to `UnmarshalJSON`: the literal as it was written, a string with its quotes. -/
def Json.literal : Json → Option String
  | .null => some "null"
  | .bool true => some "true"
  | .bool false => some "false"
  | .number lit => some lit
  | .string raw => some ⟨'"' :: raw.data ++ ['"']⟩
  | .array _ => none
  | .object _ => none

/-- The method `decodeState.value` on a `Time`, whose pointer is an `Unmarshaler`: whatever
the JSON value is, `null` included, its bytes are given to `UnmarshalJSON` and the error of
that call is returned.  The bytes of an array or of an object begin with a bracket or a
brace, for which `UnmarshalJSON` returns its first error.  The bytes of a scanned value are
not empty and a scanned string has both its quotes, so `UnmarshalJSON` does not panic on
them; the model gives the panic as an error. -/
def decodeTime {θ : Type} (lib : TimeLib θ) : ValueDecoder θ :=
  fun _ v t savedError =>
    match v.literal with
    | some data =>
      match Time.UnmarshalJSON lib t data with
      | .returned t' err => { value := t', savedError := savedError, err := err }
      | .panicked =>
        { value := t, savedError := savedError,
          err := some (.text "runtime error: index out of range") }
    | none =>
      { value := t, savedError := savedError, err := some (.text "invalid JSON string") }

/-- The fields of `Transaction`, with their tags. -/
def Transaction.fields {θ : Type} (lib : TimeLib θ) : List (FieldDecoder (Transaction θ)) :=
  [{ name := "TransactionId", store := storeString (fun t s => { t with TransactionID := s }) },
   { name := "TransactionDate",
     store := storeField (fun t => t.TransactionDate)
       (fun t d => { t with TransactionDate := d }) (decodeTime lib) },
   { name := "TransactionComment",
     store := storeString (fun t s => { t with TransactionComment := s }) },
   { name := "TransactionSuccessFlag",
     store := storeBool (fun t b => { t with TransactionSuccessFlag := b }) },
   { name := "TransactionErrors",
     store := storeField (fun t => t.TransactionErrors)
       (fun t l => { t with TransactionErrors := l })
       (decodeSlice { ErrorID := 0, ErrorMessage := "" }
         (decodeObject TransactionError.fields)) }]

/-- The field of `ChangePasswordSubmitResponseMessage`: the embedded `Transaction`, which
its tag makes a field of the name `Transaction`. -/
def ChangePasswordSubmitResponseMessage.fields {θ : Type} (lib : TimeLib θ) :
    List (FieldDecoder (ChangePasswordSubmitResponseMessage θ)) :=
  [{ name := "Transaction",
     store := storeField (fun r => r.Transaction) (fun r t => { r with Transaction := t })
       (decodeObject (Transaction.fields lib)) }]

/-- What `encodeState.string` writes for one character of a string, HTML escaping being on:
the quote and the backslash after a backslash, the backspace, the form feed, the line feed,
the carriage return and the tab by their letter (the backspace and the form feed since
Go 1.22; before, they were written as `\u0008` and `\u000c`), the other control characters
and `<`, `>`, `&` as `\u00XX`, U+2028 and U+2029 as `\u202X`, any other character as it
is. -/
def encodeRune (c : Char) : List Char :=
  if c.toNat < 128 then
    if c = '\\' ∨ c = '"' then ['\\', c]
    else if c.toNat = 8 then ['\\', 'b']
    else if c.toNat = 12 then ['\\', 'f']
    else if c = '\n' then ['\\', 'n']
    else if c = '\r' then ['\\', 'r']
    else if c = '\t' then ['\\', 't']
    else if c.toNat < 32 ∨ c = '<' ∨ c = '>' ∨ c = '&' then
      ['\\', 'u', '0', '0', Nat.digitChar (c.toNat / 16), Nat.digitChar (c.toNat % 16)]
    else [c]
  else if c.toNat = 0x2028 ∨ c.toNat = 0x2029 then
    ['\\', 'u', '2', '0', '2', Nat.digitChar (c.toNat % 16)]
  else [c]

/-- The JSON text `json.Marshal` writes for a Go string of valid UTF-8. -/
def encodeString (s : String) : String :=
  ⟨'"' :: s.data.flatMap encodeRune ++ ['"']⟩

/-- The call `json.Marshal(request)` for a `ChangePasswordSubmitRequestMessage`. -/
def ChangePasswordSubmitRequestMessage.marshal (request : ChangePasswordSubmitRequestMessage) :
    String :=
  "\x7b\"NewPassword\":" ++ encodeString request.NewPassword ++ "\x7d"

/-- The library for a call whose request values are marshalled by `marshal` and whose
target is a struct with the given fields, decoded as `encoding/json` does; `url.Parse` and
the default client are left open. -/
def apiEnv {β τ υ : Type} (marshal : β → String) (fields : List (FieldDecoder τ))
    (parseURL : String → Except LibError υ) (defaultClient : HttpClient LibError υ) :
    Env β τ LibError υ where
  marshal v := .ok (marshal v)
  decode := decodeStruct fields
  parseURL := parseURL
  defaultClient := defaultClient

/-- The library for `ChangePassword`, for any `url.Parse` and default client. -/
def changePasswordEnv {θ υ : Type} (lib : TimeLib θ) (parseURL : String → Except LibError υ)
    (defaultClient : HttpClient LibError υ) :
    Env ChangePasswordSubmitRequestMessage (ChangePasswordSubmitResponseMessage θ) LibError
      υ :=
  apiEnv ChangePasswordSubmitRequestMessage.marshal
    (ChangePasswordSubmitResponseMessage.fields lib) parseURL defaultClient

/-- The library of the scenarios of `change_password_test.go`. -/
def testChangePasswordEnv :
    Env ChangePasswordSubmitRequestMessage (ChangePasswordSubmitResponseMessage GoTime)
      LibError String :=
  changePasswordEnv goTime testParseURL (serverClient 200 "\x7b\x7d")

/-! ## `retrieve_documents.go` -/

/-- RetrieveDocumentResponse models a document returned from the Retrieve Documents HTTP GET
method. -/
structure RetrieveDocumentResponse where
  SuccessFlag : Bool
  DocumentId : String
  DocumentName : String
  DocumentContents : String
deriving DecidableEq

/-- RetrieveDocumentsRetrieveResponseMessage models the response of the Retrieve Documents
HTTP GET method; a nil slice is `none`. -/
structure RetrieveDocumentsRetrieveResponseMessage (θ : Type) where
  Transaction : Transaction θ
  Documents : Option (List RetrieveDocumentResponse)
deriving DecidableEq

/-- The zero value of `RetrieveDocumentsRetrieveResponseMessage`, given the zero `Time`. -/
def RetrieveDocumentsRetrieveResponseMessage.zero {θ : Type} (zeroTime : θ) :
    RetrieveDocumentsRetrieveResponseMessage θ :=
  { Transaction :=
      { TransactionID := "", TransactionDate := zeroTime, TransactionComment := "",
        TransactionSuccessFlag := false, TransactionErrors := none },
    Documents := none }

/-- The fields of `RetrieveDocumentResponse`, with their tags. -/
def RetrieveDocumentResponse.fields : List (FieldDecoder RetrieveDocumentResponse) :=
  [{ name := "SuccessFlag", store := storeBool (fun t b => { t with SuccessFlag := b }) },
   { name := "DocumentId", store := storeString (fun t s => { t with DocumentId := s }) },
   { name := "DocumentName", store := storeString (fun t s => { t with DocumentName := s }) },
   { name := "DocumentContents",
     store := storeString (fun t s => { t with DocumentContents := s }) }]

/-- The fields of `RetrieveDocumentsRetrieveResponseMessage`, with their tags. -/
def RetrieveDocumentsRetrieveResponseMessage.fields {θ : Type} (lib : TimeLib θ) :
    List (FieldDecoder (RetrieveDocumentsRetrieveResponseMessage θ)) :=
  [{ name := "Transaction",
     store := storeField (fun r => r.Transaction) (fun r t => { r with Transaction := t })
       (decodeObject (Transaction.fields lib)) },
   { name := "Documents",
     store := storeField (fun r => r.Documents) (fun r l => { r with Documents := l })
       (decodeSlice
         { SuccessFlag := false, DocumentId := "", DocumentName := "", DocumentContents := "" }
         (decodeObject RetrieveDocumentResponse.fields)) }]

/-- The bytes of the UTF-8 encoding of a character. -/
def utf8Bytes (c : Char) : List Nat :=
  if c.toNat < 0x80 then [c.toNat]
  else if c.toNat < 0x800 then [0xC0 + c.toNat / 64, 0x80 + c.toNat % 64]
  else if c.toNat < 0x10000 then
    [0xE0 + c.toNat / 4096, 0x80 + c.toNat / 64 % 64, 0x80 + c.toNat % 64]
  else
    [0xF0 + c.toNat / 262144, 0x80 + c.toNat / 4096 % 64, 0x80 + c.toNat / 64 % 64,
     0x80 + c.toNat % 64]

/-- The digits `upperhex` of `net/url`. -/
def upperhex (n : Nat) : Char :=
  "0123456789ABCDEF".data.getD n '0'

/-- The function `shouldEscape(c, encodeQueryComponent)` of `net/url`: every byte but the
letters, the digits and `-`, `_`, `.`, `~` is escaped. -/
def shouldEscape (b : Nat) : Bool :=
  !((97 ≤ b && b ≤ 122) || (65 ≤ b && b ≤ 90) || (48 ≤ b && b ≤ 57) ||
    b = 45 || b = 95 || b = 46 || b = 126)

/-- What `url.QueryEscape` writes for one byte: `+` for a space, `%XX` for a byte that is
escaped, the byte itself otherwise. -/
def escapeByte (b : Nat) : List Char :=
  if b = 32 then ['+']
  else if shouldEscape b then ['%', upperhex (b / 16), upperhex (b % 16)]
  else [Char.ofNat b]

/-- The function `url.QueryEscape` on a string of valid UTF-8. -/
def QueryEscape (s : String) : String :=
  ⟨(s.data.flatMap utf8Bytes).flatMap escapeByte⟩

/-- The function `strings.Join(elems, sep)`. -/
def Join (elems : List String) (sep : String) : String :=
  ⟨List.intercalate sep.data (elems.map String.data)⟩

/-- The call of `invokeEndpoint` that `RetrieveDocuments` makes: a `GET` with the nil
request value, the identifiers joined by commas and escaped in the query. -/
def RetrieveDocuments.invocation {β θ ε υ : Type}
    (env : Env β (RetrieveDocumentsRetrieveResponseMessage θ) ε υ) (zeroTime : θ)
    (c : nsHTTPClient ε υ) (ctx : Option Context) (documentIDs : List String) :
    Result (RetrieveDocumentsRetrieveResponseMessage θ) ε υ :=
  invokeEndpoint env c ctx "GET"
    ("/retrievedocuments?documentIds=" ++ QueryEscape (Join documentIDs ","))
    none (some (RetrieveDocumentsRetrieveResponseMessage.zero zeroTime))

/-- The method `(c *nsHTTPClient) RetrieveDocuments(ctx, documentIDs)`: the pair
`(response, err)` it returns. -/
def RetrieveDocuments {β θ ε υ : Type}
    (env : Env β (RetrieveDocumentsRetrieveResponseMessage θ) ε υ) (zeroTime : θ)
    (c : nsHTTPClient ε υ) (ctx : Option Context) (documentIDs : List String) :
    RetrieveDocumentsRetrieveResponseMessage θ × Outcome ε :=
  let r := RetrieveDocuments.invocation env zeroTime c ctx documentIDs
  (r.target.getD (RetrieveDocumentsRetrieveResponseMessage.zero zeroTime), r.outcome)

/-- The library for `RetrieveDocuments`, which marshals no request value, for any
`url.Parse` and default client. -/
def retrieveDocumentsEnv {θ υ : Type} (lib : TimeLib θ)
    (parseURL : String → Except LibError υ) (defaultClient : HttpClient LibError υ) :
    Env Unit (RetrieveDocumentsRetrieveResponseMessage θ) LibError υ :=
  apiEnv (fun _ => "null") (RetrieveDocumentsRetrieveResponseMessage.fields lib) parseURL
    defaultClient

/-- The library of a scenario of `RetrieveDocuments`. -/
def testRetrieveDocumentsEnv :
    Env Unit (RetrieveDocumentsRetrieveResponseMessage GoTime) LibError String :=
  retrieveDocumentsEnv goTime testParseURL (serverClient 200 "\x7b\x7d")

/-- The function `url.QueryUnescape` on an escaped text, giving the bytes it stands for:
`%XX` is the byte of the two hexadecimal digits, `+` is a space; `none` for a percent sign
that two hexadecimal digits do not follow. -/
def QueryUnescape : List Char → Option (List Nat)
  | [] => some []
  | '%' :: a :: b :: rest =>
    if isHex a && isHex b then
      (QueryUnescape rest).map (fun bs => (hexValue a * 16 + hexValue b) :: bs)
    else none
  | '%' :: _ => none
  | '+' :: rest => (QueryUnescape rest).map (fun bs => 32 :: bs)
  | c :: rest => (QueryUnescape rest).map (fun bs => c.toNat :: bs)

/-- The function `strings.Split(s, ",")` on bytes: the pieces between the commas. -/
def splitCommas : List Nat → List (List Nat)
  | [] => [[]]
  | b :: bs =>
    if b = 44 then [] :: splitCommas bs
    else
      match splitCommas bs with
      | piece :: pieces => (b :: piece) :: pieces
      | [] => [[b]]

/-- The text after the first question mark of a URL: its query. -/
def queryOf : List Char → Option (List Char)
  | [] => none
  | c :: cs => if c = '?' then some cs else queryOf cs

/-- The values a server reads from the query `documentIds=...` of a request: the text after
the equals sign, unescaped and cut at the commas; `none` for a URL without that query. -/
def documentIdsOf (url : String) : Option (List (List Nat)) :=
  match queryOf url.data with
  | some query =>
    if query.take 12 = "documentIds=".data then
      (QueryUnescape (query.drop 12)).map splitCommas
    else none
  | none => none

/-! ## The scenarios of `time_test.go` and `change_password_test.go` -/

/-- The struct `testTime` of `time_test.go`. -/
structure testTime (θ : Type) where
  DateTime : θ
deriving DecidableEq

/-- The field of `testTime`, with its tag `json:"date_time"`. -/
def testTime.fields {θ : Type} (lib : TimeLib θ) : List (FieldDecoder (testTime θ)) :=
  [{ name := "date_time",
     store := storeField (fun t => t.DateTime) (fun t d => { t with DateTime := d })
       (decodeTime lib) }]

/-- The input `{"date_time":"<text>"}` of the tests of `time_test.go`. -/
def testTimeJSON (text : List Char) : String :=
  ⟨"\x7b\"date_time\":".data ++ ('"' :: text ++ ['"', '\x7d'])⟩

/-- The response of `Test_ChangePassword_Failed`, as the test expects it decoded. -/
def changePasswordFailedBody : String :=
  "\x7b\"Transaction\":\x7b\"TransactionId\":\"xfaca386-x034-41x8-90xf-96xd23318348\"," ++
    "\"TransactionDate\":\"2021-08-31T15:47:00.2659421-05:00\"," ++
    "\"TransactionComment\":\"\",\"TransactionSuccessFlag\":false," ++
    "\"TransactionErrors\":[\x7b\"ErrorID\":210,\"ErrorMessage\":" ++
    "\"Password must be between 8 and 50 characters in length. \"\x7d]\x7d\x7d"

/-- An `*http.Client` in front of a server whose answer breaks off: every request gets a
response with the given status code whose body yields the bytes `body` and then fails with
`err` in place of `io.EOF`. -/
def truncatedClient (statusCode : Int) (body : String) (err : LibError) :
    HttpClient LibError String where
  Do _ := .ok { statusCode := statusCode, body := { data := body, err := some err } }

/-- A response body whose `TransactionDate` is `null`. -/
def nullDateBody : String :=
  "\x7b\"Transaction\":\x7b\"TransactionId\":\"x\",\"TransactionDate\":null\x7d\x7d"

/-! ## The other endpoint wrappers

The request and response structs of these six wrappers are parameters: `β` is the type of
the request message, `ρ` the type of the response message and `zero` its zero value, which
the variable `response` holds when its address is given to `invokeEndpoint`. -/

/-- The method `(c *nsHTTPClient) ManageNurseList(ctx, request)`. -/
def ManageNurseList {β ρ ε υ : Type} (env : Env β ρ ε υ) (zero : ρ) (c : nsHTTPClient ε υ)
    (ctx : Option Context) (request : β) : ρ × Outcome ε :=
  let r := invokeEndpoint env c ctx "POST" "/managenurselist" (some request) (some zero)
  (r.target.getD zero, r.outcome)

/-- The method `(c *nsHTTPClient) GetManageNurseListResult(ctx, txID)`. -/
def GetManageNurseListResult {β ρ ε υ : Type} (env : Env β ρ ε υ) (zero : ρ)
    (c : nsHTTPClient ε υ) (ctx : Option Context) (txID : String) : ρ × Outcome ε :=
  let r := invokeEndpoint env c ctx "GET"
    ("/managenurselist?transactionId=" ++ QueryEscape txID) none (some zero)
  (r.target.getD zero, r.outcome)

/-- The method `(c *nsHTTPClient) NurseLookup(ctx, request)`. -/
def NurseLookup {β ρ ε υ : Type} (env : Env β ρ ε υ) (zero : ρ) (c : nsHTTPClient ε υ)
    (ctx : Option Context) (request : β) : ρ × Outcome ε :=
  let r := invokeEndpoint env c ctx "POST" "/nurselookup" (some request) (some zero)
  (r.target.getD zero, r.outcome)

/-- The method `(c *nsHTTPClient) GetNurseLookupResult(ctx, txID)`. -/
def GetNurseLookupResult {β ρ ε υ : Type} (env : Env β ρ ε υ) (zero : ρ)
    (c : nsHTTPClient ε υ) (ctx : Option Context) (txID : String) : ρ × Outcome ε :=
  let r := invokeEndpoint env c ctx "GET"
    ("/nurselookup?transactionId=" ++ QueryEscape txID) none (some zero)
  (r.target.getD zero, r.outcome)

/-- The method `(c *nsHTTPClient) NotificationLookup(ctx, request)`. -/
def NotificationLookup {β ρ ε υ : Type} (env : Env β ρ ε υ) (zero : ρ)
    (c : nsHTTPClient ε υ) (ctx : Option Context) (request : β) : ρ × Outcome ε :=
  let r := invokeEndpoint env c ctx "POST" "/notificationlookup" (some request) (some zero)
  (r.target.getD zero, r.outcome)

/-- The method `(c *nsHTTPClient) GetNotificationLookupResult(ctx, txID)`. -/
def GetNotificationLookupResult {β ρ ε υ : Type} (env : Env β ρ ε υ) (zero : ρ)
    (c : nsHTTPClient ε υ) (ctx : Option Context) (txID : String) : ρ × Outcome ε :=
  let r := invokeEndpoint env c ctx "GET"
    ("/notificationlookup?transactionId=" ++ QueryEscape txID) none (some zero)
  (r.target.getD zero, r.outcome)

/-- What is said of a call of `invokeEndpoint` with a pointer to a variable that holds `t`,
`result` being the value the variable holds afterwards and how the call ended: when the
call received a response with status 200 or 202, `result` is what the decoder produced from
the body and `t`, its value and its error; in every other case the variable holds `t`. -/
def LeftByDecoderAlone {β τ ε υ : Type} (env : Env β τ ε υ) (cfg : nsHTTPClient ε υ)
    (ctx : Option Context) (method endpoint : String) (body : Option β) (t : τ)
    (result : τ × Outcome ε) : Prop :=
  (∀ httpClient req resp, cfg.httpClient = some httpClient →
    buildRequest env cfg ctx method endpoint body = .ok req →
    httpClient.Do req = .ok resp → (resp.statusCode = 200 ∨ resp.statusCode = 202) →
    result = ((env.decode resp.body t).1,
              .returned ((env.decode resp.body t).2.map .lib))) ∧
  ((¬ ∃ httpClient req resp, cfg.httpClient = some httpClient ∧
      buildRequest env cfg ctx method endpoint body = .ok req ∧
      httpClient.Do req = .ok resp ∧ (resp.statusCode = 200 ∨ resp.statusCode = 202)) →
    result.1 = t)

/-- A response body whose `TransactionDate`, the last member, is no time. -/
def badDateBody : String :=
  "\x7b\"Transaction\":\x7b\"TransactionId\":\"abc\",\"TransactionDate\":\"yesterday\"\x7d\x7d"

/-! ## JSON values written for the values of `transaction.go`

The relations of this section say when a scanned JSON value is written for a Go value of a
type of `transaction.go`, so that decoding it into a fresh variable has to give that value.
Strings follow the grammar of RFC 8259, section 7, and numbers the decimal numerals;
objects follow the tags of the structs: their members stand in any order, among members
that select no field, and no two of them select the same field. -/

/-- A piece of the text between the quotes of a JSON string: a character written as it is,
a backslash and a letter, `\u` and four hexadecimal digits, or two such escapes, which
write a character outside the basic plane as a surrogate pair. -/
inductive StringPiece where
  | char (c : Char)
  | escape (e : Char)
  | unicode (a b c d : Char)
  | pair (a b c d e f g h : Char)
deriving DecidableEq

/-- The text of a piece. -/
def StringPiece.text : StringPiece → List Char
  | .char c => [c]
  | .escape e => ['\\', e]
  | .unicode a b c d => ['\\', 'u', a, b, c, d]
  | .pair a b c d e f g h => ['\\', 'u', a, b, c, d, '\\', 'u', e, f, g, h]

/-- The pieces the grammar allows: a character other than the quote, the backslash and the
control characters; one of the eight two-character escapes; four hexadecimal digits that
write no surrogate; a high surrogate followed by a low one. -/
def StringPiece.WellFormed : StringPiece → Prop
  | .char c => c ≠ '"' ∧ c ≠ '\\' ∧ 32 ≤ c.toNat
  | .escape e => e ∈ ['"', '\\', '/', 'b', 'f', 'n', 'r', 't']
  | .unicode a b c d =>
    (isHex a ∧ isHex b ∧ isHex c ∧ isHex d) ∧
      ¬(0xD800 ≤ getu4 a b c d ∧ getu4 a b c d < 0xE000)
  | .pair a b c d e f g h =>
    (isHex a ∧ isHex b ∧ isHex c ∧ isHex d) ∧ (isHex e ∧ isHex f ∧ isHex g ∧ isHex h) ∧
      (0xD800 ≤ getu4 a b c d ∧ getu4 a b c d < 0xDC00) ∧
      (0xDC00 ≤ getu4 e f g h ∧ getu4 e f g h < 0xE000)

/-- Whether a piece is well-formed can be computed. -/
instance StringPiece.decidableWellFormed (p : StringPiece) : Decidable p.WellFormed := by
  cases p <;> unfold StringPiece.WellFormed <;> infer_instance

/-- The character a piece stands for. -/
def StringPiece.denotes : StringPiece → Char
  | .char c => c
  | .escape 'b' => Char.ofNat 8
  | .escape 'f' => Char.ofNat 12
  | .escape 'n' => '\n'
  | .escape 'r' => '\r'
  | .escape 't' => '\t'
  | .escape e => e
  | .unicode a b c d => Char.ofNat (getu4 a b c d)
  | .pair a b c d e f g h =>
    Char.ofNat (0x10000 + (getu4 a b c d - 0xD800) * 0x400 + (getu4 e f g h - 0xDC00))

/-- The pieces of a JSON string written for the Go string `s`. -/
def StringPieces (pieces : List StringPiece) (s : String) : Prop :=
  (∀ p ∈ pieces, p.WellFormed) ∧ pieces.map StringPiece.denotes = s.data

/-- A JSON value written for the Go string `s`: a JSON string that denotes `s`, or `null`
for the empty string, which is what a fresh variable keeps. -/
def StringWritten (v : Json) (s : String) : Prop :=
  (v = .null ∧ s = "") ∨
  ∃ pieces, StringPieces pieces s ∧ v = .string ⟨pieces.flatMap StringPiece.text⟩

/-- A JSON value written for the `int64` value `n`: its decimal numeral, with a minus sign
for a negative number, or `null` for zero. -/
def Int64Written (v : Json) (n : Int) : Prop :=
  (v = .null ∧ n = 0) ∨
  (∃ m : Nat, m < 2 ^ 63 ∧ n = m ∧ v = .number (Nat.repr m)) ∨
  (∃ m : Nat, m ≤ 2 ^ 63 ∧ n = -(m : Int) ∧ v = .number ("-" ++ Nat.repr m))

/-- A JSON value written for the boolean `b`: `true` or `false`, or `null` for `false`. -/
def BoolWritten (v : Json) (b : Bool) : Prop :=
  (v = .null ∧ b = false) ∨ v = .bool b

/-- A JSON value written for the `Time` value `tm`: a JSON string that `UnmarshalJSON` of
`time.go`, called on a zero `Time`, accepts with `tm`. -/
def TimeWritten {θ : Type} (lib : TimeLib θ) (zeroTime : θ) (v : Json) (tm : θ) : Prop :=
  ∃ raw, v = .string raw ∧
    Time.UnmarshalJSON lib zeroTime (quoted raw.data) = .returned tm none

/-- The name of the field that the key of a member selects, when it selects one. -/
def selectedField {τ : Type} (fields : List (FieldDecoder τ)) (key : String) :
    Option String :=
  (findField fields (unquote key)).map (fun f => f.name)

/-- No two members of the object select the same field. -/
def SelectOnce {τ : Type} (fields : List (FieldDecoder τ))
    (members : List (String × Json)) : Prop :=
  members.Pairwise (fun m n =>
    selectedField fields m.1 = selectedField fields n.1 → selectedField fields m.1 = none)

/-- Whether no two members select the same field can be computed. -/
instance SelectOnce.decidable {τ : Type} (fields : List (FieldDecoder τ))
    (members : List (String × Json)) : Decidable (SelectOnce fields members) := by
  unfold SelectOnce
  infer_instance

/-- The members of an object give the field `name` the value `a`: a member that selects
the field holds a value written for `a`, or no member selects the field and `a` is the zero
value. -/
def FieldWritten {τ α : Type} (fields : List (FieldDecoder τ))
    (members : List (String × Json)) (name : String) (Written : Json → α → Prop)
    (zero a : α) : Prop :=
  (∃ m ∈ members, selectedField fields m.1 = some name ∧ Written m.2 a) ∨
  ((∀ m ∈ members, selectedField fields m.1 ≠ some name) ∧ a = zero)

/-- A JSON value written for a `TransactionError`: an object whose members give its two
fields. -/
def TransactionErrorWritten (v : Json) (e : TransactionError) : Prop :=
  ∃ members, v = .object members ∧ SelectOnce TransactionError.fields members ∧
    FieldWritten TransactionError.fields members "ErrorID" Int64Written 0 e.ErrorID ∧
    FieldWritten TransactionError.fields members "ErrorMessage" StringWritten ""
      e.ErrorMessage

/-- A JSON value written for a slice of `TransactionError`: an array of values written for
its elements, in their order, or `null` for the nil slice. -/
def TransactionErrorsWritten (v : Json) (errors : Option (List TransactionError)) : Prop :=
  (v = .null ∧ errors = none) ∨
  ∃ items list, v = .array items ∧ errors = some list ∧
    List.Forall₂ TransactionErrorWritten items list

/-- A JSON value written for a `Transaction`: an object whose members give its five
fields. -/
def TransactionWritten {θ : Type} (lib : TimeLib θ) (zeroTime : θ) (v : Json)
    (t : Transaction θ) : Prop :=
  ∃ members, v = .object members ∧ SelectOnce (Transaction.fields lib) members ∧
    FieldWritten (Transaction.fields lib) members "TransactionId" StringWritten ""
      t.TransactionID ∧
    FieldWritten (Transaction.fields lib) members "TransactionDate"
      (TimeWritten lib zeroTime) zeroTime t.TransactionDate ∧
    FieldWritten (Transaction.fields lib) members "TransactionComment" StringWritten ""
      t.TransactionComment ∧
    FieldWritten (Transaction.fields lib) members "TransactionSuccessFlag" BoolWritten false
      t.TransactionSuccessFlag ∧
    FieldWritten (Transaction.fields lib) members "TransactionErrors"
      TransactionErrorsWritten none t.TransactionErrors

/-- A JSON value written for a `ChangePasswordSubmitResponseMessage`: an object whose
members give its `Transaction`. -/
def ResponseWritten {θ : Type} (lib : TimeLib θ) (zeroTime : θ) (v : Json)
    (r : ChangePasswordSubmitResponseMessage θ) : Prop :=
  ∃ members, v = .object members ∧
    SelectOnce (ChangePasswordSubmitResponseMessage.fields lib) members ∧
    FieldWritten (ChangePasswordSubmitResponseMessage.fields lib) members "Transaction"
      (TransactionWritten lib zeroTime)
      (ChangePasswordSubmitResponseMessage.zero zeroTime).Transaction r.Transaction

/-- The scanned value of the body of `Test_ChangePassword_Failed`. -/
def changePasswordFailedJson : Json :=
  .object [("Transaction", .object [
    ("TransactionId", .string "xfaca386-x034-41x8-90xf-96xd23318348"),
    ("TransactionDate", .string "2021-08-31T15:47:00.2659421-05:00"),
    ("TransactionComment", .string ""),
    ("TransactionSuccessFlag", .bool false),
    ("TransactionErrors", .array [.object [
      ("ErrorID", .number "210"),
      ("ErrorMessage",
        .string "Password must be between 8 and 50 characters in length. ")]])])]

/-- A body with the same `Transaction` shape as that of `Test_ChangePassword_Failed`, its
members in another order and among members that select no field, with a key in lower case,
a `null`, escapes in its strings, a negative `ErrorID` and an error without a message. -/
def reorderedFailedBody : String :=
  "\x7b\"Status\":\"ok\",\"Transaction\":\x7b\"TransactionErrors\":[" ++
    "\x7b\"ErrorMessage\":\"too \\\"short\\\"\\n\",\"Detail\":[1,2],\"ErrorID\":-7\x7d," ++
    "\x7b\"ErrorID\":210\x7d],\"TransactionSuccessFlag\":false," ++
    "\"Extra\":\x7b\"a\":null\x7d,\"transactiondate\":\"2021-08-31 15:47:00-05:00\"," ++
    "\"TransactionComment\":null,\"TransactionId\":\"A\\u0042C\"\x7d\x7d"

/-- The scanned value of `reorderedFailedBody`. -/
def reorderedFailedJson : Json :=
  .object [("Status", .string "ok"), ("Transaction", .object [
    ("TransactionErrors", .array [
      .object [("ErrorMessage", .string "too \\\"short\\\"\\n"),
        ("Detail", .array [.number "1", .number "2"]), ("ErrorID", .number "-7")],
      .object [("ErrorID", .number "210")]]),
    ("TransactionSuccessFlag", .bool false),
    ("Extra", .object [("a", .null)]),
    ("transactiondate", .string "2021-08-31 15:47:00-05:00"),
    ("TransactionComment", .null),
    ("TransactionId", .string "A\\u0042C")])]

/-! ## Decimal formatting and the text of the remote error -/

/-- The digit a decimal digit character stands for. -/
def digitValue (c : Char) : Nat := c.toNat - 48

/-- The digit of a digit character is the digit it was made from. -/
theorem digitValue_digitChar {d : Nat} (h : d < 10) : digitValue (Nat.digitChar d) = d := by
  interval_cases d <;> rfl

/-- The digits that `Nat.toDigitsCore` writes in front of its accumulator. -/
theorem toDigitsCore_eq_digits (fuel : Nat) :
    ∀ (n : Nat) (acc : List Char), n < fuel → 0 < n →
    Nat.toDigitsCore 10 fuel n acc = ((Nat.digits 10 n).reverse.map Nat.digitChar) ++ acc := by
  induction fuel with
  | zero => intro n acc h; omega
  | succ fuel ih =>
    intro n acc hlt hpos
    rw [Nat.digits_def' (by norm_num) hpos]
    by_cases hq : n / 10 = 0
    · simp [Nat.toDigitsCore, hq]
    · have h1 : n / 10 < fuel := by omega
      have h2 : 0 < n / 10 := Nat.pos_of_ne_zero hq
      simp [Nat.toDigitsCore, hq, ih (n / 10) _ h1 h2]

/-- The decimal digits of `Nat.toDigits`, most significant first. -/
theorem toDigits_eq_digits (n : Nat) :
    Nat.toDigits 10 n =
      if n = 0 then ['0'] else (Nat.digits 10 n).reverse.map Nat.digitChar := by
  by_cases h : n = 0
  · subst h; rfl
  · simp [Nat.toDigits, h, toDigitsCore_eq_digits (n + 1) n [] (by omega) (Nat.pos_of_ne_zero h)]

/-- Every character of a decimal numeral is a digit character. -/
theorem toDigits_mem (n : Nat) (c : Char) (h : c ∈ Nat.toDigits 10 n) :
    ∃ d, d < 10 ∧ c = Nat.digitChar d := by
  rw [toDigits_eq_digits] at h
  by_cases h0 : n = 0
  · simp [h0] at h; exact ⟨0, by norm_num, by simp [h]; rfl⟩
  · simp [h0] at h
    obtain ⟨d, hd, rfl⟩ := h
    exact ⟨d, Nat.digits_lt_base (by norm_num) hd, rfl⟩

/-- A decimal numeral denotes the number it was made from. -/
theorem toDigits_value (n : Nat) :
    Nat.ofDigits 10 (((Nat.toDigits 10 n).map digitValue).reverse) = n := by
  rw [toDigits_eq_digits]
  by_cases h0 : n = 0
  · subst h0; simp [digitValue]
  · simp only [h0, if_false, List.map_map]
    have : List.map (digitValue ∘ Nat.digitChar) (Nat.digits 10 n).reverse
        = (Nat.digits 10 n).reverse := by
      conv_rhs => rw [← List.map_id (Nat.digits 10 n).reverse]
      apply List.map_congr_left
      intro d hd
      have := Nat.digits_lt_base (b := 10) (m := n) (by norm_num) (List.mem_reverse.mp hd)
      simp [digitValue_digitChar this]
    rw [this, List.reverse_reverse, Nat.ofDigits_digits]

/-- Different numbers have different decimal numerals. -/
theorem toDigits_injective {n m : Nat} (h : Nat.toDigits 10 n = Nat.toDigits 10 m) : n = m := by
  rw [← toDigits_value n, ← toDigits_value m, h]


/-- The characters of `formatInt`. -/
theorem formatInt_data (s : Int) :
    (formatInt s).data =
      match s with
      | .ofNat m => Nat.toDigits 10 m
      | .negSucc m => '-' :: Nat.toDigits 10 (m + 1) := by
  cases s <;> rfl

/-- A decimal digit character is neither a colon nor a minus sign. -/
theorem digitChar_ne_colon {d : Nat} (h : d < 10) :
    Nat.digitChar d ≠ ':' ∧ Nat.digitChar d ≠ '-' := by
  interval_cases d <;> decide

/-- No colon occurs in a formatted integer. -/
theorem colon_not_mem_formatInt (s : Int) : ':' ∉ (formatInt s).data := by
  intro h
  rw [formatInt_data] at h
  cases s with
  | ofNat m =>
    obtain ⟨d, hd, hc⟩ := toDigits_mem m _ h
    exact (digitChar_ne_colon hd).1 hc.symm
  | negSucc m =>
    simp only [List.mem_cons] at h
    rcases h with h | h
    · exact absurd h (by decide)
    · obtain ⟨d, hd, hc⟩ := toDigits_mem _ _ h
      exact (digitChar_ne_colon hd).1 hc.symm

/-- Different integers are formatted differently. -/
theorem formatInt_injective {s s' : Int} (h : formatInt s = formatInt s') : s = s' := by
  have h' := congrArg String.data h
  rw [formatInt_data, formatInt_data] at h'
  cases s with
  | ofNat m =>
    cases s' with
    | ofNat m' => simp only at h'; rw [toDigits_injective h']
    | negSucc m' =>
      simp only at h'
      have hm : '-' ∈ Nat.toDigits 10 m := by rw [h']; exact List.mem_cons_self _ _
      obtain ⟨d, hd, hc⟩ := toDigits_mem _ _ hm
      exact absurd hc.symm (digitChar_ne_colon hd).2
  | negSucc m =>
    cases s' with
    | ofNat m' =>
      simp only at h'
      have hm : '-' ∈ Nat.toDigits 10 m' := by rw [← h']; exact List.mem_cons_self _ _
      obtain ⟨d, hd, hc⟩ := toDigits_mem _ _ hm
      exact absurd hc.symm (digitChar_ne_colon hd).2
    | negSucc m' =>
      simp only [List.cons.injEq, true_and] at h'
      have := toDigits_injective h'
      have : m = m' := by omega
      rw [this]

/-- Two texts split at their first colon agree on both sides of it. -/
theorem append_colon_cancel : ∀ (l₁ l₂ r₁ r₂ : List Char), ':' ∉ l₁ → ':' ∉ l₂ →
    l₁ ++ ':' :: r₁ = l₂ ++ ':' :: r₂ → l₁ = l₂ ∧ r₁ = r₂ := by
  intro l₁
  induction l₁ with
  | nil =>
    intro l₂ r₁ r₂ _ h₂ h
    cases l₂ with
    | nil => simpa using h
    | cons c l₂ =>
      simp only [List.nil_append, List.cons_append, List.cons.injEq] at h
      exact absurd (h.1 ▸ List.mem_cons_self _ _) h₂
  | cons a l₁ ih =>
    intro l₂ r₁ r₂ h₁ h₂ h
    cases l₂ with
    | nil =>
      simp only [List.nil_append, List.cons_append, List.cons.injEq] at h
      exact absurd (h.1 ▸ List.mem_cons_self _ _) h₁
    | cons c l₂ =>
      simp only [List.cons_append, List.cons.injEq] at h
      obtain ⟨hl, hr⟩ := ih l₂ r₁ r₂ (fun hm => h₁ (List.mem_cons_of_mem _ hm))
        (fun hm => h₂ (List.mem_cons_of_mem _ hm)) h.2
      exact ⟨by rw [h.1, hl], hr⟩

/-- The status code and the body can be read back from a remote error. -/
theorem remoteError_injective {ε : Type} {s s' : Int} {b b' : String}
    (h : (remoteError s b : GoError ε) = remoteError s' b') : s = s' ∧ b = b' := by
  simp only [remoteError, GoError.errorString.injEq] at h
  have h' := congrArg String.data h
  simp only [String.data_append, List.append_assoc] at h'
  have h'' := List.append_cancel_left h'
  simp only [List.cons_append, List.nil_append] at h''
  obtain ⟨h1, h2⟩ := append_colon_cancel _ _ _ _ (colon_not_mem_formatInt s)
    (colon_not_mem_formatInt s') h''
  refine ⟨formatInt_injective (String.ext h1), ?_⟩
  simp only [List.cons.injEq, true_and] at h2
  exact String.ext h2

/-! ## The scanner and its fuel -/

/-- Dropping white space does not lengthen the input. -/
theorem skipSpace_length_le (cs : List Char) : (skipSpace cs).length ≤ cs.length := by
  induction cs with
  | nil => simp [skipSpace]
  | cons c cs ih =>
    unfold skipSpace
    split
    · simp; omega
    · simp

/-- What follows the first byte after white space is shorter than the input. -/
theorem skipSpace_cons_length {cs rest : List Char} {c : Char}
    (h : skipSpace cs = c :: rest) : rest.length < cs.length := by
  have := skipSpace_length_le cs
  rw [h] at this
  simp at this
  omega

/-- A scanned string consumes at least its closing quote. -/
theorem scanString_length : ∀ (cs : List Char) (st : StringState) (acc : List Char)
    (s : String) (rest : List Char),
    scanString st cs acc = .ok (s, rest) → rest.length < cs.length := by
  intro cs
  induction cs with
  | nil => intro st acc s rest h; simp [scanString] at h
  | cons c cs ih =>
    intro st acc s rest h
    cases st with
    | plain =>
      simp only [scanString] at h
      split at h
      · simp at h; simp [h.2]
      · split at h
        · have := ih _ _ _ _ h; simp; omega
        · split at h
          · simp at h
          · have := ih _ _ _ _ h; simp; omega
    | esc =>
      simp only [scanString] at h
      split at h
      · have := ih _ _ _ _ h; simp; omega
      · split at h
        · have := ih _ _ _ _ h; simp; omega
        · simp at h
    | hex n =>
      simp only [scanString] at h
      split at h
      · have := ih _ _ _ _ h; simp; omega
      · simp at h

/-- A scanned number leaves no more than the input it was given. -/
theorem scanNumber_length : ∀ (cs : List Char) (st : NumberState) (acc : List Char)
    (s : String) (rest : List Char),
    scanNumber st cs acc = .ok (s, rest) → rest.length ≤ cs.length := by
  intro cs
  induction cs with
  | nil =>
    intro st acc s rest h
    cases st <;> simp [scanNumber] at h <;> simp [← h.2]
  | cons c cs ih =>
    intro st acc s rest h
    cases st <;> simp only [scanNumber] at h <;>
      (repeat' split at h) <;>
      first
        | (simp at h; done)
        | exact Nat.le_succ_of_le (ih _ _ _ _ h)
        | (simp at h; simp [← h.2])

/-- A scanned literal leaves no more than the input it was given. -/
theorem scanLiteral_length : ∀ (es cs rest : List Char),
    scanLiteral es cs = .ok rest → rest.length ≤ cs.length := by
  intro es
  induction es with
  | nil => intro cs rest h; simp [scanLiteral] at h; simp [h]
  | cons e es ih =>
    intro cs rest h
    cases cs with
    | nil => simp [scanLiteral] at h
    | cons c cs =>
      simp only [scanLiteral] at h
      split at h
      · have := ih _ _ h; simp; omega
      · simp at h


/-- The string case of `scanValue` consumes input. -/
theorem map_scanString_length {cs acc : List Char} {st : StringState} {v : Json}
    {rest : List Char}
    (h : (scanString st cs acc).map (fun r => (Json.string r.1, r.2)) = .ok (v, rest)) :
    rest.length < cs.length := by
  cases hs : scanString st cs acc with
  | error e => simp [hs, Except.map] at h
  | ok p =>
    simp only [hs, Except.map, Except.ok.injEq, Prod.mk.injEq] at h
    rw [← h.2]
    exact scanString_length cs st acc p.1 p.2 hs

/-- The number cases of `scanValue` leave no more than the input after the first digit. -/
theorem map_scanNumber_length {cs acc : List Char} {st : NumberState} {v : Json}
    {rest : List Char}
    (h : (scanNumber st cs acc).map (fun r => (Json.number r.1, r.2)) = .ok (v, rest)) :
    rest.length ≤ cs.length := by
  cases hs : scanNumber st cs acc with
  | error e => simp [hs, Except.map] at h
  | ok p =>
    simp only [hs, Except.map, Except.ok.injEq, Prod.mk.injEq] at h
    rw [← h.2]
    exact scanNumber_length cs st acc p.1 p.2 hs

/-- The literal cases of `scanValue` leave no more than the input after the first letter. -/
theorem map_scanLiteral_length {es cs : List Char} {j v : Json} {rest : List Char}
    (h : (scanLiteral es cs).map (fun r => (j, r)) = .ok (v, rest)) :
    rest.length ≤ cs.length := by
  cases hs : scanLiteral es cs with
  | error e => simp [hs, Except.map] at h
  | ok p =>
    simp only [hs, Except.map, Except.ok.injEq, Prod.mk.injEq] at h
    rw [← h.2]
    exact scanLiteral_length es cs p hs

/-- A scanned value, and the elements or members scanned up to the closing byte, consume
input. -/
theorem scan_length (fuel : Nat) :
    (∀ depth cs v rest, scanValue fuel depth cs = .ok (v, rest) → rest.length < cs.length) ∧
    (∀ depth cs acc v rest,
      scanElements fuel depth cs acc = .ok (v, rest) → rest.length < cs.length) ∧
    (∀ depth cs acc v rest,
      scanMembers fuel depth cs acc = .ok (v, rest) → rest.length < cs.length) := by
  induction fuel with
  | zero => simp [scanValue, scanElements, scanMembers]
  | succ fuel ih =>
    obtain ⟨ihV, ihE, ihM⟩ := ih
    refine ⟨?_, ?_, ?_⟩
    · intro depth cs v rest h
      simp only [scanValue] at h
      split at h
      · simp at h
      next c r0 hsk =>
        have l0 := skipSpace_cons_length hsk
        split at h
        · split at h
          · simp at h
          · split at h
            · simp at h
            next c' r1 hsk' =>
              have l1 := skipSpace_cons_length hsk'
              split at h
              · simp only [Except.ok.injEq, Prod.mk.injEq] at h; rw [← h.2]; omega
              · have := ihM _ _ _ _ _ h; simp only [List.length_cons] at this; omega
        · split at h
          · split at h
            · simp at h
            · split at h
              · simp at h
              next c' r1 hsk' =>
                have l1 := skipSpace_cons_length hsk'
                split at h
                · simp only [Except.ok.injEq, Prod.mk.injEq] at h; rw [← h.2]; omega
                · have := ihE _ _ _ _ _ h; simp only [List.length_cons] at this; omega
          · repeat' split at h
            all_goals
              first
                | (simp at h)
                | exact Nat.lt_trans (map_scanString_length h) l0
                | exact Nat.lt_of_le_of_lt (map_scanNumber_length h) l0
                | exact Nat.lt_of_le_of_lt (map_scanLiteral_length h) l0
    · intro depth cs acc v rest h
      simp only [scanElements] at h
      split at h
      · simp at h
      next v' r0 hv =>
        have l0 := ihV _ _ _ _ hv
        split at h
        · simp at h
        next c r1 hsk =>
          have l1 := skipSpace_cons_length hsk
          split at h
          · have := ihE _ _ _ _ _ h; omega
          · split at h
            · simp only [Except.ok.injEq, Prod.mk.injEq] at h; rw [← h.2]; omega
            · simp at h
    · intro depth cs acc v rest h
      simp only [scanMembers] at h
      split at h
      · simp at h
      next q r0 hsk =>
        have l0 := skipSpace_cons_length hsk
        split at h
        · simp at h
        · split at h
          · simp at h
          next key r1 hs =>
            have l1 := scanString_length _ _ _ _ _ hs
            split at h
            · simp at h
            next c r2 hsk2 =>
              have l2 := skipSpace_cons_length hsk2
              split at h
              · simp at h
              · split at h
                · simp at h
                next v' r3 hv =>
                  have l3 := ihV _ _ _ _ hv
                  split at h
                  · simp at h
                  next c' r4 hsk4 =>
                    have l4 := skipSpace_cons_length hsk4
                    split at h
                    · have := ihM _ _ _ _ _ h; omega
                    · split at h
                      · simp only [Except.ok.injEq, Prod.mk.injEq] at h; rw [← h.2]; omega
                      · simp at h


/-- With fuel of at least twice the length of the input plus one (plus two for elements and
members) the scanner gives the same result whatever the fuel. -/
theorem scan_fuel (fuel₁ : Nat) :
    (∀ fuel₂ depth cs, 2 * cs.length + 1 ≤ fuel₁ → 2 * cs.length + 1 ≤ fuel₂ →
      scanValue fuel₁ depth cs = scanValue fuel₂ depth cs) ∧
    (∀ fuel₂ depth cs acc, 2 * cs.length + 2 ≤ fuel₁ → 2 * cs.length + 2 ≤ fuel₂ →
      scanElements fuel₁ depth cs acc = scanElements fuel₂ depth cs acc) ∧
    (∀ fuel₂ depth cs acc, 2 * cs.length + 2 ≤ fuel₁ → 2 * cs.length + 2 ≤ fuel₂ →
      scanMembers fuel₁ depth cs acc = scanMembers fuel₂ depth cs acc) := by
  induction fuel₁ with
  | zero => refine ⟨?_, ?_, ?_⟩ <;> intros <;> omega
  | succ fuel ih =>
    obtain ⟨ihV, ihE, ihM⟩ := ih
    refine ⟨?_, ?_, ?_⟩
    · intro fuel₂ depth cs h₁ h₂
      obtain ⟨f₂, rfl⟩ : ∃ f, fuel₂ = f + 1 := ⟨fuel₂ - 1, by omega⟩
      simp only [scanValue]
      split
      · rfl
      next c r0 hsk =>
        have l0 := skipSpace_cons_length hsk
        by_cases hb : c = '{'
        · simp only [hb, if_true]
          split
          · rfl
          · split
            · rfl
            next c' r1 hsk' =>
              have l1 := skipSpace_cons_length hsk'
              split
              · rfl
              · exact ihM _ _ _ _ (by simp only [List.length_cons]; omega)
                  (by simp only [List.length_cons]; omega)
        · simp only [hb, if_false]
          by_cases hk : c = '['
          · simp only [hk, if_true]
            split
            · rfl
            · split
              · rfl
              next c' r1 hsk' =>
                have l1 := skipSpace_cons_length hsk'
                split
                · rfl
                · exact ihE _ _ _ _ (by simp only [List.length_cons]; omega)
                    (by simp only [List.length_cons]; omega)
          · simp only [hk, if_false]
    · intro fuel₂ depth cs acc h₁ h₂
      obtain ⟨f₂, rfl⟩ : ∃ f, fuel₂ = f + 1 := ⟨fuel₂ - 1, by omega⟩
      simp only [scanElements]
      rw [ihV f₂ depth cs (by omega) (by omega)]
      split
      · rfl
      next v r0 hv =>
        have l0 := (scan_length f₂).1 _ _ _ _ hv
        split
        · rfl
        next c r1 hsk =>
          have l1 := skipSpace_cons_length hsk
          split
          · exact ihE _ _ _ _ (by omega) (by omega)
          · rfl
    · intro fuel₂ depth cs acc h₁ h₂
      obtain ⟨f₂, rfl⟩ : ∃ f, fuel₂ = f + 1 := ⟨fuel₂ - 1, by omega⟩
      simp only [scanMembers]
      split
      · rfl
      next q r0 hsk =>
        have l0 := skipSpace_cons_length hsk
        split
        · rfl
        · split
          · rfl
          next key r1 hs =>
            have l1 := scanString_length _ _ _ _ _ hs
            split
            · rfl
            next c r2 hsk2 =>
              have l2 := skipSpace_cons_length hsk2
              split
              · rfl
              · rw [ihV f₂ depth r2 (by omega) (by omega)]
                split
                · rfl
                next v r3 hv =>
                  have l3 := (scan_length f₂).1 _ _ _ _ hv
                  split
                  · rfl
                  next c' r4 hsk4 =>
                    have l4 := skipSpace_cons_length hsk4
                    split
                    · exact ihM _ _ _ _ (by omega) (by omega)
                    · rfl

/-- The result of `scanValue` does not depend on the fuel once the fuel reaches twice the
length of the input plus one, the amount `readValue` supplies. -/
theorem scanValue_fuel (fuel depth : Nat) (cs : List Char)
    (h : 2 * cs.length + 1 ≤ fuel) :
    scanValue fuel depth cs = scanValue (2 * cs.length + 1) depth cs :=
  (scan_fuel fuel).1 _ depth cs h (Nat.le_refl _)

/-! ## The invocation pipeline -/

/-- A request that reached `Do` is the request `buildRequest` produced. -/
theorem buildRequest_of_doCall_mem {β τ ε υ : Type} (env : Env β τ ε υ)
    (cfg : nsHTTPClient ε υ) (ctx : Option Context) (method endpoint : String)
    (body : Option β) (target : Option τ) (req : Request υ)
    (h : Event.doCall req ∈ (invokeEndpoint env cfg ctx method endpoint body target).trace) :
    buildRequest env cfg ctx method endpoint body = .ok req := by
  unfold invokeEndpoint at h
  cases hb : buildRequest env cfg ctx method endpoint body with
  | error err => simp [hb] at h
  | ok r =>
    cases hc : cfg.httpClient with
    | none => simp [hb, hc] at h
    | some httpClient =>
      simp only [hb, hc] at h
      cases hd : httpClient.Do r with
      | error err => simp [hd] at h; rw [h]
      | ok resp =>
        simp only [hd] at h
        split at h
        · simp at h; rw [h]
        · cases target <;> simp at h <;> rw [h]

/-- What a successful `buildRequest` returns: the context, the method (`GET` for the empty
method), the parsed concatenation of base URL and endpoint, the three headers added to an
empty header map, and the marshalled request value. -/
theorem buildRequest_eq_ok {β τ ε υ : Type} (env : Env β τ ε υ) (cfg : nsHTTPClient ε υ)
    (ctx : Option Context) (method endpoint : String) (body : Option β) (req : Request υ)
    (h : buildRequest env cfg ctx method endpoint body = .ok req) :
    ∃ jsonStr c u, jsonMarshal env body = .ok jsonStr ∧ ctx = some c ∧
      validMethod (if method = "" then "GET" else method) = true ∧
      env.parseURL (cfg.endpointURL ++ endpoint) = .ok u ∧
      req = { ctx := c, method := if method = "" then "GET" else method, url := u,
              header := Header.Add (Header.Add (Header.Add [] "Content-Type"
                "application/json") "username" cfg.username) "password" cfg.pasword,
              body := jsonStr } := by
  unfold buildRequest at h
  cases hm : jsonMarshal env body with
  | error e => simp [hm] at h
  | ok jsonStr =>
    simp only [hm] at h
    unfold NewRequestWithContext at h
    by_cases hv : validMethod (if method = "" then "GET" else method) = true
    · cases ctx with
      | none => simp [hv] at h
      | some c =>
        cases hu : env.parseURL (cfg.endpointURL ++ endpoint) with
        | error e => simp [hv, hu] at h
        | ok u =>
          simp only [hv, hu, Bool.not_true, Bool.false_eq_true, if_false,
            Except.ok.injEq] at h
          exact ⟨jsonStr, c, u, rfl, rfl, hv, rfl, h.symm⟩
    · simp [hv] at h

/-- C1. When the HTTP client returns a response without a transport error, `invokeEndpoint`
with a nil target returns the nil error if and only if the status code is 200 or 202; for
every other status code it returns a non-nil error, and a non-nil target is left holding the
value it held before the call. -/
theorem invokeEndpoint_status_classification {β τ ε υ : Type} (env : Env β τ ε υ)
    (cfg : nsHTTPClient ε υ) (httpClient : HttpClient ε υ) (ctx : Option Context)
    (method endpoint : String) (body : Option β) (req : Request υ) (resp : Response ε)
    (hclient : cfg.httpClient = some httpClient)
    (hreq : buildRequest env cfg ctx method endpoint body = .ok req)
    (hdo : httpClient.Do req = .ok resp) :
    ((invokeEndpoint env cfg ctx method endpoint body none).outcome = .returned none ↔
      (resp.statusCode = 200 ∨ resp.statusCode = 202)) ∧
    (¬(resp.statusCode = 200 ∨ resp.statusCode = 202) →
      (∃ err, (invokeEndpoint env cfg ctx method endpoint body none).outcome =
        .returned (some err)) ∧
      ∀ t : τ,
        (∃ err, (invokeEndpoint env cfg ctx method endpoint body (some t)).outcome =
          .returned (some err)) ∧
        (invokeEndpoint env cfg ctx method endpoint body (some t)).target = some t) := by
  unfold invokeEndpoint
  simp only [hreq, hclient, hdo]
  by_cases hs : resp.statusCode = 200 ∨ resp.statusCode = 202
  · have hn : ¬(resp.statusCode ≠ 200 ∧ resp.statusCode ≠ 202) := by
      rcases hs with h | h <;> simp [h]
    simp [hn, hs]
  · have hn : resp.statusCode ≠ 200 ∧ resp.statusCode ≠ 202 := by
      constructor <;> intro h <;> exact hs (by simp [h])
    simp [hn, hs]

/-- The scenario of `TestInvokeEndpoint_HttpError`: the server answers 403 and the call,
made with a nil target, returns a non-nil error. -/
theorem invokeEndpoint_status_classification_witness :
    (invokeEndpoint (testEnv TestResponseMessage.fields)
        (testConnection TestResponseMessage.fields (serverClient 403 forbiddenBody))
        (some background) "POST" "/endpoint" (some true) none).outcome ≠ .returned none ∧
    (invokeEndpoint (testEnv TestResponseMessage.fields)
        (testConnection TestResponseMessage.fields (serverClient 403 forbiddenBody))
        (some background) "POST" "/endpoint" (some true)
        (some { OperationID := "kept" })).target = some { OperationID := "kept" } := by
  have h := invokeEndpoint_status_classification (testEnv TestResponseMessage.fields)
    (testConnection TestResponseMessage.fields (serverClient 403 forbiddenBody))
    (serverClient 403 forbiddenBody) (some background) "POST" "/endpoint" (some true)
    (testRequest background "POST" "true")
    { statusCode := 403, body := { data := forbiddenBody, err := none } } rfl rfl rfl
  refine ⟨fun hnil => ?_, ((h.2 (by decide)).2 { OperationID := "kept" }).2⟩
  exact absurd (h.1.mp hnil) (by decide)

/-- C4. For a response whose status code `s` is neither 200 nor 202 and whose body `b` is
read to its end, the error returned is `fmt.Errorf("nursys: request returned %d: %s", s, b)`:
its text is `nursys: request returned `, `s` in decimal, `: ` and `b`; the status code and
the body are determined by that error. -/
theorem invokeEndpoint_remote_error_text {β τ ε υ : Type} (env : Env β τ ε υ)
    (cfg : nsHTTPClient ε υ) (httpClient : HttpClient ε υ) (ctx : Option Context)
    (method endpoint : String) (body : Option β) (target : Option τ) (req : Request υ)
    (s : Int) (b : String)
    (hclient : cfg.httpClient = some httpClient)
    (hreq : buildRequest env cfg ctx method endpoint body = .ok req)
    (hdo : httpClient.Do req = .ok { statusCode := s, body := { data := b, err := none } })
    (h200 : s ≠ 200) (h202 : s ≠ 202) :
    (invokeEndpoint env cfg ctx method endpoint body target).outcome =
      .returned (some (.errorString
        ("nursys: request returned " ++ formatInt s ++ ": " ++ b))) ∧
    ∀ (s' : Int) (b' : String),
      (invokeEndpoint env cfg ctx method endpoint body target).outcome =
        .returned (some (remoteError s' b')) → s' = s ∧ b' = b := by
  have hout : (invokeEndpoint env cfg ctx method endpoint body target).outcome =
      .returned (some (remoteError s b)) := by
    unfold invokeEndpoint
    simp [hreq, hclient, hdo, h200, h202, ReadAll]
  refine ⟨hout, fun s' b' h => ?_⟩
  rw [hout] at h
  simp only [Outcome.returned.injEq, Option.some.injEq] at h
  exact remoteError_injective h.symm

/-- The scenario of `TestInvokeEndpoint_HttpError`: the text of the error returned for
status 403. -/
theorem invokeEndpoint_remote_error_text_witness :
    (invokeEndpoint (testEnv TestResponseMessage.fields)
        (testConnection TestResponseMessage.fields (serverClient 403 forbiddenBody))
        (some background) "POST" "/endpoint" (some true) none).outcome =
      .returned (some (.errorString
        "nursys: request returned 403: \x7b\"error\": \"Forbidden\"\x7d")) :=
  (invokeEndpoint_remote_error_text (testEnv TestResponseMessage.fields)
    (testConnection TestResponseMessage.fields (serverClient 403 forbiddenBody))
    (serverClient 403 forbiddenBody) (some background) "POST" "/endpoint" (some true) none
    (testRequest background "POST" "true") 403 forbiddenBody rfl rfl rfl
    (by decide) (by decide)).1

/-- C5. When `Do` returns the error `e`, `invokeEndpoint` returns `e` itself, so every
predicate on errors that holds of `e`, such as `errors.Is(·, context.DeadlineExceeded)`,
holds of the result; no response is read or closed, the target is left as it was, and the
error differs from every error produced for a status code. -/
theorem invokeEndpoint_transport_error {β τ ε υ : Type} (env : Env β τ ε υ)
    (cfg : nsHTTPClient ε υ) (httpClient : HttpClient ε υ) (ctx : Option Context)
    (method endpoint : String) (body : Option β) (target : Option τ) (req : Request υ)
    (e : ε)
    (hclient : cfg.httpClient = some httpClient)
    (hreq : buildRequest env cfg ctx method endpoint body = .ok req)
    (hdo : httpClient.Do req = .error e) :
    invokeEndpoint env cfg ctx method endpoint body target =
      { outcome := .returned (some (.lib e)), target := target, trace := [.doCall req] } ∧
    ∀ (s : Int) (b : String),
      (invokeEndpoint env cfg ctx method endpoint body target).outcome ≠
        .returned (some (remoteError s b)) := by
  have hres : invokeEndpoint env cfg ctx method endpoint body target =
      { outcome := .returned (some (.lib e)), target := target, trace := [.doCall req] } := by
    unfold invokeEndpoint
    simp [hreq, hclient, hdo]
  refine ⟨hres, fun s b h => ?_⟩
  rw [hres] at h
  simp [remoteError] at h

/-- The scenario of `TestInvokeEndpoint_GoError`: the transport fails with
`oh no an error`, and the call returns the `*url.Error` of `Do`. -/
theorem invokeEndpoint_transport_error_witness :
    invokeEndpoint (testEnv TestResponseMessage.fields)
        (testConnection TestResponseMessage.fields failingClient)
        (some background) "POST" "/endpoint" (some true)
        (some { OperationID := "kept" }) =
      { outcome := .returned (some (.lib (.urlError "Post"
          "https://example.com/api/endpoint" (.text "oh no an error")))),
        target := some { OperationID := "kept" },
        trace := [.doCall (testRequest background "POST" "true")] } :=
  (invokeEndpoint_transport_error (testEnv TestResponseMessage.fields)
    (testConnection TestResponseMessage.fields failingClient) failingClient
    (some background) "POST" "/endpoint" (some true) (some { OperationID := "kept" })
    (testRequest background "POST" "true")
    (.urlError "Post" "https://example.com/api/endpoint" (.text "oh no an error"))
    rfl rfl rfl).1

/-- C2. For every response with status 200 or 202 whose body the decoder accepts for the
target (well-formed JSON that matches its schema), `invokeEndpoint` called with a pointer to
a variable holding `fresh` returns the nil error and leaves in the target the decoding of
that body into `fresh`.  Every caller of `invokeEndpoint` hands in a variable declared on
the line before, which holds a fresh value of the target's type: the target then holds the
direct decoding of the body into a fresh value. -/
theorem invokeEndpoint_decodes_into_target {β τ ε υ : Type} (env : Env β τ ε υ)
    (cfg : nsHTTPClient ε υ) (httpClient : HttpClient ε υ) (ctx : Option Context)
    (method endpoint : String) (body : Option β) (req : Request υ) (resp : Response ε)
    (fresh : τ)
    (hclient : cfg.httpClient = some httpClient)
    (hreq : buildRequest env cfg ctx method endpoint body = .ok req)
    (hdo : httpClient.Do req = .ok resp)
    (hstatus : resp.statusCode = 200 ∨ resp.statusCode = 202)
    (hdecode : (env.decode resp.body fresh).2 = none) :
    invokeEndpoint env cfg ctx method endpoint body (some fresh) =
      { outcome := .returned none, target := some (env.decode resp.body fresh).1,
        trace := [.doCall req, .decode, .close] } := by
  have hn : ¬(resp.statusCode ≠ 200 ∧ resp.statusCode ≠ 202) := by
    rcases hstatus with h | h <;> simp [h]
  unfold invokeEndpoint
  simp [hreq, hclient, hdo, hn, hdecode]

/-- The scenario of `TestInvokeEndpoint_Basic`: the body with `operation_id` `df6a6b50`,
decoded into a fresh `TestResponseMessage`, yields
`TestResponseMessage{OperationID: "df6a6b50"}` and the nil error. -/
theorem invokeEndpoint_decodes_into_target_witness :
    invokeEndpoint (testEnv TestResponseMessage.fields)
        (testConnection TestResponseMessage.fields (serverClient 200 basicBody))
        (some background) "POST" "/endpoint" (some true) (some { OperationID := "" }) =
      { outcome := .returned none, target := some { OperationID := "df6a6b50" },
        trace := [.doCall (testRequest background "POST" "true"), .decode, .close] } :=
  invokeEndpoint_decodes_into_target (testEnv TestResponseMessage.fields)
    (testConnection TestResponseMessage.fields (serverClient 200 basicBody))
    (serverClient 200 basicBody) (some background) "POST" "/endpoint" (some true)
    (testRequest background "POST" "true")
    { statusCode := 200, body := { data := basicBody, err := none } }
    { OperationID := "" } rfl rfl rfl (by decide) rfl

/-- The variable whose address `invokeEndpoint` is given is changed by the decoder alone. -/
theorem invokeEndpoint_left_by_decoder_alone {β τ ε υ : Type} (env : Env β τ ε υ)
    (cfg : nsHTTPClient ε υ) (ctx : Option Context) (method endpoint : String)
    (body : Option β) (t : τ) :
    (invokeEndpoint env cfg ctx method endpoint body (some t)).target =
      some ((invokeEndpoint env cfg ctx method endpoint body (some t)).target.getD t) ∧
    LeftByDecoderAlone env cfg ctx method endpoint body t
      ((invokeEndpoint env cfg ctx method endpoint body (some t)).target.getD t,
       (invokeEndpoint env cfg ctx method endpoint body (some t)).outcome) := by
  unfold LeftByDecoderAlone
  cases hb : buildRequest env cfg ctx method endpoint body with
  | error err =>
    refine ⟨by simp [invokeEndpoint, hb], fun hc req resp _ h => by simp at h,
      fun _ => by simp [invokeEndpoint, hb]⟩
  | ok req =>
    cases hc : cfg.httpClient with
    | none =>
      refine ⟨by simp [invokeEndpoint, hb, hc], fun hc' req' resp h => by simp at h,
        fun _ => by simp [invokeEndpoint, hb, hc]⟩
    | some httpClient =>
      cases hd : httpClient.Do req with
      | error err =>
        refine ⟨by simp [invokeEndpoint, hb, hc, hd], ?_,
          fun _ => by simp [invokeEndpoint, hb, hc, hd]⟩
        intro hc' req' resp h1 h2 h3
        simp only [Option.some.injEq] at h1
        simp only [Except.ok.injEq] at h2
        rw [← h1, ← h2, hd] at h3
        simp at h3
      | ok resp =>
        by_cases hs : resp.statusCode ≠ 200 ∧ resp.statusCode ≠ 202
        · refine ⟨by simp [invokeEndpoint, hb, hc, hd, hs], ?_,
            fun _ => by simp [invokeEndpoint, hb, hc, hd, hs]⟩
          intro hc' req' resp' h1 h2 h3 h4
          simp only [Option.some.injEq] at h1
          simp only [Except.ok.injEq] at h2
          rw [← h1, ← h2, hd] at h3
          simp only [Except.ok.injEq] at h3
          rw [← h3] at h4
          omega
        · refine ⟨by simp [invokeEndpoint, hb, hc, hd, hs], ?_, ?_⟩
          · intro hc' req' resp' h1 h2 h3 _
            simp only [Option.some.injEq] at h1
            simp only [Except.ok.injEq] at h2
            rw [← h1, ← h2, hd] at h3
            simp only [Except.ok.injEq] at h3
            rw [← h3]
            simp [invokeEndpoint, hb, hc, hd, hs]
          · intro hno
            exact absurd ⟨httpClient, req, resp, rfl, rfl, hd, by omega⟩ hno

/-- C3, as the code has it.  A call of `invokeEndpoint` with a pointer to a variable that
holds `t` leaves the variable holding `t` unless it received a response with status 200 or
202; when it did, the variable and the error returned are those the decoder produced from
the body and `t`, whether the decoder failed or not.  Each of the eight endpoint wrappers
returns its response variable as `invokeEndpoint` left it, together with the error: the zero
response unless a response with status 200 or 202 arrived, and the decoder's value and error
when one did. -/
theorem invokeEndpoint_target_changed_only_by_decoder {β ρ θ ε υ : Type}
    (env : Env β ρ ε υ)
    (envCP :
      Env ChangePasswordSubmitRequestMessage (ChangePasswordSubmitResponseMessage θ) ε υ)
    (envRD : Env β (RetrieveDocumentsRetrieveResponseMessage θ) ε υ)
    (cfg : nsHTTPClient ε υ) (ctx : Option Context) (method endpoint : String)
    (body : Option β) (t zero : ρ) (zeroTime : θ) (request : β)
    (requestCP : ChangePasswordSubmitRequestMessage) (txID : String)
    (documentIDs : List String) :
    (∃ after, (invokeEndpoint env cfg ctx method endpoint body (some t)).target = some after ∧
      LeftByDecoderAlone env cfg ctx method endpoint body t
        (after, (invokeEndpoint env cfg ctx method endpoint body (some t)).outcome)) ∧
    LeftByDecoderAlone env cfg ctx "POST" "/managenurselist" (some request) zero
      (ManageNurseList env zero cfg ctx request) ∧
    LeftByDecoderAlone env cfg ctx "GET"
      ("/managenurselist?transactionId=" ++ QueryEscape txID) none zero
      (GetManageNurseListResult env zero cfg ctx txID) ∧
    LeftByDecoderAlone envCP cfg ctx "POST" "/changepassword" (some requestCP)
      (ChangePasswordSubmitResponseMessage.zero zeroTime)
      (ChangePassword envCP zeroTime cfg ctx requestCP) ∧
    LeftByDecoderAlone env cfg ctx "POST" "/nurselookup" (some request) zero
      (NurseLookup env zero cfg ctx request) ∧
    LeftByDecoderAlone env cfg ctx "GET"
      ("/nurselookup?transactionId=" ++ QueryEscape txID) none zero
      (GetNurseLookupResult env zero cfg ctx txID) ∧
    LeftByDecoderAlone env cfg ctx "POST" "/notificationlookup" (some request) zero
      (NotificationLookup env zero cfg ctx request) ∧
    LeftByDecoderAlone env cfg ctx "GET"
      ("/notificationlookup?transactionId=" ++ QueryEscape txID) none zero
      (GetNotificationLookupResult env zero cfg ctx txID) ∧
    LeftByDecoderAlone envRD cfg ctx "GET"
      ("/retrievedocuments?documentIds=" ++ QueryEscape (Join documentIDs ",")) none
      (RetrieveDocumentsRetrieveResponseMessage.zero zeroTime)
      (RetrieveDocuments envRD zeroTime cfg ctx documentIDs) :=
  ⟨⟨_, (invokeEndpoint_left_by_decoder_alone env cfg ctx method endpoint body t).1,
      (invokeEndpoint_left_by_decoder_alone env cfg ctx method endpoint body t).2⟩,
    (invokeEndpoint_left_by_decoder_alone env cfg ctx _ _ _ zero).2,
    (invokeEndpoint_left_by_decoder_alone env cfg ctx _ _ _ zero).2,
    (invokeEndpoint_left_by_decoder_alone envCP cfg ctx _ _ _ _).2,
    (invokeEndpoint_left_by_decoder_alone env cfg ctx _ _ _ zero).2,
    (invokeEndpoint_left_by_decoder_alone env cfg ctx _ _ _ zero).2,
    (invokeEndpoint_left_by_decoder_alone env cfg ctx _ _ _ zero).2,
    (invokeEndpoint_left_by_decoder_alone env cfg ctx _ _ _ zero).2,
    (invokeEndpoint_left_by_decoder_alone envRD cfg ctx _ _ _ _).2⟩

/-- The scenario of a response with status 200 whose `TransactionDate` is no time:
`ChangePassword` returns what the decoder left and the decoder's error. -/
theorem invokeEndpoint_target_changed_only_by_decoder_witness :
    ChangePassword testChangePasswordEnv GoTime.zero
        (New testChangePasswordEnv "https://example.com/api" "acme" "1234!"
          [WithHTTPClient (some (serverClient 200 badDateBody))])
        (some background) { NewPassword := "short" } =
      ((testChangePasswordEnv.decode { data := badDateBody, err := none }
          (ChangePasswordSubmitResponseMessage.zero GoTime.zero)).1,
       .returned ((testChangePasswordEnv.decode { data := badDateBody, err := none }
          (ChangePasswordSubmitResponseMessage.zero GoTime.zero)).2.map .lib)) :=
  (invokeEndpoint_target_changed_only_by_decoder
    (testEnv TestResponseMessage.fields) testChangePasswordEnv
    (apiEnv (fun _ => "true") (RetrieveDocumentsRetrieveResponseMessage.fields goTime)
      testParseURL (serverClient 200 "\x7b\x7d"))
    (New testChangePasswordEnv "https://example.com/api" "acme" "1234!"
      [WithHTTPClient (some (serverClient 200 badDateBody))])
    (some background) "GET" "/endpoint" none { OperationID := "" } { OperationID := "" }
    GoTime.zero true { NewPassword := "short" } "" []).2.2.2.1.1
    (serverClient 200 badDateBody)
    { ctx := background, method := "POST", url := "https://example.com/api/changepassword",
      header := [("Content-Type", ["application/json"]), ("Username", ["acme"]),
        ("Password", ["1234!"])],
      body := "\x7b\"NewPassword\":\"short\"\x7d" }
    { statusCode := 200, body := { data := badDateBody, err := none } }
    rfl (by rfl) rfl (Or.inl rfl)

/-- C3, as stated, fails.  The server answers the request of `ChangePassword` with status
200 and a body whose `TransactionId` is `abc` and whose `TransactionDate`, the member after
it, is the text `yesterday`: `ChangePassword` returns the error `invalid time format`, which
is not nil, and a response whose `TransactionID` has been populated, which is not the zero
response. -/
theorem ChangePassword_decode_error_leaves_fields_set :
    ChangePassword testChangePasswordEnv GoTime.zero
        (New testChangePasswordEnv "https://example.com/api" "acme" "1234!"
          [WithHTTPClient (some (serverClient 200 badDateBody))])
        (some background) { NewPassword := "short" } =
      ({ Transaction :=
          { TransactionID := "abc", TransactionDate := GoTime.zero, TransactionComment := "",
            TransactionSuccessFlag := false, TransactionErrors := none } },
       .returned (some (.lib (.text "invalid time format")))) ∧
    ({ Transaction :=
        { TransactionID := "abc", TransactionDate := GoTime.zero, TransactionComment := "",
          TransactionSuccessFlag := false, TransactionErrors := none } } :
      ChangePasswordSubmitResponseMessage GoTime) ≠
      ChangePasswordSubmitResponseMessage.zero GoTime.zero := by
  refine ⟨by rfl, by decide⟩

/-- Options built by `WithHTTPClient` leave the credentials and the base URL alone. -/
theorem foldl_WithHTTPClient_fields {ε υ : Type} (clients : List (Option (HttpClient ε υ))) :
    ∀ c : nsHTTPClient ε υ,
      ((clients.map WithHTTPClient).foldl (fun c opt => opt c) c).username = c.username ∧
      ((clients.map WithHTTPClient).foldl (fun c opt => opt c) c).pasword = c.pasword ∧
      ((clients.map WithHTTPClient).foldl (fun c opt => opt c) c).endpointURL =
        c.endpointURL := by
  induction clients with
  | nil => intro c; simp
  | cons h clients ih =>
    intro c
    simp only [List.map_cons, List.foldl_cons]
    obtain ⟨h1, h2, h3⟩ := ih (WithHTTPClient h c)
    exact ⟨h1, h2, h3⟩

/-- The client returned by `New` holds the three strings it was given. -/
theorem New_fields {β τ ε υ : Type} (env : Env β τ ε υ) (baseURL u p : String)
    (clients : List (Option (HttpClient ε υ))) :
    (New env baseURL u p (clients.map WithHTTPClient)).username = u ∧
    (New env baseURL u p (clients.map WithHTTPClient)).pasword = p ∧
    (New env baseURL u p (clients.map WithHTTPClient)).endpointURL = baseURL := by
  obtain ⟨h1, h2, h3⟩ := foldl_WithHTTPClient_fields clients
    { httpClient := none, username := u, pasword := p, endpointURL := baseURL }
  unfold New
  simp only
  split <;> exact ⟨h1, h2, h3⟩

/-- The header map after the three `Add` calls of `invokeEndpoint`. -/
theorem header_after_adds (u p : String) :
    Header.Add (Header.Add (Header.Add [] "Content-Type" "application/json") "username" u)
        "password" p =
      [("Content-Type", ["application/json"]), ("Username", [u]), ("Password", [p])] := by
  have h1 : CanonicalMIMEHeaderKey "Content-Type" = "Content-Type" := by decide
  have h2 : CanonicalMIMEHeaderKey "username" = "Username" := by decide
  have h3 : CanonicalMIMEHeaderKey "password" = "Password" := by decide
  simp [Header.Add, Header.append, h1, h2, h3]

/-- C6. For a client built by `New(baseURL, u, p, ...)`, the options being built by
`WithHTTPClient`, every request that `invokeEndpoint` hands to `Do` carries the header
`Content-Type: application/json`, the header `username` with value `u` and the header
`password` with value `p`, and no other header value. -/
theorem invokeEndpoint_request_headers {β τ ε υ : Type} (env : Env β τ ε υ)
    (baseURL u p : String) (clients : List (Option (HttpClient ε υ)))
    (ctx : Option Context) (method endpoint : String) (body : Option β)
    (target : Option τ) (req : Request υ)
    (h : Event.doCall req ∈
      (invokeEndpoint env (New env baseURL u p (clients.map WithHTTPClient)) ctx method
        endpoint body target).trace) :
    req.header.Get "Content-Type" = "application/json" ∧
    req.header.Get HeaderUsername = u ∧
    req.header.Get HeaderPassword = p ∧
    req.header =
      [("Content-Type", ["application/json"]), ("Username", [u]), ("Password", [p])] := by
  obtain ⟨jsonStr, c, url, -, -, -, -, hreq⟩ :=
    buildRequest_eq_ok env _ ctx method endpoint body req
      (buildRequest_of_doCall_mem env _ ctx method endpoint body target req h)
  obtain ⟨hu, hp, -⟩ := New_fields env baseURL u p clients
  have hh : req.header =
      [("Content-Type", ["application/json"]), ("Username", [u]), ("Password", [p])] := by
    rw [hreq, hu, hp]
    exact header_after_adds u p
  have h1 : CanonicalMIMEHeaderKey "Content-Type" = "Content-Type" := by decide
  have h2 : CanonicalMIMEHeaderKey "username" = "Username" := by decide
  have h3 : CanonicalMIMEHeaderKey "password" = "Password" := by decide
  refine ⟨?_, ?_, ?_, hh⟩ <;>
    simp [hh, Header.Get, HeaderUsername, HeaderPassword, h1, h2, h3, List.lookup]

/-- The scenario of `TestInvokeEndpoint_Basic`: the request that reaches the server carries
`application/json`, `acme` and `1234!`. -/
theorem invokeEndpoint_request_headers_witness :
    Event.doCall (testRequest background "POST" "true") ∈
      (invokeEndpoint (testEnv TestResponseMessage.fields)
        (New (testEnv TestResponseMessage.fields) "https://example.com/api" "acme" "1234!"
          ([some (serverClient 200 basicBody)].map WithHTTPClient))
        (some background) "POST" "/endpoint" (some true)
        (some { OperationID := "" })).trace ∧
    (testRequest background "POST" "true").header.Get "Content-Type" = "application/json" ∧
    (testRequest background "POST" "true").header.Get HeaderUsername = "acme" ∧
    (testRequest background "POST" "true").header.Get HeaderPassword = "1234!" :=
  have hmem : Event.doCall (testRequest background "POST" "true") ∈
      (invokeEndpoint (testEnv TestResponseMessage.fields)
        (New (testEnv TestResponseMessage.fields) "https://example.com/api" "acme" "1234!"
          ([some (serverClient 200 basicBody)].map WithHTTPClient))
        (some background) "POST" "/endpoint" (some true)
        (some { OperationID := "" })).trace := by decide
  have h := invokeEndpoint_request_headers (testEnv TestResponseMessage.fields)
    "https://example.com/api" "acme" "1234!" [some (serverClient 200 basicBody)]
    (some background) "POST" "/endpoint" (some true) (some { OperationID := "" })
    (testRequest background "POST" "true") hmem
  ⟨hmem, h.1, h.2.1, h.2.2.1⟩

/-- C7. For every request value, every method `m` that names a method (the empty string
names none: `net/http` reads it as `GET`, and no caller of `invokeEndpoint` passes it) and
every path `e`, every request that `invokeEndpoint` hands to `Do` has the method `m`; its
URL is what `url.Parse` returns for exactly the string `endpointURL ++ e`; its body is the
JSON serialization of the request value, which for the nil request value is the literal
`null`. -/
theorem invokeEndpoint_request_line {β τ ε υ : Type} (env : Env β τ ε υ)
    (cfg : nsHTTPClient ε υ) (ctx : Option Context) (method endpoint : String)
    (body : Option β) (target : Option τ) (req : Request υ) (hmethod : method ≠ "")
    (h : Event.doCall req ∈
      (invokeEndpoint env cfg ctx method endpoint body target).trace) :
    req.method = method ∧
    env.parseURL (cfg.endpointURL ++ endpoint) = .ok req.url ∧
    jsonMarshal env body = .ok req.body ∧
    (body = none → req.body = "null") := by
  obtain ⟨jsonStr, c, url, hm, -, -, hu, hreq⟩ :=
    buildRequest_eq_ok env cfg ctx method endpoint body req
      (buildRequest_of_doCall_mem env cfg ctx method endpoint body target req h)
  subst hreq
  refine ⟨by simp [hmethod], hu, hm, fun hb => ?_⟩
  subst hb
  simp only [jsonMarshal, Except.ok.injEq] at hm
  exact hm.symm

/-- The scenario of `TestInvokeEndpoint_Basic`: the server sees a `POST` whose URL is
base URL followed by `/endpoint` and whose body is the marshalled request value. -/
theorem invokeEndpoint_request_line_witness :
    Event.doCall (testRequest background "POST" "true") ∈
      (invokeEndpoint (testEnv TestResponseMessage.fields)
        (testConnection TestResponseMessage.fields (serverClient 200 basicBody))
        (some background) "POST" "/endpoint" (some true)
        (some { OperationID := "" })).trace ∧
    (testRequest background "POST" "true").method = "POST" ∧
    testParseURL ("https://example.com/api" ++ "/endpoint") =
      .ok (testRequest background "POST" "true").url :=
  have hmem : Event.doCall (testRequest background "POST" "true") ∈
      (invokeEndpoint (testEnv TestResponseMessage.fields)
        (testConnection TestResponseMessage.fields (serverClient 200 basicBody))
        (some background) "POST" "/endpoint" (some true)
        (some { OperationID := "" })).trace := by decide
  have h := invokeEndpoint_request_line (testEnv TestResponseMessage.fields)
    (testConnection TestResponseMessage.fields (serverClient 200 basicBody))
    (some background) "POST" "/endpoint" (some true) (some { OperationID := "" })
    (testRequest background "POST" "true") (by decide) hmem
  ⟨hmem, h.1, h.2.1⟩

/-- C8. If `json.Marshal` of the request value fails with `e`, or if the request value
marshals, the method is valid, the context is not nil and `endpointURL ++ endpoint` fails to
parse with `e`, then `invokeEndpoint` returns `e`, hands no request to `Do` and leaves the
target as it was. -/
theorem invokeEndpoint_fails_before_dispatch {β τ ε υ : Type} (env : Env β τ ε υ)
    (cfg : nsHTTPClient ε υ) (ctx : Option Context) (method endpoint : String)
    (body : Option β) (target : Option τ) (e : ε)
    (h : jsonMarshal env body = .error e ∨
      ((∃ jsonStr, jsonMarshal env body = .ok jsonStr) ∧ (∃ c, ctx = some c) ∧
        validMethod (if method = "" then "GET" else method) = true ∧
        env.parseURL (cfg.endpointURL ++ endpoint) = .error e)) :
    invokeEndpoint env cfg ctx method endpoint body target =
      { outcome := .returned (some (.lib e)), target := target, trace := [] } := by
  have hb : buildRequest env cfg ctx method endpoint body = .error (.lib e) := by
    unfold buildRequest
    rcases h with hm | ⟨⟨jsonStr, hm⟩, ⟨c, hc⟩, hv, hu⟩
    · simp [hm]
    · subst hc
      simp [hm, NewRequestWithContext, hv, hu]
  unfold invokeEndpoint
  simp [hb]

/-- A base URL holding the control character U+007F does not parse: the call returns the
`*url.Error` of `url.Parse`, no request is dispatched and the target is left as it was. -/
theorem invokeEndpoint_fails_before_dispatch_witness :
    invokeEndpoint (testEnv TestResponseMessage.fields)
        (New (testEnv TestResponseMessage.fields) "https://example.com/\x7f" "acme" "1234!"
          [WithHTTPClient (some (serverClient 200 basicBody))])
        (some background) "POST" "/endpoint" (some true) (some { OperationID := "kept" }) =
      { outcome := .returned (some (.lib (.urlError "parse"
          "https://example.com/\x7f/endpoint"
          (.text "net/url: invalid control character in URL")))),
        target := some { OperationID := "kept" }, trace := [] } :=
  invokeEndpoint_fails_before_dispatch (testEnv TestResponseMessage.fields)
    (New (testEnv TestResponseMessage.fields) "https://example.com/\x7f" "acme" "1234!"
      [WithHTTPClient (some (serverClient 200 basicBody))])
    (some background) "POST" "/endpoint" (some true) (some { OperationID := "kept" })
    (.urlError "parse" "https://example.com/\x7f/endpoint"
      (.text "net/url: invalid control character in URL"))
    (Or.inr ⟨⟨"true", rfl⟩, ⟨background, rfl⟩, by decide, rfl⟩)

/-- C9, as the code has it.  Request construction takes no account of the state of the
context: with a context `c`, done or not, it succeeds or fails as with a live context and
builds the same request but for the stored context.  When it succeeds, the request, carrying
`c`, is handed to `Do`; if `Do` then fails with `e`, as the standard transport does for a
done context, the call returns `e`, reads no response and leaves the target as it was. -/
theorem invokeEndpoint_done_context_reaches_Do {β τ ε υ : Type} (env : Env β τ ε υ)
    (cfg : nsHTTPClient ε υ) (httpClient : HttpClient ε υ) (c : Context)
    (method endpoint : String) (body : Option β) (target : Option τ)
    (hclient : cfg.httpClient = some httpClient) :
    (buildRequest env cfg (some c) method endpoint body).map
        (fun r => { r with ctx := background }) =
      buildRequest env cfg (some background) method endpoint body ∧
    ∀ req, buildRequest env cfg (some c) method endpoint body = .ok req →
      req.ctx = c ∧
      (invokeEndpoint env cfg (some c) method endpoint body target).trace.head? =
        some (.doCall req) ∧
      ∀ e, httpClient.Do req = .error e →
        invokeEndpoint env cfg (some c) method endpoint body target =
          { outcome := .returned (some (.lib e)), target := target,
            trace := [.doCall req] } := by
  constructor
  · unfold buildRequest NewRequestWithContext
    cases jsonMarshal env body with
    | error e => rfl
    | ok jsonStr =>
      by_cases hv : validMethod (if method = "" then "GET" else method) = true
      · cases hu : env.parseURL (cfg.endpointURL ++ endpoint) with
        | error e => simp [hv, Except.map]
        | ok u => simp [hv, Except.map]
      · simp [hv, Except.map]
  · intro req hreq
    obtain ⟨jsonStr, c', url, -, hc, -, -, hr⟩ :=
      buildRequest_eq_ok env cfg (some c) method endpoint body req hreq
    refine ⟨?_, ?_, fun e hdo => ?_⟩
    · simp only [Option.some.injEq] at hc
      rw [hr, hc]
    · unfold invokeEndpoint
      simp only [hreq, hclient]
      cases httpClient.Do req with
      | error e => rfl
      | ok resp =>
        simp only
        split
        · rfl
        · cases target <;> rfl
    · unfold invokeEndpoint
      simp [hreq, hclient, hdo]

/-- A call entered with a cancelled context: the request is built and handed to `Do`, whose
error, wrapping `context.Canceled`, is what the call returns. -/
theorem invokeEndpoint_done_context_reaches_Do_witness :
    invokeEndpoint (testEnv TestResponseMessage.fields)
        (testConnection TestResponseMessage.fields (serverClient 200 basicBody))
        (some { err := some .canceled }) "POST" "/endpoint" (some true)
        (some { OperationID := "kept" }) =
      { outcome := .returned (some (.lib (.urlError "Post"
          "https://example.com/api/endpoint" (.context .canceled)))),
        target := some { OperationID := "kept" },
        trace := [.doCall (testRequest { err := some .canceled } "POST" "true")] } :=
  ((invokeEndpoint_done_context_reaches_Do (testEnv TestResponseMessage.fields)
    (testConnection TestResponseMessage.fields (serverClient 200 basicBody))
    (serverClient 200 basicBody) { err := some .canceled } "POST" "/endpoint" (some true)
    (some { OperationID := "kept" }) rfl).2
    (testRequest { err := some .canceled } "POST" "true") rfl).2.2
    (.urlError "Post" "https://example.com/api/endpoint" (.context .canceled)) rfl

/-- C9, as stated, fails.  The call is entered with a cancelled context: request
construction succeeds, and the request is handed to the HTTP client's `Do`. -/
theorem invokeEndpoint_cancelled_context_is_dispatched :
    buildRequest (testEnv TestResponseMessage.fields)
        (testConnection TestResponseMessage.fields (serverClient 200 basicBody))
        (some { err := some .canceled }) "POST" "/endpoint" (some true) =
      .ok (testRequest { err := some .canceled } "POST" "true") ∧
    Event.doCall (testRequest { err := some .canceled } "POST" "true") ∈
      (invokeEndpoint (testEnv TestResponseMessage.fields)
        (testConnection TestResponseMessage.fields (serverClient 200 basicBody))
        (some { err := some .canceled }) "POST" "/endpoint" (some true)
        (none : Option TestResponseMessage)).trace ∧
    (invokeEndpoint (testEnv TestResponseMessage.fields)
        (testConnection TestResponseMessage.fields (serverClient 200 basicBody))
        (some { err := some .canceled }) "POST" "/endpoint" (some true)
        (none : Option TestResponseMessage)).trace ≠ [] := by
  refine ⟨rfl, ?_, ?_⟩ <;> decide

/-! ## Digits of the time formats -/

/-- A digit character is a digit. -/
theorem digitChar_isDigit {d : Nat} (h : d < 10) : (Nat.digitChar d).isDigit = true := by
  interval_cases d <;> rfl

/-- The value of a digit character. -/
theorem digitChar_toNat_sub {d : Nat} (h : d < 10) : (Nat.digitChar d).toNat - 48 = d := by
  interval_cases d <;> rfl

/-- The decimal numeral of a number below ten. -/
theorem toDigits_lt_ten {n : Nat} (h : n < 10) : Nat.toDigits 10 n = [Nat.digitChar n] := by
  interval_cases n <;> rfl

/-- The decimal numeral of a number from ten on ends with its last digit. -/
theorem toDigits_ge_ten {n : Nat} (h : 10 ≤ n) :
    Nat.toDigits 10 n = Nat.toDigits 10 (n / 10) ++ [Nat.digitChar (n % 10)] := by
  have h0 : n ≠ 0 := by omega
  have h1 : n / 10 ≠ 0 := by omega
  rw [toDigits_eq_digits n, toDigits_eq_digits (n / 10)]
  simp only [h0, h1, if_false]
  rw [Nat.digits_def' (by norm_num) (by omega)]
  simp

/-- The fixed digits of zero are zeros. -/
theorem digitsFixed_zero (w : Nat) : digitsFixed w 0 = List.replicate w '0' := by
  induction w with
  | zero => rfl
  | succ w ih =>
    simp only [digitsFixed, Nat.zero_div, Nat.zero_mod, ih]
    rw [List.replicate_succ']
    rfl

/-- Padding a numeral to `w` digits gives the `w` last digits, when `w` digits suffice. -/
theorem pad_toDigits (w : Nat) : ∀ n : Nat, n < 10 ^ (w + 1) →
    List.replicate (w + 1 - (Nat.toDigits 10 n).length) '0' ++ Nat.toDigits 10 n =
      digitsFixed (w + 1) n ∧ (Nat.toDigits 10 n).length ≤ w + 1 := by
  induction w with
  | zero =>
    intro n h
    have h' : n < 10 := by simpa using h
    simp [toDigits_lt_ten h', digitsFixed, Nat.mod_eq_of_lt h']
  | succ w ih =>
    intro n h
    by_cases h10 : n < 10
    · have hd : n / 10 = 0 := by omega
      simp only [toDigits_lt_ten h10, digitsFixed, hd, Nat.zero_div, Nat.zero_mod,
        List.length_singleton]
      simp only [Nat.mod_eq_of_lt h10]
      constructor
      · have h2 : w + 1 + 1 - 1 = w + 1 := by omega
        rw [h2, List.replicate_succ', List.append_assoc]
        rw [digitsFixed_zero w]
        simp
        rfl
      · omega
    · have hge : 10 ≤ n := by omega
      have hq : n / 10 < 10 ^ (w + 1) := by
        rw [Nat.div_lt_iff_lt_mul (by norm_num)]
        calc n < 10 ^ (w + 1 + 1) := h
          _ = 10 ^ (w + 1) * 10 := by ring
      obtain ⟨ih1, ih2⟩ := ih (n / 10) hq
      rw [toDigits_ge_ten hge]
      simp only [List.length_append, List.length_singleton]
      constructor
      · have h2 : w + 1 + 1 - ((Nat.toDigits 10 (n / 10)).length + 1) =
            w + 1 - (Nat.toDigits 10 (n / 10)).length := by omega
        rw [h2, ← List.append_assoc, ih1]
        rfl
      · omega

/-- The function `appendInt` on a natural number that fits the width. -/
theorem appendInt_eq_digitsFixed {w n : Nat} (hw : 1 ≤ w) (h : n < 10 ^ w) :
    appendInt (n : Int) w = digitsFixed w n := by
  obtain ⟨w', rfl⟩ : ∃ w', w = w' + 1 := ⟨w - 1, by omega⟩
  have := (pad_toDigits w' n h).1
  simp only [appendInt, Int.natAbs_ofNat]
  have hneg : ¬ ((n : Int) < 0) := by omega
  simp only [hneg, if_false, List.nil_append]
  exact this

/-- Two digits. -/
theorem appendInt_two {n : Nat} (h : n < 100) :
    appendInt (n : Int) 2 = [Nat.digitChar (n / 10), Nat.digitChar (n % 10)] := by
  rw [appendInt_eq_digitsFixed (by norm_num) (by norm_num; exact h)]
  have : n / 10 % 10 = n / 10 := by omega
  simp [digitsFixed, this]

/-- Four digits. -/
theorem appendInt_four {n : Nat} (h : n < 10000) :
    appendInt (n : Int) 4 =
      [Nat.digitChar (n / 1000), Nat.digitChar (n / 100 % 10), Nat.digitChar (n / 10 % 10),
       Nat.digitChar (n % 10)] := by
  rw [appendInt_eq_digitsFixed (by norm_num) (by norm_num; exact h)]
  have h1 : n / 10 / 10 / 10 % 10 = n / 1000 := by omega
  have h2 : n / 10 / 10 % 10 = n / 100 % 10 := by omega
  simp [digitsFixed, h1, h2]

/-- The value of two digit characters. -/
theorem digitsValue_two {a b : Nat} (ha : a < 10) (hb : b < 10) :
    digitsValue [Nat.digitChar a, Nat.digitChar b] 0 = some (10 * a + b) := by
  simp [digitsValue, digitChar_isDigit ha, digitChar_isDigit hb, digitChar_toNat_sub ha,
    digitChar_toNat_sub hb]

/-- The helper `parseUint` reads back two digits. -/
theorem parseUint_two {n lo hi : Nat} (hn : n < 100) (hlo : lo ≤ n) (hhi : n ≤ hi) :
    parseUint [Nat.digitChar (n / 10), Nat.digitChar (n % 10)] lo hi = some n := by
  have h : 10 * (n / 10) + n % 10 = n := by omega
  have hr : ¬(n < lo ∨ hi < n) := by omega
  simp [parseUint, digitsValue_two (show n / 10 < 10 by omega) (show n % 10 < 10 by omega),
    h, hr]

/-- The helper `parseUint` reads back four digits. -/
theorem parseUint_four {n : Nat} (hn : n < 10000) :
    parseUint [Nat.digitChar (n / 1000), Nat.digitChar (n / 100 % 10),
      Nat.digitChar (n / 10 % 10), Nat.digitChar (n % 10)] 0 9999 = some n := by
  have h1 : n / 1000 < 10 := by omega
  have h2 : n / 100 % 10 < 10 := by omega
  have h3 : n / 10 % 10 < 10 := by omega
  have h4 : n % 10 < 10 := by omega
  have h : 10 * (10 * (10 * (n / 1000) + n / 100 % 10) + n / 10 % 10) + n % 10 = n := by
    omega
  have hr : ¬(9999 < n) := by omega
  simp [parseUint, digitsValue, digitChar_isDigit h1, digitChar_isDigit h2,
    digitChar_isDigit h3, digitChar_isDigit h4, digitChar_toNat_sub h1,
    digitChar_toNat_sub h2, digitChar_toNat_sub h3, digitChar_toNat_sub h4, h, hr]

/-- The function `getnum` reads back two digits. -/
theorem getnum_two {n : Nat} (hn : n < 100) (rest : List Char) (fixed : Bool) :
    getnum (Nat.digitChar (n / 10) :: Nat.digitChar (n % 10) :: rest) fixed =
      some (n, rest) := by
  have h1 : n / 10 < 10 := by omega
  have h2 : n % 10 < 10 := by omega
  have h : n / 10 * 10 + n % 10 = n := by omega
  simp [getnum, digitChar_isDigit h1, digitChar_isDigit h2, digitChar_toNat_sub h1,
    digitChar_toNat_sub h2, h]

/-- The nineteen characters of a date and a clock. -/
theorem dateTimeText_eq (y mo d h mi s : Nat) (sep : Char) (hy : y ≤ 9999)
    (hmo : mo < 100) (hd : d < 100) (hh : h < 100) (hmi : mi < 100) (hs : s < 100) :
    dateTimeText y mo d h mi s sep =
      [Nat.digitChar (y / 1000), Nat.digitChar (y / 100 % 10), Nat.digitChar (y / 10 % 10),
       Nat.digitChar (y % 10), '-', Nat.digitChar (mo / 10), Nat.digitChar (mo % 10), '-',
       Nat.digitChar (d / 10), Nat.digitChar (d % 10), sep,
       Nat.digitChar (h / 10), Nat.digitChar (h % 10), ':',
       Nat.digitChar (mi / 10), Nat.digitChar (mi % 10), ':',
       Nat.digitChar (s / 10), Nat.digitChar (s % 10)] := by
  simp [dateTimeText, appendInt_four (show y < 10000 by omega), appendInt_two hmo,
    appendInt_two hd, appendInt_two hh, appendInt_two hmi, appendInt_two hs]

/-- The bound of `daysIn`. -/
theorem daysIn_le (month : Nat) (year : Int) : daysIn month year ≤ 31 := by
  unfold daysIn
  split
  · split <;> omega
  · split <;> omega

/-- The fast path reads a date and a clock written with `T`; what follows decides the
fractional second and the zone. -/
theorem parseRFC3339_dateTimeText (y mo d h mi s : Nat) (tail : List Char) (hy : y ≤ 9999)
    (hmo1 : 1 ≤ mo) (hmo : mo ≤ 12) (hd1 : 1 ≤ d) (hd : d ≤ daysIn mo y) (hh : h < 24)
    (hmi : mi < 60) (hs : s < 60) :
    parseRFC3339 (dateTimeText y mo d h mi s 'T' ++ tail) =
      (parseZoneRFC3339 (optionalFraction false tail).2).map (fun offset =>
        { year := y, month := mo, day := d, hour := h, minute := mi, second := s,
          nanosecond := (optionalFraction false tail).1.getD 0, offset := offset }) := by
  have hd31 := daysIn_le mo y
  rw [dateTimeText_eq y mo d h mi s 'T' hy (by omega) (by omega) (by omega) (by omega)
    (by omega)]
  simp only [List.cons_append, List.nil_append, parseRFC3339]
  rw [parseUint_four (show y < 10000 by omega), parseUint_two (by omega) hmo1 hmo]
  simp only
  rw [parseUint_two (by omega) hd1 hd, parseUint_two (by omega) (Nat.zero_le _) (by omega),
    parseUint_two (by omega) (Nat.zero_le _) (by omega),
    parseUint_two (by omega) (Nat.zero_le _) (by omega)]
  simp only [and_self, if_true]
  cases parseZoneRFC3339 (optionalFraction false tail).2 <;> rfl

/-- A digit character is not a space. -/
theorem digitChar_ne_space {d : Nat} (h : d < 10) : Nat.digitChar d ≠ ' ' := by
  interval_cases d <;> decide

/-- The loop of `time.Parse` over two runs of elements. -/
theorem parseChunks_append (l₁ l₂ : List Chunk) : ∀ (p : Parsed) (value : List Char),
    parseChunks (l₁ ++ l₂) p value =
      match parseChunks l₁ p value with
      | some (p', value') => parseChunks l₂ p' value'
      | none => none := by
  induction l₁ with
  | nil => intro p value; rfl
  | cons c l₁ ih =>
    intro p value
    simp only [List.cons_append, parseChunks]
    cases hc : parseChunk c p value with
    | none => rfl
    | some r => exact ih r.1 r.2

/-- A literal character of a layout that is not a space matches itself. -/
theorem parseChunk_literal (c : Char) (hc : c ≠ ' ') (p : Parsed) (rest : List Char) :
    parseChunk (.literal [c]) p (c :: rest) = some (p, rest) := by
  simp [parseChunk, skip, hc]

/-- A space of a layout matches a space followed by a digit. -/
theorem parseChunk_space (p : Parsed) {d : Nat} (hd : d < 10) (rest : List Char) :
    parseChunk (.literal [' ']) p (' ' :: Nat.digitChar d :: rest) =
      some (p, Nat.digitChar d :: rest) := by
  simp [parseChunk, skip, List.dropWhile, digitChar_ne_space hd]

/-- The element `2006` reads back four digits. -/
theorem parseChunk_longYear (p : Parsed) {y : Nat} (hy : y ≤ 9999) (rest : List Char) :
    parseChunk .longYear p
        (Nat.digitChar (y / 1000) :: Nat.digitChar (y / 100 % 10) ::
          Nat.digitChar (y / 10 % 10) :: Nat.digitChar (y % 10) :: rest) =
      some ({ p with year := y }, rest) := by
  have h1 : y / 1000 < 10 := by omega
  have h2 : y / 100 % 10 < 10 := by omega
  have h3 : y / 10 % 10 < 10 := by omega
  have h4 : y % 10 < 10 := by omega
  have hyv : 10 * (10 * (10 * (y / 1000) + y / 100 % 10) + y / 10 % 10) + y % 10 = y := by
    omega
  simp [parseChunk, digitsValue, digitChar_isDigit h1, digitChar_isDigit h2,
    digitChar_isDigit h3, digitChar_isDigit h4, digitChar_toNat_sub h1,
    digitChar_toNat_sub h2, digitChar_toNat_sub h3, digitChar_toNat_sub h4, hyv]

/-- The element `01` reads back a month. -/
theorem parseChunk_zeroMonth (p : Parsed) {mo : Nat} (h1 : 1 ≤ mo) (h : mo ≤ 12)
    (rest : List Char) :
    parseChunk .zeroMonth p (Nat.digitChar (mo / 10) :: Nat.digitChar (mo % 10) :: rest) =
      some ({ p with month := mo }, rest) := by
  have hmr : ¬(mo = 0 ∨ 12 < mo) := by omega
  simp [parseChunk, getnum_two (show mo < 100 by omega), hmr]

/-- The element `02` reads back two digits. -/
theorem parseChunk_zeroDay (p : Parsed) {d : Nat} (h : d < 100) (rest : List Char) :
    parseChunk .zeroDay p (Nat.digitChar (d / 10) :: Nat.digitChar (d % 10) :: rest) =
      some ({ p with day := d }, rest) := by
  simp [parseChunk, getnum_two h]

/-- The element `15` reads back an hour written with two digits. -/
theorem parseChunk_hour (p : Parsed) {h : Nat} (hh : h < 24) (rest : List Char) :
    parseChunk .hour p (Nat.digitChar (h / 10) :: Nat.digitChar (h % 10) :: rest) =
      some ({ p with hour := h }, rest) := by
  simp [parseChunk, getnum_two (show h < 100 by omega), show ¬(24 ≤ h) by omega]

/-- The element `04` reads back a minute. -/
theorem parseChunk_zeroMinute (p : Parsed) {m : Nat} (hm : m < 60) (rest : List Char) :
    parseChunk .zeroMinute p (Nat.digitChar (m / 10) :: Nat.digitChar (m % 10) :: rest) =
      some ({ p with minute := m }, rest) := by
  simp [parseChunk, getnum_two (show m < 100 by omega), show ¬(60 ≤ m) by omega]

/-- The element `05` reads back a second and the fractional second that may follow. -/
theorem parseChunk_zeroSecond (p : Parsed) {s : Nat} (hs : s < 60) (rest : List Char) :
    parseChunk .zeroSecond p (Nat.digitChar (s / 10) :: Nat.digitChar (s % 10) :: rest) =
      some ({ p with second := s,
                     nanosecond := (optionalFraction true rest).1.getD p.nanosecond },
            (optionalFraction true rest).2) := by
  simp [parseChunk, getnum_two (show s < 100 by omega), show ¬(60 ≤ s) by omega]

/-- The function `time.Parse` reads a date and a clock written with the separator of the
layout, `T` or a space; what follows decides the fractional second. -/
theorem parseChunks_dateTimeText (y mo d h mi s : Nat) (sep : Char) (tail : List Char)
    (hsep : sep = 'T' ∨ sep = ' ') (hy : y ≤ 9999) (hmo1 : 1 ≤ mo) (hmo : mo ≤ 12)
    (hd : d < 100) (hh : h < 24) (hmi : mi < 60) (hs : s < 60) :
    parseChunks (dateTimeChunks sep) Parsed.initial (dateTimeText y mo d h mi s sep ++ tail) =
      some ({ year := y, month := mo, day := d, hour := h, minute := mi, second := s,
              nanosecond := (optionalFraction true tail).1.getD 0, offset := 0 },
            (optionalFraction true tail).2) := by
  rw [dateTimeText_eq y mo d h mi s sep hy (by omega) hd (by omega) (by omega) (by omega)]
  have hsepc : ∀ (p : Parsed) (rest : List Char),
      parseChunk (.literal [sep]) p (sep :: Nat.digitChar (h / 10) :: rest) =
        some (p, Nat.digitChar (h / 10) :: rest) := by
    intro p rest
    rcases hsep with rfl | rfl
    · exact parseChunk_literal 'T' (by decide) p _
    · exact parseChunk_space p (by omega) rest
  simp only [dateTimeChunks, parseChunks, List.cons_append, List.nil_append,
    parseChunk_longYear _ hy, parseChunk_literal '-' (by decide),
    parseChunk_zeroMonth _ hmo1 hmo, parseChunk_zeroDay _ hd, hsepc, parseChunk_hour _ hh,
    parseChunk_literal ':' (by decide), parseChunk_zeroMinute _ hmi,
    parseChunk_zeroSecond _ hs]
  rfl

/-- The function `time.Parse` rejects a date and a clock written with another separator
than the `T` of the layout. -/
theorem parseChunks_separator_mismatch (y mo d h mi s : Nat) (tail : List Char)
    (more : List Chunk) (hy : y ≤ 9999) (hmo1 : 1 ≤ mo) (hmo : mo ≤ 12) (hd : d < 100)
    (hh : h < 100) (hmi : mi < 100) (hs : s < 100) :
    parseChunks (dateTimeChunks 'T' ++ more) Parsed.initial
        (dateTimeText y mo d h mi s ' ' ++ tail) = none ∧
    parseChunks (dateTimeChunks ' ' ++ more) Parsed.initial
        (dateTimeText y mo d h mi s 'T' ++ tail) = none := by
  rw [dateTimeText_eq y mo d h mi s ' ' hy (by omega) hd hh hmi hs,
    dateTimeText_eq y mo d h mi s 'T' hy (by omega) hd hh hmi hs]
  constructor
  · simp only [dateTimeChunks, parseChunks, List.cons_append, List.nil_append,
      parseChunk_longYear _ hy, parseChunk_literal '-' (by decide),
      parseChunk_zeroMonth _ hmo1 hmo, parseChunk_zeroDay _ hd]
    simp [parseChunk, skip]
  · simp only [dateTimeChunks, parseChunks, List.cons_append, List.nil_append,
      parseChunk_longYear _ hy, parseChunk_literal '-' (by decide),
      parseChunk_zeroMonth _ hmo1 hmo, parseChunk_zeroDay _ hd]
    simp [parseChunk, skip]

/-- The fast path rejects a date and a clock separated by a space. -/
theorem parseRFC3339_space (y mo d h mi s : Nat) (tail : List Char) (hy : y ≤ 9999)
    (hmo : mo < 100) (hd : d < 100) (hh : h < 100) (hmi : mi < 100) (hs : s < 100) :
    parseRFC3339 (dateTimeText y mo d h mi s ' ' ++ tail) = none := by
  rw [dateTimeText_eq y mo d h mi s ' ' hy hmo hd hh hmi hs]
  simp only [List.cons_append, List.nil_append, parseRFC3339]
  split
  · split
    · simp
    · rfl
  · rfl

/-- The digits in front of a character that is not a digit. -/
theorem takeWhile_digits (frac tail : List Char) (hfrac : ∀ c ∈ frac, c.isDigit = true)
    (htail : ∀ c ∈ tail.head?, c.isDigit = false) :
    (frac ++ tail).takeWhile Char.isDigit = frac ∧
    (frac ++ tail).dropWhile Char.isDigit = tail := by
  induction frac with
  | nil =>
    cases tail with
    | nil => simp
    | cons c tail =>
      have hc : c.isDigit = false := htail c (by simp)
      simp [List.takeWhile, List.dropWhile, hc]
  | cons a frac ih =>
    have ha : a.isDigit = true := hfrac a (List.mem_cons_self _ _)
    obtain ⟨h1, h2⟩ := ih (fun c hc => hfrac c (List.mem_cons_of_mem _ hc))
    simp [List.takeWhile, List.dropWhile, ha, h1, h2]

/-- The function `parseNanoseconds` on the digits of a fractional second followed by a
character that is not a digit. -/
theorem parseFraction_digits (frac tail : List Char) (hfrac : ∀ c ∈ frac, c.isDigit = true)
    (hlen : frac.length ≤ 9) (htail : ∀ c ∈ tail.head?, c.isDigit = false) :
    parseFraction (frac ++ tail) = (fractionNanoseconds frac, tail) := by
  obtain ⟨h1, h2⟩ := takeWhile_digits frac tail hfrac htail
  simp only [parseFraction, h1, h2, fractionNanoseconds, List.take_of_length_le hlen]

/-- A period and digits after the seconds are read as the fractional second. -/
theorem optionalFraction_fraction (allowComma : Bool) (frac tail : List Char)
    (hne : frac ≠ []) (hfrac : ∀ c ∈ frac, c.isDigit = true) (hlen : frac.length ≤ 9)
    (htail : ∀ c ∈ tail.head?, c.isDigit = false) :
    optionalFraction allowComma (fractionText frac ++ tail) =
      (some (fractionNanoseconds frac), tail) := by
  cases frac with
  | nil => exact absurd rfl hne
  | cons d frac =>
    have hd : d.isDigit = true := hfrac d (List.mem_cons_self _ _)
    have := parseFraction_digits (d :: frac) tail hfrac hlen htail
    simp only [List.cons_append] at this
    simp [fractionText, optionalFraction, hd, this]

/-- Without a period or a comma after the seconds there is no fractional second. -/
theorem optionalFraction_none (allowComma : Bool) (tail : List Char)
    (htail : ∀ c ∈ tail.head?, c ≠ '.' ∧ c ≠ ',') :
    optionalFraction allowComma tail = (none, tail) := by
  unfold optionalFraction
  split
  · rename_i sep d rest
    have := htail sep (by simp)
    simp [this.1, this.2]
  · rfl

/-- The characters of fixed digits are digits. -/
theorem digitsFixed_isDigit (w : Nat) : ∀ (n : Nat) (c : Char),
    c ∈ digitsFixed w n → c.isDigit = true := by
  induction w with
  | zero => intro n c h; simp [digitsFixed] at h
  | succ w ih =>
    intro n c h
    simp only [digitsFixed, List.mem_append, List.mem_singleton] at h
    rcases h with h | h
    · exact ih _ _ h
    · rw [h]; exact digitChar_isDigit (by omega)

/-- The length of fixed digits. -/
theorem digitsFixed_length (w : Nat) : ∀ n : Nat, (digitsFixed w n).length = w := by
  induction w with
  | zero => intro n; rfl
  | succ w ih => intro n; simp [digitsFixed, ih]

/-- The number that fixed digits write. -/
theorem foldl_digitsFixed (w : Nat) : ∀ n : Nat,
    (digitsFixed w n).foldl (fun n c => 10 * n + (c.toNat - 48)) 0 = n % 10 ^ w := by
  induction w with
  | zero => intro n; simp [digitsFixed, Nat.mod_one]
  | succ w ih =>
    intro n
    simp only [digitsFixed, List.foldl_append, List.foldl_cons, List.foldl_nil, ih,
      digitChar_toNat_sub (show n % 10 < 10 by omega)]
    rw [pow_succ, Nat.mul_comm (10 ^ w) 10, Nat.mod_mul]
    omega

/-- Trimming a zero at the end. -/
theorem trimZeros_append_zero (l : List Char) : trimZeros (l ++ ['0']) = trimZeros l := by
  simp [trimZeros, List.dropWhile]

/-- Nothing is trimmed after a digit that is not zero. -/
theorem trimZeros_append_ne (l : List Char) (c : Char) (hc : c ≠ '0') :
    trimZeros (l ++ [c]) = l ++ [c] := by
  simp [trimZeros, List.dropWhile, hc]

/-- The digit character of a digit that is not zero is not the character zero. -/
theorem digitChar_ne_zero {d : Nat} (h : d < 10) (h0 : d ≠ 0) : Nat.digitChar d ≠ '0' := by
  interval_cases d <;> first | exact absurd rfl h0 | decide

/-- The digits left of a number that is not zero, once the zeros at the end are trimmed:
the digits of the number without its factors of ten. -/
theorem trimZeros_digitsFixed (w : Nat) : ∀ n : Nat, n ≠ 0 → n < 10 ^ w →
    ∃ k m, 1 ≤ k ∧ k ≤ w ∧ trimZeros (digitsFixed w n) = digitsFixed k m ∧
      m * 10 ^ (w - k) = n ∧ m < 10 ^ k ∧ m % 10 ≠ 0 := by
  induction w with
  | zero => intro n h0 h; simp at h; exact absurd h h0
  | succ w ih =>
    intro n h0 h
    by_cases hz : n % 10 = 0
    · have hq0 : n / 10 ≠ 0 := by omega
      have hq : n / 10 < 10 ^ w := by
        rw [Nat.div_lt_iff_lt_mul (by norm_num)]
        calc n < 10 ^ (w + 1) := h
          _ = 10 ^ w * 10 := by ring
      obtain ⟨k, m, hk1, hk, htrim, hm, hmk, hm10⟩ := ih (n / 10) hq0 hq
      refine ⟨k, m, hk1, by omega, ?_, ?_, hmk, hm10⟩
      · simp only [digitsFixed, hz]
        rw [show [Nat.digitChar 0] = ['0'] from rfl, trimZeros_append_zero, htrim]
      · have : w + 1 - k = (w - k) + 1 := by omega
        rw [this, pow_succ, ← Nat.mul_assoc, hm]
        omega
    · refine ⟨w + 1, n, by omega, le_refl _, ?_, by simp, h, hz⟩
      simp only [digitsFixed]
      exact trimZeros_append_ne _ _ (digitChar_ne_zero (by omega) hz)

/-- The text the encoder writes for the nanoseconds is the text of a fractional second of
nine digits at most, which denotes these nanoseconds. -/
theorem appendNano_eq (n : Nat) (h : n < 1000000000) :
    ∃ frac, appendNano n = fractionText frac ∧ (∀ c ∈ frac, c.isDigit = true) ∧
      frac.length ≤ 9 ∧ (n = 0 → frac = []) ∧
      (n ≠ 0 → frac ≠ [] ∧ fractionNanoseconds frac = n) := by
  by_cases h0 : n = 0
  · exact ⟨[], by simp [appendNano, h0, fractionText], by simp, by simp, fun _ => rfl,
      fun hn => absurd h0 hn⟩
  · obtain ⟨k, m, hk1, hk, htrim, hm, hmk, -⟩ := trimZeros_digitsFixed 9 n h0 (by norm_num; exact h)
    have hlen : (digitsFixed k m).length = k := digitsFixed_length k m
    have hne : digitsFixed k m ≠ [] := by
      intro hnil
      rw [hnil] at hlen
      simp at hlen
      omega
    refine ⟨digitsFixed k m, ?_, digitsFixed_isDigit k m, by omega, fun hn => absurd hn h0,
      fun _ => ⟨hne, ?_⟩⟩
    · simp only [appendNano, h0, if_false, fractionText, hne]
      rw [appendInt_eq_digitsFixed (by norm_num) (by norm_num; exact h), htrim]
    · simp only [fractionNanoseconds, foldl_digitsFixed, hlen, Nat.mod_eq_of_lt hmk]
      exact hm

/-- The zone the encoder writes for an offset of whole minutes: `Z` for zero, otherwise the
sign, the hours and the minutes. -/
theorem appendZone_eq (offset : Int) (h60 : offset % 60 = 0) :
    appendZone offset =
      if offset = 0 then ['Z']
      else offsetText (decide (offset < 0)) (offset.natAbs / 60 / 60)
        (offset.natAbs / 60 % 60) := by
  unfold appendZone offsetText
  by_cases h0 : offset = 0
  · simp [h0]
  · simp only [h0, if_false]
    by_cases hneg : offset < 0
    · have : offset ≤ -60 := by omega
      simp [hneg, this]
    · have : ¬ offset ≤ -60 := by omega
      simp [hneg, this]

/-- The offset that the sign, the hours and the minutes of a whole-minute offset denote. -/
theorem offsetSeconds_natAbs (offset : Int) (h60 : offset % 60 = 0) :
    offsetSeconds (decide (offset < 0)) (offset.natAbs / 60 / 60) (offset.natAbs / 60 % 60) =
      offset := by
  unfold offsetSeconds
  by_cases hneg : offset < 0
  · simp only [hneg, decide_True, if_true]
    omega
  · simp only [hneg, decide_False, Bool.false_eq_true, if_false]
    omega

/-- The six characters of a numeric offset. -/
theorem offsetText_eq (negative : Bool) {hh mm : Nat} (hhh : hh < 100) (hmm : mm < 100) :
    offsetText negative hh mm =
      [if negative then '-' else '+', Nat.digitChar (hh / 10), Nat.digitChar (hh % 10), ':',
       Nat.digitChar (mm / 10), Nat.digitChar (mm % 10)] := by
  simp [offsetText, appendInt_two hhh, appendInt_two hmm]

/-- The fast path reads back a numeric offset with an hour up to 23 and a minute up to
59. -/
theorem parseZoneRFC3339_offsetText (negative : Bool) {hh mm : Nat} (hhh : hh ≤ 23)
    (hmm : mm ≤ 59) :
    parseZoneRFC3339 (offsetText negative hh mm) = some (offsetSeconds negative hh mm) := by
  rw [offsetText_eq negative (by omega) (by omega)]
  cases negative <;>
    simp [parseZoneRFC3339, parseUint_two (show hh < 100 by omega) (Nat.zero_le _) hhh,
      parseUint_two (show mm < 100 by omega) (Nat.zero_le _) hmm, offsetSeconds]

/-- The function `time.Parse` reads back a numeric offset with an hour up to 24 and a
minute up to 60, with or without `Z` allowed. -/
theorem parseZone_offsetText (allowZ negative : Bool) {hh mm : Nat} (hhh : hh ≤ 24)
    (hmm : mm ≤ 60) (rest : List Char) :
    parseZone allowZ (offsetText negative hh mm ++ rest) =
      some (offsetSeconds negative hh mm, rest) := by
  rw [offsetText_eq negative (by omega) (by omega)]
  have hr : ¬(hh > 24 ∨ mm > 60) := by omega
  cases negative <;>
    simp [parseZone, getnum_two (show hh < 100 by omega), getnum_two (show mm < 100 by omega),
      hr, offsetSeconds]

/-- The first character of a numeric offset is a sign. -/
theorem offsetText_head (negative : Bool) (hh mm : Nat) (rest : List Char) :
    ∀ c ∈ (offsetText negative hh mm ++ rest).head?,
      c.isDigit = false ∧ c ≠ '.' ∧ c ≠ ',' := by
  intro c hc
  cases negative <;> simp [offsetText] at hc <;> subst hc <;> decide

/-- The zone of an encoded time is neither a digit, nor a period, nor a comma, and the fast
path reads back its offset, when that is of whole minutes and below 24 hours. -/
theorem appendZone_parse (offset : Int) (h60 : offset % 60 = 0)
    (h24 : offset.natAbs / 60 / 60 < 24) :
    (∀ c ∈ (appendZone offset).head?, c.isDigit = false ∧ c ≠ '.' ∧ c ≠ ',') ∧
    parseZoneRFC3339 (appendZone offset) = some offset := by
  rw [appendZone_eq offset h60]
  by_cases h0 : offset = 0
  · simp only [h0, if_true]
    refine ⟨fun c hc => ?_, rfl⟩
    simp at hc
    subst hc
    decide
  · simp only [h0, if_false]
    refine ⟨?_, ?_⟩
    · have := offsetText_head (decide (offset < 0)) (offset.natAbs / 60 / 60)
        (offset.natAbs / 60 % 60) []
      simpa using this
    · rw [parseZoneRFC3339_offsetText _ (by omega) (by omega), offsetSeconds_natAbs offset h60]

/-- The encoded text of a time whose year is not negative begins with its date and clock. -/
theorem appendFormatRFC3339_eq (t : GoTime) (hy : 0 ≤ t.year) :
    appendFormatRFC3339 t =
      dateTimeText t.year.toNat t.month t.day t.hour t.minute t.second 'T' ++
        (appendNano t.nanosecond ++ appendZone t.offset) := by
  simp [appendFormatRFC3339, dateTimeText, Int.toNat_of_nonneg hy]

/-- The fast path reads back the encoded text of a time. -/
theorem parseRFC3339_appendFormat (t : GoTime) (hv : t.Valid) (hy0 : 0 ≤ t.year)
    (hy : t.year ≤ 9999) (h60 : t.offset % 60 = 0) (h24 : t.offset.natAbs / 60 / 60 < 24) :
    parseRFC3339 (appendFormatRFC3339 t) = some t := by
  obtain ⟨hmo1, hmo, hd1, hd, hh, hmi, hs, hn⟩ := hv
  obtain ⟨hzh, hzp⟩ := appendZone_parse t.offset h60 h24
  obtain ⟨frac, hfe, hfd, hfl, hf0, hfn⟩ := appendNano_eq t.nanosecond hn
  have hyn : ((t.year.toNat : Nat) : Int) = t.year := Int.toNat_of_nonneg hy0
  rw [appendFormatRFC3339_eq t hy0,
    parseRFC3339_dateTimeText t.year.toNat t.month t.day t.hour t.minute t.second _
      (by omega) hmo1 hmo hd1 (by rw [hyn]; exact hd) hh hmi hs]
  have hopt : optionalFraction false (appendNano t.nanosecond ++ appendZone t.offset) =
      (if t.nanosecond = 0 then none else some t.nanosecond, appendZone t.offset) := by
    by_cases h0 : t.nanosecond = 0
    · have hnil : appendNano t.nanosecond = [] := by simp [appendNano, h0]
      rw [hnil, List.nil_append, optionalFraction_none false _
        (fun c hc => ⟨(hzh c hc).2.1, (hzh c hc).2.2⟩)]
      simp [h0]
    · obtain ⟨hne, hval⟩ := hfn h0
      rw [hfe, optionalFraction_fraction false frac _ hne hfd hfl
        (fun c hc => (hzh c hc).1), hval]
      simp [h0]
  rw [hopt]
  simp only [hzp, Option.map_some']
  have hnano : (if t.nanosecond = 0 then none else some t.nanosecond).getD 0 =
      t.nanosecond := by
    by_cases h0 : t.nanosecond = 0 <;> simp [h0]
  rw [hnano, hyn]

/-! ## `Time.UnmarshalJSON` on a quoted text -/

/-- The last element of a list that ends with `b`. -/
theorem getLast?_cons_concat {α : Type} (a b : α) (l : List α) :
    (a :: (l ++ [b])).getLast? = some b := by
  induction l generalizing a with
  | nil => rfl
  | cons c l ih =>
    rw [List.cons_append, List.getLast?_cons_cons]
    exact ih c

/-- The characters of a quoted text. -/
theorem quoted_data (text : List Char) : (quoted text).data = '"' :: (text ++ ['"']) := rfl

/-- The method `UnmarshalJSON` of `time.go` on a text between quotes: the four parsers in
order, the first given the quoted text and the others the text. -/
theorem UnmarshalJSON_quoted {θ : Type} (lib : TimeLib θ) (t : θ) (text : List Char) :
    Time.UnmarshalJSON lib t (quoted text) =
      match lib.UnmarshalJSON (quoted text) with
      | some tm => .returned tm none
      | none =>
        match lib.Parse "2006-01-02 15:04:05Z07:00" ⟨text⟩ with
        | some tm => .returned tm none
        | none =>
          match lib.Parse "2006-01-02T15:04:05" ⟨text⟩ with
          | some tm => .returned tm none
          | none =>
            match lib.Parse "2006-01-02T15:04:05-07:00" ⟨text⟩ with
            | some tm => .returned tm none
            | none => .returned t (some (.text "invalid time format")) := by
  unfold Time.UnmarshalJSON
  simp only [quoted_data]
  have hl : (('"' : Char) :: (text ++ ['"'])).getLast? = some '"' :=
    getLast?_cons_concat _ _ _
  have h1 : ¬(('"' : Char) ≠ '"' ∨ (('"' : Char) :: (text ++ ['"'])).getLast? ≠ some '"') := by
    simp [hl]
  have h2 : text ++ ['"'] ≠ [] := by simp
  simp only [h1, h2, if_false, List.dropLast_concat]

/-- The method `time.Time.UnmarshalJSON` on a text between quotes is `parseStrictRFC3339`
on the text. -/
theorem timeUnmarshalJSON_quoted (text : List Char) :
    timeUnmarshalJSON (quoted text) = parseStrictRFC3339 ⟨text⟩ := by
  unfold timeUnmarshalJSON
  have hnull : quoted text ≠ "null" := by
    intro h
    have := congrArg String.data h
    rw [quoted_data] at this
    simp at this
  simp only [hnull, if_false, quoted_data]
  have hl : (text ++ ['"']).getLast? = some '"' := by simp
  simp [hl]

/-- The elements of the layout `RFC3339`. -/
theorem timeParse_RFC3339 (s : String) :
    timeParse "2006-01-02T15:04:05Z07:00" s =
      parseLayout (dateTimeChunks 'T' ++ [.iso8601ColonTZ]) s := rfl

/-- The elements of the layout with a space. -/
theorem timeParse_space (s : String) :
    timeParse "2006-01-02 15:04:05Z07:00" s =
      parseLayout (dateTimeChunks ' ' ++ [.iso8601ColonTZ]) s := rfl

/-- The elements of the layout without zone. -/
theorem timeParse_bare (s : String) :
    timeParse "2006-01-02T15:04:05" s = parseLayout (dateTimeChunks 'T') s := rfl

/-- The elements of the layout with a numeric zone. -/
theorem timeParse_numeric (s : String) :
    timeParse "2006-01-02T15:04:05-07:00" s =
      parseLayout (dateTimeChunks 'T' ++ [.numColonTZ]) s := rfl

/-- The first character of a zone is neither a digit, nor a period, nor a comma. -/
theorem ZoneText.text_head (z : ZoneText) :
    ∀ c ∈ z.text.head?, c.isDigit = false ∧ c ≠ '.' ∧ c ≠ ',' := by
  cases z with
  | utc => intro c hc; simp [ZoneText.text] at hc; subst hc; decide
  | numeric negative hours minutes =>
    have := offsetText_head negative hours minutes []
    simpa [ZoneText.text] using this

/-- The fast path reads back a zone in range. -/
theorem parseZoneRFC3339_zoneText (z : ZoneText) (hz : z.InRange) :
    parseZoneRFC3339 z.text = some z.seconds := by
  cases z with
  | utc => rfl
  | numeric negative hours minutes =>
    exact parseZoneRFC3339_offsetText negative hz.1 hz.2

/-- The function `time.Parse` reads back a zone in range for the element `Z07:00`. -/
theorem parseZone_zoneText (z : ZoneText) (hz : z.InRange) :
    parseZone true z.text = some (z.seconds, []) := by
  cases z with
  | utc => rfl
  | numeric negative hours minutes =>
    have := parseZone_offsetText true negative (show hours ≤ 24 by have := hz.1; omega)
      (show minutes ≤ 60 by have := hz.2; omega) []
    simpa [ZoneText.text, ZoneText.seconds] using this

/-- The fractional second read after the seconds, when the text of a fractional second of
nine digits at most, possibly none, is followed by something that is not a digit, a period
or a comma. -/
theorem optionalFraction_fractionText (allowComma : Bool) (frac tail : List Char)
    (hfrac : ∀ c ∈ frac, c.isDigit = true) (hlen : frac.length ≤ 9)
    (htail : ∀ c ∈ tail.head?, c.isDigit = false ∧ c ≠ '.' ∧ c ≠ ',') :
    (optionalFraction allowComma (fractionText frac ++ tail)).1.getD 0 =
      fractionNanoseconds frac ∧
    (optionalFraction allowComma (fractionText frac ++ tail)).2 = tail := by
  by_cases hne : frac = []
  · subst hne
    rw [show fractionText [] = [] from rfl, List.nil_append,
      optionalFraction_none allowComma tail (fun c hc => (htail c hc).2)]
    simp [fractionNanoseconds]
  · rw [optionalFraction_fraction allowComma frac tail hne hfrac hlen
      (fun c hc => (htail c hc).1)]
    exact ⟨rfl, rfl⟩

/-- The method `UnmarshalJSON` of the package `time` on `GoTime`. -/
theorem goTime_UnmarshalJSON (data : String) :
    goTime.UnmarshalJSON data = timeUnmarshalJSON data := rfl

/-- The function `Parse` of the package `time` on `GoTime`. -/
theorem goTime_Parse (layout value : String) :
    goTime.Parse layout value = timeParse layout value := rfl

/-- The first parser accepts a date-time written with `T`, a fractional second or none, and
a zone: that is the time `UnmarshalJSON` leaves in the receiver. -/
theorem UnmarshalJSON_T_zone (t0 : GoTime) (c : DateTime) (frac : List Char) (z : ZoneText)
    (hc : c.Valid) (hfrac : ∀ x ∈ frac, x.isDigit = true) (hlen : frac.length ≤ 9)
    (hz : z.InRange) :
    Time.UnmarshalJSON goTime t0 (quoted (c.text 'T' ++ (fractionText frac ++ z.text))) =
      .returned (c.at (fractionNanoseconds frac) z.seconds) none := by
  obtain ⟨hy, hmo1, hmo, hd1, hd, hh, hmi, hs⟩ := hc
  obtain ⟨hf1, hf2⟩ := optionalFraction_fractionText false frac z.text hfrac hlen z.text_head
  have hp : parseRFC3339 (c.text 'T' ++ (fractionText frac ++ z.text)) =
      some (c.at (fractionNanoseconds frac) z.seconds) := by
    unfold DateTime.text
    rw [parseRFC3339_dateTimeText c.year c.month c.day c.hour c.minute c.second _ hy hmo1 hmo
      hd1 hd hh hmi hs, hf1, hf2, parseZoneRFC3339_zoneText z hz]
    rfl
  rw [UnmarshalJSON_quoted]
  have hu : goTime.UnmarshalJSON (quoted (c.text 'T' ++ (fractionText frac ++ z.text))) =
      some (c.at (fractionNanoseconds frac) z.seconds) := by
    rw [goTime_UnmarshalJSON]
    rw [timeUnmarshalJSON_quoted]
    simp only [parseStrictRFC3339, hp]
  rw [hu]

/-- The first parser rejects a date-time written with a space. -/
theorem timeUnmarshalJSON_space (c : DateTime) (tail : List Char) (hc : c.Valid) :
    goTime.UnmarshalJSON (quoted (c.text ' ' ++ tail)) = none := by
  obtain ⟨hy, hmo1, hmo, hd1, hd, hh, hmi, hs⟩ := hc
  have hd31 := daysIn_le c.month c.year
  rw [goTime_UnmarshalJSON]
  rw [timeUnmarshalJSON_quoted]
  unfold DateTime.text
  simp only [parseStrictRFC3339,
    parseRFC3339_space c.year c.month c.day c.hour c.minute c.second tail hy (by omega)
      (by omega) (by omega) (by omega) (by omega),
    timeParse_RFC3339, parseLayout,
    (parseChunks_separator_mismatch c.year c.month c.day c.hour c.minute c.second tail
      [.iso8601ColonTZ] hy hmo1 hmo (by omega) (by omega) (by omega) (by omega)).1]

/-- The layout with a space accepts a date-time written with a space, a fractional second
or none, and a zone. -/
theorem timeParse_space_zone (c : DateTime) (frac : List Char) (z : ZoneText) (hc : c.Valid)
    (hfrac : ∀ x ∈ frac, x.isDigit = true) (hlen : frac.length ≤ 9) (hz : z.InRange) :
    timeParse "2006-01-02 15:04:05Z07:00" ⟨c.text ' ' ++ (fractionText frac ++ z.text)⟩ =
      some (c.at (fractionNanoseconds frac) z.seconds) := by
  obtain ⟨hy, hmo1, hmo, hd1, hd, hh, hmi, hs⟩ := hc
  have hd31 := daysIn_le c.month c.year
  obtain ⟨hf1, hf2⟩ := optionalFraction_fractionText true frac z.text hfrac hlen z.text_head
  have hday : ¬(c.day < 1 ∨ daysIn c.month c.year < c.day) := by omega
  rw [timeParse_space]
  unfold DateTime.text parseLayout
  rw [parseChunks_append,
    parseChunks_dateTimeText c.year c.month c.day c.hour c.minute c.second ' ' _
      (Or.inr rfl) hy hmo1 hmo (by omega) hh hmi hs, hf1, hf2]
  simp only [parseChunks, parseChunk, parseZone_zoneText z hz, Option.map_some', hday,
    if_false]
  rfl

/-- The layout with a space rejects a date-time that no zone follows. -/
theorem timeParse_space_no_zone (c : DateTime) (frac : List Char) (hc : c.Valid)
    (hfrac : ∀ x ∈ frac, x.isDigit = true) (hlen : frac.length ≤ 9) :
    timeParse "2006-01-02 15:04:05Z07:00" ⟨c.text ' ' ++ fractionText frac⟩ = none := by
  obtain ⟨hy, hmo1, hmo, hd1, hd, hh, hmi, hs⟩ := hc
  have hd31 := daysIn_le c.month c.year
  have := optionalFraction_fractionText true frac [] hfrac hlen (by simp)
  rw [List.append_nil] at this
  rw [timeParse_space]
  unfold DateTime.text parseLayout
  rw [parseChunks_append,
    parseChunks_dateTimeText c.year c.month c.day c.hour c.minute c.second ' ' _
      (Or.inr rfl) hy hmo1 hmo (by omega) hh hmi hs, this.2]
  simp only [parseChunks, parseChunk, parseZone, Option.map_none']

/-- The layouts written with `T` reject a date-time written with a space. -/
theorem timeParse_T_of_space (c : DateTime) (tail : List Char) (hc : c.Valid) :
    timeParse "2006-01-02T15:04:05" ⟨c.text ' ' ++ tail⟩ = none ∧
    timeParse "2006-01-02T15:04:05-07:00" ⟨c.text ' ' ++ tail⟩ = none := by
  obtain ⟨hy, hmo1, hmo, hd1, hd, hh, hmi, hs⟩ := hc
  have hd31 := daysIn_le c.month c.year
  have h1 := (parseChunks_separator_mismatch c.year c.month c.day c.hour c.minute c.second
    tail [] hy hmo1 hmo (by omega) (by omega) (by omega) (by omega)).1
  have h2 := (parseChunks_separator_mismatch c.year c.month c.day c.hour c.minute c.second
    tail [.numColonTZ] hy hmo1 hmo (by omega) (by omega) (by omega) (by omega)).1
  rw [List.append_nil] at h1
  rw [timeParse_bare, timeParse_numeric]
  unfold DateTime.text parseLayout
  simp only [h1, h2, and_self]

/-- No parser of `UnmarshalJSON` but the third accepts a date-time written with `T` that no
zone follows; the third reads it as a time in UTC. -/
theorem UnmarshalJSON_T_bare (t0 : GoTime) (c : DateTime) (frac : List Char) (hc : c.Valid)
    (hfrac : ∀ x ∈ frac, x.isDigit = true) (hlen : frac.length ≤ 9) :
    Time.UnmarshalJSON goTime t0 (quoted (c.text 'T' ++ fractionText frac)) =
      .returned (c.at (fractionNanoseconds frac) 0) none := by
  obtain ⟨hy, hmo1, hmo, hd1, hd, hh, hmi, hs⟩ := hc
  have hd31 := daysIn_le c.month c.year
  have hday : ¬(c.day < 1 ∨ daysIn c.month c.year < c.day) := by omega
  have hfF := optionalFraction_fractionText false frac [] hfrac hlen (by simp)
  have hfT := optionalFraction_fractionText true frac [] hfrac hlen (by simp)
  rw [List.append_nil] at hfF hfT
  have h1 : goTime.UnmarshalJSON (quoted (c.text 'T' ++ fractionText frac)) = none := by
    rw [goTime_UnmarshalJSON]
    rw [timeUnmarshalJSON_quoted]
    unfold DateTime.text
    unfold parseStrictRFC3339
    simp only []
    rw [parseRFC3339_dateTimeText c.year c.month c.day c.hour c.minute c.second _ hy hmo1 hmo
        hd1 hd hh hmi hs, hfF.2, timeParse_RFC3339]
    unfold parseLayout
    simp only []
    rw [parseChunks_append,
      parseChunks_dateTimeText c.year c.month c.day c.hour c.minute c.second 'T' _
        (Or.inl rfl) hy hmo1 hmo (by omega) hh hmi hs, hfT.2]
    simp only [parseZoneRFC3339, Option.map_none', parseChunks, parseChunk, parseZone]
  have h2 : goTime.Parse "2006-01-02 15:04:05Z07:00" ⟨c.text 'T' ++ fractionText frac⟩ =
      none := by
    rw [goTime_Parse]
    rw [timeParse_space]
    unfold DateTime.text parseLayout
    simp only [(parseChunks_separator_mismatch c.year c.month c.day c.hour c.minute c.second
      (fractionText frac) [.iso8601ColonTZ] hy hmo1 hmo (by omega) (by omega) (by omega)
      (by omega)).2]
  have h3 : goTime.Parse "2006-01-02T15:04:05" ⟨c.text 'T' ++ fractionText frac⟩ =
      some (c.at (fractionNanoseconds frac) 0) := by
    rw [goTime_Parse]
    rw [timeParse_bare]
    unfold DateTime.text parseLayout
    have hq := parseChunks_dateTimeText c.year c.month c.day c.hour c.minute c.second 'T'
      (fractionText frac) (Or.inl rfl) hy hmo1 hmo (by omega) hh hmi hs
    rw [hfT.1, hfT.2] at hq
    simp only [hq, hday, if_false]
    rfl
  rw [UnmarshalJSON_quoted, h1, h2, h3]

/-- The second parser accepts a date-time written with a space, a fractional second or
none, and a zone: that is the time `UnmarshalJSON` leaves in the receiver. -/
theorem UnmarshalJSON_space_zone (t0 : GoTime) (c : DateTime) (frac : List Char)
    (z : ZoneText) (hc : c.Valid) (hfrac : ∀ x ∈ frac, x.isDigit = true)
    (hlen : frac.length ≤ 9) (hz : z.InRange) :
    Time.UnmarshalJSON goTime t0 (quoted (c.text ' ' ++ (fractionText frac ++ z.text))) =
      .returned (c.at (fractionNanoseconds frac) z.seconds) none := by
  rw [UnmarshalJSON_quoted, timeUnmarshalJSON_space c _ hc]
  have : goTime.Parse "2006-01-02 15:04:05Z07:00"
      ⟨c.text ' ' ++ (fractionText frac ++ z.text)⟩ =
      some (c.at (fractionNanoseconds frac) z.seconds) := by
    rw [goTime_Parse]
    exact timeParse_space_zone c frac z hc hfrac hlen hz
  rw [this]

/-- All four parsers reject a date-time written with a space that no zone follows:
`UnmarshalJSON` fails and leaves the receiver as it was. -/
theorem UnmarshalJSON_space_bare (t0 : GoTime) (c : DateTime) (frac : List Char)
    (hc : c.Valid) (hfrac : ∀ x ∈ frac, x.isDigit = true) (hlen : frac.length ≤ 9) :
    Time.UnmarshalJSON goTime t0 (quoted (c.text ' ' ++ fractionText frac)) =
      .returned t0 (some (.text "invalid time format")) := by
  rw [UnmarshalJSON_quoted, timeUnmarshalJSON_space c _ hc]
  have h2 : goTime.Parse "2006-01-02 15:04:05Z07:00" ⟨c.text ' ' ++ fractionText frac⟩ =
      none := by
    rw [goTime_Parse]
    exact timeParse_space_no_zone c frac hc hfrac hlen
  have h3 : goTime.Parse "2006-01-02T15:04:05" ⟨c.text ' ' ++ fractionText frac⟩ = none := by
    rw [goTime_Parse]
    exact (timeParse_T_of_space c _ hc).1
  have h4 : goTime.Parse "2006-01-02T15:04:05-07:00" ⟨c.text ' ' ++ fractionText frac⟩ =
      none := by
    rw [goTime_Parse]
    exact (timeParse_T_of_space c _ hc).2
  rw [h2, h3, h4]

/-! ## The codec of `time.go` -/

/-- C11. Round trip of the timestamp codec: for every time `t` of the calendar with a year
in 0..9999 and an offset of whole minutes (with any sub-second part, so in particular one of
whole microseconds), `Time.MarshalJSON` gives an output whenever the hours of the offset are
below 24, and `Time.UnmarshalJSON` applied to an output of `Time.MarshalJSON` on `t` returns
no error and leaves in the receiver the time `t`: the same reading at the same offset. -/
theorem Time_MarshalJSON_UnmarshalJSON_round_trip (t t0 : GoTime) (hv : t.Valid)
    (hy0 : 0 ≤ t.year) (hy : t.year ≤ 9999) (h60 : t.offset % 60 = 0) :
    (t.offset.natAbs / 60 / 60 < 24 → ∃ out, Time.MarshalJSON goTime t = .ok out) ∧
    ∀ out, Time.MarshalJSON goTime t = .ok out →
      Time.UnmarshalJSON goTime t0 out = .returned t none := by
  have hyr : ¬(t.year < 0 ∨ 9999 < t.year) := by omega
  constructor
  · intro h24
    refine ⟨quoted (appendFormatRFC3339 t), ?_⟩
    have hz : ¬(t.offset ≠ 0 ∧ 24 ≤ t.offset.natAbs / 60 / 60) := by omega
    simp only [Time.MarshalJSON, goTime, timeMarshalJSON, hyr, hz, if_false]
    rfl
  · intro out hout
    simp only [Time.MarshalJSON, goTime, timeMarshalJSON, hyr, if_false] at hout
    by_cases hz : t.offset ≠ 0 ∧ 24 ≤ t.offset.natAbs / 60 / 60
    · simp [hz] at hout
    · simp only [hz, if_false] at hout
      have h24 : t.offset.natAbs / 60 / 60 < 24 := by omega
      injection hout with hout
      subst hout
      rw [show (⟨'"' :: appendFormatRFC3339 t ++ ['"']⟩ : String) =
          quoted (appendFormatRFC3339 t) from rfl,
        UnmarshalJSON_quoted, goTime_UnmarshalJSON, timeUnmarshalJSON_quoted]
      simp only [parseStrictRFC3339, parseRFC3339_appendFormat t hv hy0 hy h60 h24]

/-- The time of the tests is encoded and decoded back. -/
theorem Time_MarshalJSON_UnmarshalJSON_round_trip_witness :
    Time.MarshalJSON goTime dateTime = .ok "\"2021-01-02T03:04:05.000001-05:00\"" ∧
    Time.UnmarshalJSON goTime GoTime.zero "\"2021-01-02T03:04:05.000001-05:00\"" =
      .returned dateTime none :=
  ⟨by rfl,
   (Time_MarshalJSON_UnmarshalJSON_round_trip dateTime GoTime.zero (by decide) (by decide)
      (by decide) (by decide)).2 _ (by rfl)⟩

/-- The text the encoder writes for the nanoseconds: the text of a fractional second of
nine digits at most that does not end with a zero and denotes these nanoseconds. -/
theorem appendNano_form (n : Nat) (h : n < 1000000000) :
    ∃ frac, appendNano n = fractionText frac ∧ (∀ c ∈ frac, c.isDigit = true) ∧
      frac.length ≤ 9 ∧ frac.getLast? ≠ some '0' ∧ fractionNanoseconds frac = n := by
  by_cases h0 : n = 0
  · exact ⟨[], by simp [appendNano, h0, fractionText], by simp, by simp, by simp,
      by simp [fractionNanoseconds, h0]⟩
  · obtain ⟨k, m, hk1, hk, htrim, hm, hmk, hm10⟩ :=
      trimZeros_digitsFixed 9 n h0 (by norm_num; exact h)
    have hlen : (digitsFixed k m).length = k := digitsFixed_length k m
    have hne : digitsFixed k m ≠ [] := by
      intro hnil
      rw [hnil] at hlen
      simp at hlen
      omega
    refine ⟨digitsFixed k m, ?_, digitsFixed_isDigit k m, by omega, ?_, ?_⟩
    · simp only [appendNano, h0, if_false, fractionText, hne]
      rw [appendInt_eq_digitsFixed (by norm_num) (by norm_num; exact h), htrim]
    · obtain ⟨j, rfl⟩ : ∃ j, k = j + 1 := ⟨k - 1, by omega⟩
      rw [show digitsFixed (j + 1) m = digitsFixed j (m / 10) ++ [Nat.digitChar (m % 10)]
        from rfl, List.getLast?_concat]
      intro hc
      exact digitChar_ne_zero (by omega) hm10 (Option.some.inj hc)
    · simp only [fractionNanoseconds, foldl_digitsFixed, hlen, Nat.mod_eq_of_lt hmk]
      exact hm

/-- The nine digits of a whole number of microseconds that is not a multiple of ten, once
the zeros at the end are trimmed, are the six digits of the microseconds. -/
theorem trimZeros_microseconds (n : Nat) (h3 : n % 1000 = 0) (h10 : n / 1000 % 10 ≠ 0) :
    trimZeros (digitsFixed 9 n) = digitsFixed 6 (n / 1000) := by
  have e1 : n % 10 = 0 := by omega
  have e2 : n / 10 % 10 = 0 := by omega
  have e3 : n / 10 / 10 % 10 = 0 := by omega
  have e4 : n / 10 / 10 / 10 = n / 1000 := by omega
  rw [show digitsFixed 9 n = digitsFixed 6 (n / 10 / 10 / 10) ++
      [Nat.digitChar (n / 10 / 10 % 10)] ++ [Nat.digitChar (n / 10 % 10)] ++
      [Nat.digitChar (n % 10)] from rfl, e1, e2, e3, e4,
    show [Nat.digitChar 0] = ['0'] from rfl, trimZeros_append_zero, trimZeros_append_zero,
    trimZeros_append_zero,
    show digitsFixed 6 (n / 1000) = digitsFixed 5 (n / 1000 / 10) ++
      [Nat.digitChar (n / 1000 % 10)] from rfl]
  exact trimZeros_append_ne _ _ (digitChar_ne_zero (by omega) h10)

/-- The length of the text of a date and a clock. -/
theorem dateTimeText_length (y mo d h mi s : Nat) (sep : Char) (hy : y ≤ 9999)
    (hmo : mo < 100) (hd : d < 100) (hh : h < 100) (hmi : mi < 100) (hs : s < 100) :
    (dateTimeText y mo d h mi s sep).length = 19 := by
  rw [dateTimeText_eq y mo d h mi s sep hy hmo hd hh hmi hs]
  rfl

/-- The length of the text the encoder writes for the nanoseconds: nothing for a whole
second, otherwise a period and the digits up to the last that is not zero. -/
theorem appendNano_length (n : Nat) (h : n < 1000000000) :
    (n = 0 → (appendNano n).length = 0) ∧
    (n ≠ 0 → ∃ k m, (appendNano n).length = k + 1 ∧ k ≤ 9 ∧ m * 10 ^ (9 - k) = n ∧
      m % 10 ≠ 0) := by
  constructor
  · intro h0
    simp [appendNano, h0]
  · intro h0
    obtain ⟨k, m, hk1, hk, htrim, hm, hmk, hm10⟩ :=
      trimZeros_digitsFixed 9 n h0 (by norm_num; exact h)
    refine ⟨k, m, ?_, hk, hm, hm10⟩
    simp only [appendNano, h0, if_false]
    rw [appendInt_eq_digitsFixed (by norm_num) (by norm_num; exact h), htrim]
    simp [digitsFixed_length]

/-- C12, as the code has it. For every time `t` of the calendar with a year in 0..9999 and
an offset of whole minutes below 24 hours, `Time.MarshalJSON` gives the quoted text of the
date and the clock `YYYY-MM-DDTHH:MM:SS`, followed by the fractional second written with
nine digits at most and without zeros at its end (nothing for a whole second), followed by
`Z` for offset zero and by `±HH:MM` otherwise.  That output is the form
`YYYY-MM-DDTHH:MM:SS.ffffff±HH:MM` exactly when the offset is not zero and the sub-second
part is a whole number of microseconds that is not a multiple of ten. -/
theorem Time_MarshalJSON_form (t : GoTime) (hv : t.Valid) (hy0 : 0 ≤ t.year)
    (hy : t.year ≤ 9999) (h60 : t.offset % 60 = 0) (h24 : t.offset.natAbs / 60 / 60 < 24) :
    (∃ frac, (∀ c ∈ frac, c.isDigit = true) ∧ frac.length ≤ 9 ∧ frac.getLast? ≠ some '0' ∧
      fractionNanoseconds frac = t.nanosecond ∧
      Time.MarshalJSON goTime t = .ok (quoted
        (dateTimeText t.year.toNat t.month t.day t.hour t.minute t.second 'T' ++
          (fractionText frac ++
            (if t.offset = 0 then ['Z']
             else offsetText (decide (t.offset < 0)) (t.offset.natAbs / 60 / 60)
               (t.offset.natAbs / 60 % 60)))))) ∧
    (Time.MarshalJSON goTime t = .ok (canonicalText t) ↔
      t.offset ≠ 0 ∧ t.nanosecond % 1000 = 0 ∧ t.nanosecond / 1000 % 10 ≠ 0) := by
  obtain ⟨hmo1, hmo, hd1, hd, hh, hmi, hs, hn⟩ := hv
  have hd31 := daysIn_le t.month t.year
  have hyr : ¬(t.year < 0 ∨ 9999 < t.year) := by omega
  have hz : ¬(t.offset ≠ 0 ∧ 24 ≤ t.offset.natAbs / 60 / 60) := by omega
  have hout : Time.MarshalJSON goTime t = .ok (quoted
      (dateTimeText t.year.toNat t.month t.day t.hour t.minute t.second 'T' ++
        (appendNano t.nanosecond ++ appendZone t.offset))) := by
    simp only [Time.MarshalJSON, goTime, timeMarshalJSON, hyr, hz, if_false,
      appendFormatRFC3339_eq t hy0]
    rfl
  have hdl := dateTimeText_length t.year.toNat t.month t.day t.hour t.minute t.second 'T'
    (by omega) (by omega) (by omega) (by omega) (by omega) (by omega)
  have hcanon : canonicalText t = quoted
      (dateTimeText t.year.toNat t.month t.day t.hour t.minute t.second 'T' ++
        ('.' :: digitsFixed 6 (t.nanosecond / 1000) ++
          offsetText (decide (t.offset < 0)) (t.offset.natAbs / 60 / 60)
            (t.offset.natAbs / 60 % 60))) := by
    unfold canonicalText quoted
    rw [appendInt_eq_digitsFixed (by norm_num) (by norm_num; omega)]
    simp
  constructor
  · obtain ⟨frac, hfe, hfd, hfl, hf0, hfn⟩ := appendNano_form t.nanosecond hn
    refine ⟨frac, hfd, hfl, hf0, hfn, ?_⟩
    rw [hout, hfe, appendZone_eq t.offset h60]
  · rw [hout, hcanon]
    constructor
    · intro h
      have hlist := congrArg String.data (Except.ok.inj h)
      simp only [quoted_data, List.cons.injEq, true_and, List.append_cancel_right_eq,
        List.append_cancel_left_eq] at hlist
      have hlen := congrArg List.length hlist
      rw [appendZone_eq t.offset h60] at hlen
      simp only [List.length_append, List.length_cons, digitsFixed_length] at hlen
      rw [offsetText_eq _ (show t.offset.natAbs / 60 / 60 < 100 by omega)
        (show t.offset.natAbs / 60 % 60 < 100 by omega)] at hlen
      obtain ⟨hl0, hl1⟩ := appendNano_length t.nanosecond hn
      by_cases hn0 : t.nanosecond = 0
      · have := hl0 hn0
        by_cases ho : t.offset = 0
        · simp [ho] at hlen; omega
        · simp [ho] at hlen; omega
      · obtain ⟨k, m, hk, hk9, hm, hm10⟩ := hl1 hn0
        by_cases ho : t.offset = 0
        · simp [ho] at hlen; omega
        · simp [ho] at hlen
          have hk6 : k = 6 := by omega
          subst hk6
          refine ⟨ho, ?_, ?_⟩
          · have : m * 1000 = t.nanosecond := by simpa using hm
            omega
          · have : m * 1000 = t.nanosecond := by simpa using hm
            have : t.nanosecond / 1000 = m := by omega
            rw [this]
            exact hm10
    · rintro ⟨ho, h3, h10⟩
      have hn0 : t.nanosecond ≠ 0 := by
        intro h0
        rw [h0] at h10
        simp at h10
      have hnano : appendNano t.nanosecond = '.' :: digitsFixed 6 (t.nanosecond / 1000) := by
        simp only [appendNano, hn0, if_false]
        rw [appendInt_eq_digitsFixed (by norm_num) (by norm_num; exact hn),
          trimZeros_microseconds t.nanosecond h3 h10]
      rw [hnano, appendZone_eq t.offset h60]
      simp only [ho, if_false]

/-- The time of the tests: 1000 nanoseconds at five hours west of UTC are written with six
digits and a numeric offset. -/
theorem Time_MarshalJSON_form_witness :
    Time.MarshalJSON goTime dateTime = .ok "\"2021-01-02T03:04:05.000001-05:00\"" ∧
    canonicalText dateTime = "\"2021-01-02T03:04:05.000001-05:00\"" :=
  have h := (Time_MarshalJSON_form dateTime (by decide) (by decide) (by decide) (by decide)
    (by decide)).2.2 ⟨by decide, by decide, by decide⟩
  ⟨h.trans (congrArg Except.ok (by rfl)), by rfl⟩

/-- C12, as the specification has it, fails: a whole second at offset zero is written
without a fractional second and with `Z`; half a second is written with one digit; 1500
nanoseconds are written with seven digits.  None of these outputs is the form with six
digits and a numeric offset. -/
theorem Time_MarshalJSON_not_always_six_digits :
    Time.MarshalJSON goTime { dateTime with nanosecond := 0, offset := 0 } =
      .ok "\"2021-01-02T03:04:05Z\"" ∧
    canonicalText { dateTime with nanosecond := 0, offset := 0 } =
      "\"2021-01-02T03:04:05.000000+00:00\"" ∧
    Time.MarshalJSON goTime { dateTime with nanosecond := 500000000 } =
      .ok "\"2021-01-02T03:04:05.5-05:00\"" ∧
    canonicalText { dateTime with nanosecond := 500000000 } =
      "\"2021-01-02T03:04:05.500000-05:00\"" ∧
    Time.MarshalJSON goTime { dateTime with nanosecond := 1500 } =
      .ok "\"2021-01-02T03:04:05.0000015-05:00\"" ∧
    canonicalText { dateTime with nanosecond := 1500 } =
      "\"2021-01-02T03:04:05.000001-05:00\"" := by
  refine ⟨by rfl, by rfl, by rfl, by rfl, by rfl, by rfl⟩

/-- C14. On a text between double quotes `Time.UnmarshalJSON` gives the result of the first
of its four parsers, in the order strict RFC 3339 (`time.Time.UnmarshalJSON`, which on a
quoted text is `parseStrictRFC3339` on the text between the quotes), layout
`2006-01-02 15:04:05Z07:00`, layout `2006-01-02T15:04:05`, layout
`2006-01-02T15:04:05-07:00`, that accepts the text; it returns an error if and only if all
four reject, and then the receiver keeps its value.  Nothing but the results of the four
parsers enters the result. -/
theorem UnmarshalJSON_first_parser_wins {θ : Type} (lib : TimeLib θ) (t : θ)
    (text : List Char) :
    Time.UnmarshalJSON lib t (quoted text) =
      (match [lib.UnmarshalJSON (quoted text),
              lib.Parse "2006-01-02 15:04:05Z07:00" ⟨text⟩,
              lib.Parse "2006-01-02T15:04:05" ⟨text⟩,
              lib.Parse "2006-01-02T15:04:05-07:00" ⟨text⟩].findSome? id with
       | some tm => .returned tm none
       | none => .returned t (some (.text "invalid time format"))) ∧
    ((∃ t1 e, Time.UnmarshalJSON lib t (quoted text) = .returned t1 (some e)) ↔
      lib.UnmarshalJSON (quoted text) = none ∧
      lib.Parse "2006-01-02 15:04:05Z07:00" ⟨text⟩ = none ∧
      lib.Parse "2006-01-02T15:04:05" ⟨text⟩ = none ∧
      lib.Parse "2006-01-02T15:04:05-07:00" ⟨text⟩ = none) ∧
    goTime.UnmarshalJSON (quoted text) = parseStrictRFC3339 ⟨text⟩ := by
  rw [UnmarshalJSON_quoted]
  refine ⟨?_, ?_, timeUnmarshalJSON_quoted text⟩
  · cases lib.UnmarshalJSON (quoted text) <;>
      cases lib.Parse "2006-01-02 15:04:05Z07:00" ⟨text⟩ <;>
      cases lib.Parse "2006-01-02T15:04:05" ⟨text⟩ <;>
      cases lib.Parse "2006-01-02T15:04:05-07:00" ⟨text⟩ <;> rfl
  · cases lib.UnmarshalJSON (quoted text) <;>
      cases lib.Parse "2006-01-02 15:04:05Z07:00" ⟨text⟩ <;>
      cases lib.Parse "2006-01-02T15:04:05" ⟨text⟩ <;>
      cases lib.Parse "2006-01-02T15:04:05-07:00" ⟨text⟩ <;> simp

/-- C15, as the code has it. In the variant written with a space the fractional second is
optional and the zone is required: for every valid date-time of the calendar with a year of
four digits and every fractional second of nine digits at most, possibly none, the text
`YYYY-MM-DD HH:MM:SS[.f]` followed by `Z` or by a numeric offset with an hour up to 23 and
a minute up to 59 is decoded by `Time.UnmarshalJSON` to that date-time at that offset, and
the same text with no zone after it is rejected with the error `invalid time format`, the
receiver keeping its value. -/
theorem UnmarshalJSON_space_variant (t0 : GoTime) (c : DateTime) (frac : List Char)
    (z : ZoneText) (hc : c.Valid) (hfrac : ∀ x ∈ frac, x.isDigit = true)
    (hlen : frac.length ≤ 9) (hz : z.InRange) :
    Time.UnmarshalJSON goTime t0 (quoted (c.text ' ' ++ (fractionText frac ++ z.text))) =
      .returned (c.at (fractionNanoseconds frac) z.seconds) none ∧
    Time.UnmarshalJSON goTime t0 (quoted (c.text ' ' ++ fractionText frac)) =
      .returned t0 (some (.text "invalid time format")) :=
  ⟨UnmarshalJSON_space_zone t0 c frac z hc hfrac hlen hz,
   UnmarshalJSON_space_bare t0 c frac hc hfrac hlen⟩

/-- The second literal of the tests is decoded; without its offset it is rejected. -/
theorem UnmarshalJSON_space_variant_witness :
    Time.UnmarshalJSON goTime GoTime.zero "\"2021-01-02 03:04:05.000001-05:00\"" =
      .returned dateTime none ∧
    Time.UnmarshalJSON goTime GoTime.zero "\"2021-01-02 03:04:05.000001\"" =
      .returned GoTime.zero (some (.text "invalid time format")) :=
  UnmarshalJSON_space_variant GoTime.zero
    { year := 2021, month := 1, day := 2, hour := 3, minute := 4, second := 5 }
    ['0', '0', '0', '0', '0', '1'] (.numeric true 5 0) (by decide) (by decide) (by decide)
    ⟨by decide, by decide⟩

/-- C15, as the specification has it, fails: the text `2021-01-02 03:04:05`, with neither
a fractional second nor an offset, is rejected by all four parsers. -/
theorem UnmarshalJSON_space_without_offset_rejected :
    Time.UnmarshalJSON goTime GoTime.zero "\"2021-01-02 03:04:05\"" =
      .returned GoTime.zero (some (.text "invalid time format")) := by
  rfl

/-- C16, as the code has it. When all four parsers reject the text between the quotes,
`Time.UnmarshalJSON` returns the error of the fixed text `invalid time format`, whatever the
input was, and the receiver keeps its value. -/
theorem UnmarshalJSON_rejected_fixed_error {θ : Type} (lib : TimeLib θ) (t : θ)
    (text : List Char) (h1 : lib.UnmarshalJSON (quoted text) = none)
    (h2 : lib.Parse "2006-01-02 15:04:05Z07:00" ⟨text⟩ = none)
    (h3 : lib.Parse "2006-01-02T15:04:05" ⟨text⟩ = none)
    (h4 : lib.Parse "2006-01-02T15:04:05-07:00" ⟨text⟩ = none) :
    Time.UnmarshalJSON lib t (quoted text) =
      .returned t (some (.text "invalid time format")) := by
  rw [UnmarshalJSON_quoted, h1, h2, h3, h4]

/-- The text `yesterday` is rejected with the fixed error. -/
theorem UnmarshalJSON_rejected_fixed_error_witness :
    Time.UnmarshalJSON goTime dateTime "\"yesterday\"" =
      .returned dateTime (some (.text "invalid time format")) :=
  UnmarshalJSON_rejected_fixed_error goTime dateTime "yesterday".data (by rfl) (by rfl)
    (by rfl) (by rfl)

/-- C16, as the specification has it, fails: the texts `yesterday` and `tomorrow` are both
rejected, with the same error, so the rejected text cannot be recovered from the error. -/
theorem UnmarshalJSON_error_does_not_carry_input :
    Time.UnmarshalJSON goTime GoTime.zero "\"yesterday\"" =
      .returned GoTime.zero (some (.text "invalid time format")) ∧
    Time.UnmarshalJSON goTime GoTime.zero "\"tomorrow\"" =
      .returned GoTime.zero (some (.text "invalid time format")) ∧
    ¬ ∃ recover : LibError → List Char, ∀ (text : List Char) (t : GoTime) (e : LibError),
      Time.UnmarshalJSON goTime GoTime.zero (quoted text) = .returned t (some e) →
        recover e = text := by
  refine ⟨by rfl, by rfl, ?_⟩
  rintro ⟨recover, h⟩
  have h1 := h "yesterday".data GoTime.zero (.text "invalid time format") (by rfl)
  have h2 := h "tomorrow".data GoTime.zero (.text "invalid time format") (by rfl)
  rw [h1] at h2
  exact absurd h2 (by decide)

/-! ## Scanning the inputs of `time_test.go` -/

/-- The scanner reads a string without quotes, backslashes and control characters up to
its closing quote. -/
theorem scanString_plain (text : List Char) :
    ∀ (acc rest : List Char), (∀ c ∈ text, c ≠ '"' ∧ c ≠ '\\' ∧ 32 ≤ c.toNat) →
      scanString .plain (text ++ '"' :: rest) acc = .ok (⟨acc.reverse ++ text⟩, rest) := by
  induction text with
  | nil => intro acc rest _; simp [scanString]
  | cons c text ih =>
    intro acc rest h
    obtain ⟨h1, h2, h3⟩ := h c (List.mem_cons_self _ _)
    have h3' : ¬ c.toNat < 32 := by omega
    rw [List.cons_append, scanString]
    simp only [h1, h2, h3', if_false]
    rw [ih (c :: acc) rest (fun x hx => h x (List.mem_cons_of_mem _ hx))]
    simp

/-- The scanner reads the input `{"date_time":"<text>"}` as an object with one member. -/
theorem scanValue_testTimeJSON (text : List Char)
    (h : ∀ c ∈ text, c ≠ '"' ∧ c ≠ '\\' ∧ 32 ≤ c.toNat) (fuel : Nat) :
    scanValue (fuel + 3) 0 (testTimeJSON text).data =
      .ok (.object [("date_time", .string ⟨text⟩)], []) := by
  have hkey : ∀ rest : List Char,
      scanString .plain
        ('d' :: 'a' :: 't' :: 'e' :: '_' :: 't' :: 'i' :: 'm' :: 'e' :: '"' :: rest) [] =
        .ok ("date_time", rest) := fun rest => rfl
  have hval : scanString .plain (text ++ ['"', '}']) [] = .ok (⟨text⟩, ['}']) := by
    have := scanString_plain text [] ['}'] h
    simpa using this
  have hdata : (testTimeJSON text).data =
      '{' :: '"' :: 'd' :: 'a' :: 't' :: 'e' :: '_' :: 't' :: 'i' :: 'm' :: 'e' :: '"' ::
        ':' :: '"' :: (text ++ ['"', '}']) := by
    simp [testTimeJSON]
  rw [hdata, scanValue]
  simp [skipSpace, isSpace, maxNestingDepth]
  rw [scanMembers]
  simp [skipSpace, isSpace]
  rw [hkey]
  simp [skipSpace, isSpace]
  rw [scanValue]
  simp [skipSpace, isSpace, hval, Except.map]

/-- The call `json.Unmarshal` on the input `{"date_time":"<text>"}` gives the quoted text
to `UnmarshalJSON` and returns what that returns. -/
theorem Unmarshal_testTimeJSON {θ : Type} (lib : TimeLib θ) (text : List Char)
    (h : ∀ c ∈ text, c ≠ '"' ∧ c ≠ '\\' ∧ 32 ≤ c.toNat) (t : testTime θ) (t1 : θ)
    (err : Option LibError)
    (hu : Time.UnmarshalJSON lib t.DateTime (quoted text) = .returned t1 err) :
    Unmarshal (testTime.fields lib) (testTimeJSON text) t = ({ DateTime := t1 }, err) := by
  unfold Unmarshal
  have hfuel : 2 * (testTimeJSON text).data.length + 1 =
      (2 * (testTimeJSON text).data.length - 2) + 3 := by
    have : 14 ≤ (testTimeJSON text).data.length := by simp [testTimeJSON]
    omega
  rw [hfuel, scanValue_testTimeJSON text h]
  have hfind : findField (testTime.fields lib) (unquote "date_time") =
      some { name := "date_time",
             store := storeField (fun t => t.DateTime) (fun t d => { t with DateTime := d })
               (decodeTime lib) } := rfl
  have hlit : (Json.string ⟨text⟩).literal = some (quoted text) := rfl
  simp only [skipSpace, List.isEmpty_nil, if_true, decodeObject, storeMembers, hfind,
    storeField, decodeTime, hlit, hu, Stored.result]
  cases err <;> rfl

/-- A digit is not a quote, a backslash or a control character. -/
theorem isDigit_plain {c : Char} (h : c.isDigit = true) :
    c ≠ '"' ∧ c ≠ '\\' ∧ 32 ≤ c.toNat := by
  simp only [Char.isDigit, Bool.and_eq_true, decide_eq_true_eq] at h
  have h1 : 48 ≤ c.toNat := h.1
  have h2 : c.toNat ≤ 57 := h.2
  refine ⟨?_, ?_, by omega⟩
  · intro hc
    rw [hc] at h1
    exact absurd h1 (by decide)
  · intro hc
    rw [hc] at h2
    exact absurd h2 (by decide)

/-- The text of a date and a clock holds no quote, no backslash and no control
character. -/
theorem dateTimeText_plain (c : DateTime) (hc : c.Valid) (sep : Char)
    (hsep : sep = 'T' ∨ sep = ' ') :
    ∀ x ∈ c.text sep, x ≠ '"' ∧ x ≠ '\\' ∧ 32 ≤ x.toNat := by
  obtain ⟨hy, hmo1, hmo, hd1, hd, hh, hmi, hs⟩ := hc
  have hd31 := daysIn_le c.month c.year
  have hdig : ∀ d : Nat, d < 10 →
      Nat.digitChar d ≠ '"' ∧ Nat.digitChar d ≠ '\\' ∧ 32 ≤ (Nat.digitChar d).toNat :=
    fun d hd => isDigit_plain (digitChar_isDigit hd)
  have hsepp : sep ≠ '"' ∧ sep ≠ '\\' ∧ 32 ≤ sep.toNat := by
    rcases hsep with rfl | rfl <;> decide
  intro x hx
  unfold DateTime.text at hx
  rw [dateTimeText_eq c.year c.month c.day c.hour c.minute c.second sep hy (by omega)
    (by omega) (by omega) (by omega) (by omega)] at hx
  simp only [List.mem_cons, List.mem_singleton, List.not_mem_nil, or_false] at hx
  rcases hx with h | h | h | h | h | h | h | h | h | h | h | h | h | h | h | h | h | h | h <;>
    subst h <;> first
      | exact hsepp
      | exact hdig _ (by omega)
      | decide

/-- The text of a fractional second holds no quote, no backslash and no control
character. -/
theorem fractionText_plain (frac : List Char) (hfrac : ∀ x ∈ frac, x.isDigit = true) :
    ∀ x ∈ fractionText frac, x ≠ '"' ∧ x ≠ '\\' ∧ 32 ≤ x.toNat := by
  intro x hx
  unfold fractionText at hx
  split at hx
  · simp at hx
  · simp only [List.mem_cons] at hx
    rcases hx with h | h
    · subst h; decide
    · exact isDigit_plain (hfrac x h)

/-- The text of a zone holds no quote, no backslash and no control character. -/
theorem zoneText_plain (z : ZoneText) (hz : z.InRange) :
    ∀ x ∈ z.text, x ≠ '"' ∧ x ≠ '\\' ∧ 32 ≤ x.toNat := by
  have hdig : ∀ d : Nat, d < 10 →
      Nat.digitChar d ≠ '"' ∧ Nat.digitChar d ≠ '\\' ∧ 32 ≤ (Nat.digitChar d).toNat :=
    fun d hd => isDigit_plain (digitChar_isDigit hd)
  intro x hx
  cases z with
  | utc =>
    simp only [ZoneText.text, List.mem_singleton] at hx
    subst hx
    decide
  | numeric negative hours minutes =>
    have h1 := hz.1
    have h2 := hz.2
    simp only [ZoneText.text] at hx
    rw [offsetText_eq negative (show hours < 100 by omega) (show minutes < 100 by omega)] at hx
    simp only [List.mem_cons, List.mem_singleton, List.not_mem_nil, or_false] at hx
    rcases hx with h | h | h | h | h | h <;> subst h <;> first
      | exact hdig _ (by omega)
      | decide
      | (cases negative <;> decide)

/-- C13. Format coverage: for every valid date-time of the calendar with a year of four
digits, every fractional second of nine digits at most (possibly none) and every zone `Z`
or `±HH:MM` with an hour up to 23 and a minute up to 59, `json.Unmarshal` into a struct
with a `Time` field returns no error and leaves in the field (1) for the text written with
`T`, the fractional second and the zone, that date-time at that offset; (2) for the same
text with a space in place of `T`, the same time; (3) for the text written with `T` and no
zone, that date-time at offset zero, which is UTC, no local zone entering; (4) for the
text written with `T`, no fractional second and the zone, that date-time at that offset. -/
theorem Unmarshal_format_coverage (c : DateTime) (frac : List Char) (z : ZoneText)
    (t : testTime GoTime) (hc : c.Valid) (hfrac : ∀ x ∈ frac, x.isDigit = true)
    (hlen : frac.length ≤ 9) (hz : z.InRange) :
    Unmarshal (testTime.fields goTime)
        (testTimeJSON (c.text 'T' ++ (fractionText frac ++ z.text))) t =
      ({ DateTime := c.at (fractionNanoseconds frac) z.seconds }, none) ∧
    Unmarshal (testTime.fields goTime)
        (testTimeJSON (c.text ' ' ++ (fractionText frac ++ z.text))) t =
      ({ DateTime := c.at (fractionNanoseconds frac) z.seconds }, none) ∧
    Unmarshal (testTime.fields goTime) (testTimeJSON (c.text 'T' ++ fractionText frac)) t =
      ({ DateTime := c.at (fractionNanoseconds frac) 0 }, none) ∧
    Unmarshal (testTime.fields goTime) (testTimeJSON (c.text 'T' ++ z.text)) t =
      ({ DateTime := c.at 0 z.seconds }, none) := by
  have hT := dateTimeText_plain c hc 'T' (Or.inl rfl)
  have hS := dateTimeText_plain c hc ' ' (Or.inr rfl)
  have hF := fractionText_plain frac hfrac
  have hZ := zoneText_plain z hz
  refine ⟨?_, ?_, ?_, ?_⟩
  · exact Unmarshal_testTimeJSON goTime _
      (by
        intro x hx
        simp only [List.mem_append] at hx
        rcases hx with h | h | h
        · exact hT x h
        · exact hF x h
        · exact hZ x h) t _ none
      (UnmarshalJSON_T_zone t.DateTime c frac z hc hfrac hlen hz)
  · exact Unmarshal_testTimeJSON goTime _
      (by
        intro x hx
        simp only [List.mem_append] at hx
        rcases hx with h | h | h
        · exact hS x h
        · exact hF x h
        · exact hZ x h) t _ none
      (UnmarshalJSON_space_zone t.DateTime c frac z hc hfrac hlen hz)
  · exact Unmarshal_testTimeJSON goTime _
      (by
        intro x hx
        simp only [List.mem_append] at hx
        rcases hx with h | h
        · exact hT x h
        · exact hF x h) t _ none
      (UnmarshalJSON_T_bare t.DateTime c frac hc hfrac hlen)
  · have h4 := UnmarshalJSON_T_zone t.DateTime c [] z hc (by simp) (by simp) hz
    have hn : fractionNanoseconds [] = 0 := by simp [fractionNanoseconds]
    rw [show fractionText [] = [] from rfl, List.nil_append, hn] at h4
    exact Unmarshal_testTimeJSON goTime _
      (by
        intro x hx
        simp only [List.mem_append] at hx
        rcases hx with h | h
        · exact hT x h
        · exact hZ x h) t _ none h4

/-- The four literals of the tests: the first two give the time of the tests, the third
gives 11:34:55 on July 8, 2021 in UTC, the fourth the same reading seven hours west of
UTC. -/
theorem Unmarshal_format_coverage_witness :
    Unmarshal (testTime.fields goTime)
        "\x7b\"date_time\":\"2021-01-02T03:04:05.000001-05:00\"\x7d"
        { DateTime := GoTime.zero } = ({ DateTime := dateTime }, none) ∧
    Unmarshal (testTime.fields goTime)
        "\x7b\"date_time\":\"2021-01-02 03:04:05.000001-05:00\"\x7d"
        { DateTime := GoTime.zero } = ({ DateTime := dateTime }, none) ∧
    Unmarshal (testTime.fields goTime) "\x7b\"date_time\":\"2021-07-08T11:34:55\"\x7d"
        { DateTime := GoTime.zero } =
      ({ DateTime := { year := 2021, month := 7, day := 8, hour := 11, minute := 34,
                       second := 55, nanosecond := 0, offset := 0 } }, none) ∧
    Unmarshal (testTime.fields goTime) "\x7b\"date_time\":\"2021-07-08T11:34:55-07:00\"\x7d"
        { DateTime := GoTime.zero } =
      ({ DateTime := { year := 2021, month := 7, day := 8, hour := 11, minute := 34,
                       second := 55, nanosecond := 0, offset := -25200 } }, none) :=
  have h1 := Unmarshal_format_coverage
    { year := 2021, month := 1, day := 2, hour := 3, minute := 4, second := 5 }
    ['0', '0', '0', '0', '0', '1'] (.numeric true 5 0) { DateTime := GoTime.zero }
    (by decide) (by decide) (by decide) ⟨by decide, by decide⟩
  have h2 := Unmarshal_format_coverage
    { year := 2021, month := 7, day := 8, hour := 11, minute := 34, second := 55 }
    [] (.numeric true 7 0) { DateTime := GoTime.zero }
    (by decide) (by decide) (by decide) ⟨by decide, by decide⟩
  ⟨h1.1, h1.2.1, h2.2.2.1, h2.2.2.2⟩

/-! ## The transport of the client -/

/-- After options built by `WithHTTPClient` the field `httpClient` holds the argument of
the last one, or what it held before when there is no option. -/
theorem foldl_WithHTTPClient_httpClient {ε υ : Type}
    (clients : List (Option (HttpClient ε υ))) :
    ∀ c : nsHTTPClient ε υ,
      ((clients.map WithHTTPClient).foldl (fun c opt => opt c) c).httpClient =
        match clients.getLast? with
        | some h => h
        | none => c.httpClient := by
  induction clients with
  | nil => intro c; rfl
  | cons h clients ih =>
    intro c
    simp only [List.map_cons, List.foldl_cons]
    rw [ih (WithHTTPClient h c)]
    cases clients with
    | nil => rfl
    | cons a clients =>
      rw [List.getLast?_cons_cons]
      cases hl : (a :: clients).getLast? with
      | none => simp at hl
      | some x => rfl

/-- C18. The transport is injected: the client returned by `New` with options built by
`WithHTTPClient` holds as its `httpClient` the argument of the last option when that is not
nil, and the default client when there is no option or the last argument is nil, so it is
never nil; and a call of `invokeEndpoint` on that client whose request is built does not
panic and is answered by the `Do` of that `httpClient` alone: its error is returned, or its
response is classified by its status and decoded. -/
theorem New_injects_transport {β τ ε υ : Type} (env : Env β τ ε υ) (baseURL u p : String)
    (clients : List (Option (HttpClient ε υ))) (ctx : Option Context)
    (method endpoint : String) (body : Option β) (target : Option τ) (req : Request υ)
    (hreq : buildRequest env (New env baseURL u p (clients.map WithHTTPClient)) ctx method
      endpoint body = .ok req) :
    (New env baseURL u p (clients.map WithHTTPClient)).httpClient =
      some (match clients.getLast? with
            | some (some c) => c
            | _ => env.defaultClient) ∧
    invokeEndpoint env (New env baseURL u p (clients.map WithHTTPClient)) ctx method endpoint
        body target =
      (match (match clients.getLast? with
              | some (some c) => c
              | _ => env.defaultClient).Do req with
       | .error err =>
         { outcome := .returned (some (.lib err)), target := target, trace := [.doCall req] }
       | .ok resp =>
         if resp.statusCode ≠ 200 ∧ resp.statusCode ≠ 202 then
           { outcome := .returned (some (remoteError resp.statusCode (ReadAll resp.body).1)),
             target := target, trace := [.doCall req, .readAll, .close] }
         else
           match target with
           | some t =>
             { outcome := .returned ((env.decode resp.body t).2.map .lib),
               target := some (env.decode resp.body t).1,
               trace := [.doCall req, .decode, .close] }
           | none =>
             { outcome := .returned none, target := none, trace := [.doCall req, .close] }) := by
  have hc : (New env baseURL u p (clients.map WithHTTPClient)).httpClient =
      some (match clients.getLast? with
            | some (some c) => c
            | _ => env.defaultClient) := by
    have hf := foldl_WithHTTPClient_httpClient clients
      { httpClient := none, username := u, pasword := p, endpointURL := baseURL }
    unfold New
    simp only
    cases hl : clients.getLast? with
    | none =>
      rw [hl] at hf
      simp only at hf
      simp only [hf]
    | some x =>
      rw [hl] at hf
      simp only at hf
      cases x with
      | none => simp only [hf]
      | some c => simp only [hf]
  refine ⟨hc, ?_⟩
  unfold invokeEndpoint
  simp only [hreq, hc]
  generalize (match clients.getLast? with
              | some (some c) => c
              | _ => env.defaultClient).Do req = r
  cases r with
  | error err => rfl
  | ok resp =>
    by_cases hs : resp.statusCode ≠ 200 ∧ resp.statusCode ≠ 202
    · simp only [hs, if_true]
    · simp only [hs, if_false]

/-- The scenario of `TestInvokeEndpoint_GoError`: the injected client, whose transport
fails, is the one asked, and its error is returned. -/
theorem New_injects_transport_witness :
    invokeEndpoint (testEnv TestResponseMessage.fields)
        (New (testEnv TestResponseMessage.fields) "https://example.com/api" "acme" "1234!"
          ([some failingClient].map WithHTTPClient))
        (some background) "POST" "/endpoint" (some true) none =
      { outcome := .returned (some (.lib (.urlError "Post" "https://example.com/api/endpoint"
          (.text "oh no an error")))),
        target := none,
        trace := [.doCall (testRequest background "POST" "true")] } :=
  (New_injects_transport (testEnv TestResponseMessage.fields) "https://example.com/api"
    "acme" "1234!" [some failingClient] (some background) "POST" "/endpoint" (some true) none
    (testRequest background "POST" "true") rfl).2

/-! ## The request of `RetrieveDocuments` -/

/-- The function `url.QueryEscape` works character by character. -/
theorem QueryEscape_data_append (a b : List Char) :
    (QueryEscape ⟨a ++ b⟩).data = (QueryEscape ⟨a⟩).data ++ (QueryEscape ⟨b⟩).data := by
  simp [QueryEscape, List.flatMap_append]

/-- The function `url.QueryEscape` writes a comma as `%2C`. -/
theorem QueryEscape_comma : (QueryEscape ",").data = ['%', '2', 'C'] := by
  rfl

/-- The escaped join of identifiers is the escaped identifiers, separated by `%2C`: one
value for each identifier, in order. -/
theorem QueryEscape_Join (ids : List String) :
    QueryEscape (Join ids ",") = Join (ids.map QueryEscape) "%2C" := by
  have hcons : ∀ (a : String) (rest : List String),
      (QueryEscape ⟨List.intercalate [','] ((a :: rest).map String.data)⟩).data =
        List.intercalate ['%', '2', 'C'] (((a :: rest).map QueryEscape).map String.data) := by
    intro a rest
    induction rest generalizing a with
    | nil => simp [List.intercalate]
    | cons b rest ih =>
      have hi : List.intercalate [','] ((a :: b :: rest).map String.data) =
          a.data ++ (',' :: List.intercalate [','] ((b :: rest).map String.data)) := by
        simp [List.intercalate, List.intersperse]
      have ho : List.intercalate ['%', '2', 'C']
            (((a :: b :: rest).map QueryEscape).map String.data) =
          (QueryEscape a).data ++ (['%', '2', 'C'] ++
            List.intercalate ['%', '2', 'C'] (((b :: rest).map QueryEscape).map String.data)) := by
        simp [List.intercalate, List.intersperse]
      rw [hi, ho, QueryEscape_data_append,
        show (',' :: List.intercalate [','] ((b :: rest).map String.data)) =
          [','] ++ List.intercalate [','] ((b :: rest).map String.data) from rfl,
        QueryEscape_data_append, ih b]
      rfl
  cases ids with
  | nil => rfl
  | cons a rest =>
    have := hcons a rest
    unfold Join
    exact congrArg String.mk (by simpa using this)

/-- C19, as the code has it. `RetrieveDocuments` enforces no maximum: for every list of
document identifiers, of any length, its one call of `invokeEndpoint` is a `GET` with the
nil request value whose endpoint is `/retrievedocuments?documentIds=` followed by the
escaped identifiers, all of them, in order, separated by `%2C`, the escaped comma; every
request that reaches `Do` is the one built for that endpoint, and at most one does. -/
theorem RetrieveDocuments_passes_all_ids {β θ ε υ : Type}
    (env : Env β (RetrieveDocumentsRetrieveResponseMessage θ) ε υ) (zeroTime : θ)
    (c : nsHTTPClient ε υ) (ctx : Option Context) (documentIDs : List String) :
    RetrieveDocuments.invocation env zeroTime c ctx documentIDs =
      invokeEndpoint env c ctx "GET"
        ("/retrievedocuments?documentIds=" ++ Join (documentIDs.map QueryEscape) "%2C")
        none (some (RetrieveDocumentsRetrieveResponseMessage.zero zeroTime)) ∧
    (∀ req, Event.doCall req ∈
        (RetrieveDocuments.invocation env zeroTime c ctx documentIDs).trace →
      buildRequest env c ctx "GET"
        ("/retrievedocuments?documentIds=" ++ Join (documentIDs.map QueryEscape) "%2C")
        none = .ok req) ∧
    ((RetrieveDocuments.invocation env zeroTime c ctx documentIDs).trace.filter
      (fun e => match e with
        | .doCall _ => true
        | _ => false)).length ≤ 1 := by
  have h : RetrieveDocuments.invocation env zeroTime c ctx documentIDs =
      invokeEndpoint env c ctx "GET"
        ("/retrievedocuments?documentIds=" ++ Join (documentIDs.map QueryEscape) "%2C")
        none (some (RetrieveDocumentsRetrieveResponseMessage.zero zeroTime)) := by
    unfold RetrieveDocuments.invocation
    rw [QueryEscape_Join]
  refine ⟨h, ?_, ?_⟩
  · intro req hmem
    rw [h] at hmem
    exact buildRequest_of_doCall_mem env c ctx _ _ none _ req hmem
  · rw [h]
    unfold invokeEndpoint
    split
    · simp
    · split
      · simp
      · split
        · split
          · simp
          · simp
        · simp

/-- C19, as stated, fails: given six identifiers, `RetrieveDocuments` issues one request
whose `documentIds` parameter carries all six. -/
theorem RetrieveDocuments_carries_six_ids :
    (RetrieveDocuments.invocation testRetrieveDocumentsEnv GoTime.zero
        (New testRetrieveDocumentsEnv "https://example.com/api" "acme" "1234!"
          [WithHTTPClient (some (serverClient 200 "\x7b\x7d"))])
        (some background) ["a", "b", "c", "d", "e", "f"]).trace =
      [.doCall
        { ctx := background, method := "GET",
          url := "https://example.com/api/retrievedocuments?documentIds=a%2Cb%2Cc%2Cd%2Ce%2Cf",
          header := [("Content-Type", ["application/json"]), ("Username", ["acme"]),
            ("Password", ["1234!"])],
          body := "null" },
       .decode, .close] ∧
    documentIdsOf
        "https://example.com/api/retrievedocuments?documentIds=a%2Cb%2Cc%2Cd%2Ce%2Cf" =
      some [[97], [98], [99], [100], [101], [102]] ∧
    ¬ ([[97], [98], [99], [100], [101], [102]] : List (List Nat)).length ≤ 5 := by
  refine ⟨by rfl, by rfl, by decide⟩

/-! ## Bodies that cannot be decoded -/

/-- An empty body, or one of white space only, read without error: `Decode` returns
`io.EOF` and leaves the target as it was. -/
theorem decodeStruct_empty {τ : Type} (fields : List (FieldDecoder τ)) (data : String)
    (t : τ) (h : skipSpace data.data = []) :
    decodeStruct fields { data := data, err := none } t = (t, some .EOF) := by
  simp [decodeStruct, readValue, h]

/-- A body the scanner rejects or that ends inside a value: `Decode` returns the error of
reading the value and leaves the target as it was. -/
theorem decodeStruct_scan_error {τ : Type} (fields : List (FieldDecoder τ))
    (body : Body LibError) (t : τ) (e : LibError) (h : readValue body = .error e) :
    decodeStruct fields body t = (t, some e) := by
  simp [decodeStruct, h]

/-- A body whose value is well formed but is neither an object nor `null`, for a struct
target: `Decode` returns an `UnmarshalTypeError` and leaves the target as it was. -/
theorem decodeStruct_mismatch {τ : Type} (fields : List (FieldDecoder τ))
    (body : Body LibError) (t : τ) (v : Json) (h : readValue body = .ok v)
    (hobj : ∀ members, v ≠ .object members) (hnull : v ≠ .null) :
    decodeStruct fields body t = (t, some (.UnmarshalTypeError v.describe "")) := by
  cases v with
  | null => exact absurd rfl hnull
  | object members => exact absurd rfl (hobj members)
  | bool b => simp [decodeStruct, h, decodeObject, mismatch, saveError, Stored.result]; rfl
  | number lit => simp [decodeStruct, h, decodeObject, mismatch, saveError, Stored.result]; rfl
  | string raw => simp [decodeStruct, h, decodeObject, mismatch, saveError, Stored.result]; rfl
  | array items => simp [decodeStruct, h, decodeObject, mismatch, saveError, Stored.result]; rfl

/-- C20. For a response with status 200 or 202 and a non-nil target, when the decoder
returns an error for the body (as it does for malformed JSON, for a value that does not fit
the target and for an empty body), `invokeEndpoint` returns that error, which is not nil;
the target holds what the decoder left in it, and the body was closed. -/
theorem invokeEndpoint_decode_failure {β τ ε υ : Type} (env : Env β τ ε υ)
    (cfg : nsHTTPClient ε υ) (httpClient : HttpClient ε υ) (ctx : Option Context)
    (method endpoint : String) (body : Option β) (t : τ) (req : Request υ)
    (resp : Response ε) (e : ε)
    (hclient : cfg.httpClient = some httpClient)
    (hreq : buildRequest env cfg ctx method endpoint body = .ok req)
    (hdo : httpClient.Do req = .ok resp)
    (hstatus : resp.statusCode = 200 ∨ resp.statusCode = 202)
    (hdec : (env.decode resp.body t).2 = some e) :
    invokeEndpoint env cfg ctx method endpoint body (some t) =
      { outcome := .returned (some (.lib e)), target := some (env.decode resp.body t).1,
        trace := [.doCall req, .decode, .close] } ∧
    (invokeEndpoint env cfg ctx method endpoint body (some t)).outcome ≠ .returned none := by
  have hst : ¬(resp.statusCode ≠ 200 ∧ resp.statusCode ≠ 202) := by
    rcases hstatus with h | h <;> simp [h]
  have h : invokeEndpoint env cfg ctx method endpoint body (some t) =
      { outcome := .returned (some (.lib e)), target := some (env.decode resp.body t).1,
        trace := [.doCall req, .decode, .close] } := by
    simp only [invokeEndpoint, hreq, hclient, hdo, hst, if_false, hdec, Option.map_some']
  refine ⟨h, ?_⟩
  rw [h]
  simp

/-- A bare `202 Accepted` with no content: the call returns `io.EOF`. -/
theorem invokeEndpoint_decode_failure_witness :
    invokeEndpoint (testEnv TestResponseMessage.fields)
        (testConnection TestResponseMessage.fields (serverClient 202 ""))
        (some background) "GET" "/endpoint" none (some { OperationID := "" }) =
      { outcome := .returned (some (.lib .EOF)), target := some { OperationID := "" },
        trace := [.doCall (testRequest background "GET" "null"), .decode, .close] } :=
  (invokeEndpoint_decode_failure (testEnv TestResponseMessage.fields)
    (testConnection TestResponseMessage.fields (serverClient 202 ""))
    (serverClient 202 "") (some background) "GET" "/endpoint" none { OperationID := "" }
    (testRequest background "GET" "null")
    { statusCode := 202, body := { data := "", err := none } } .EOF
    rfl rfl rfl (Or.inr rfl) rfl).1

/-! ## A body that cannot be read to its end -/

/-- C21, as the code has it. When the status code is neither 200 nor 202 and reading the
response body fails, the read error is dropped: `invokeEndpoint` returns the remote error
with the status code, which is not the read error, and the diagnostic body in that error is
what `io.ReadAll` returned beside its error, the bytes read before the failure; it is empty
when nothing had been read.  The target keeps its value and the body is closed. -/
theorem invokeEndpoint_read_error_dropped {β τ ε υ : Type} (env : Env β τ ε υ)
    (cfg : nsHTTPClient ε υ) (httpClient : HttpClient ε υ) (ctx : Option Context)
    (method endpoint : String) (body : Option β) (target : Option τ) (req : Request υ)
    (resp : Response ε) (e : ε)
    (hclient : cfg.httpClient = some httpClient)
    (hreq : buildRequest env cfg ctx method endpoint body = .ok req)
    (hdo : httpClient.Do req = .ok resp)
    (hstatus : resp.statusCode ≠ 200 ∧ resp.statusCode ≠ 202)
    (hread : (ReadAll resp.body).2 = some e) :
    ReadAll resp.body = (resp.body.data, some e) ∧
    invokeEndpoint env cfg ctx method endpoint body target =
      { outcome := .returned (some (.errorString
          ("nursys: request returned " ++ formatInt resp.statusCode ++ ": " ++
            resp.body.data))),
        target := target, trace := [.doCall req, .readAll, .close] } ∧
    (invokeEndpoint env cfg ctx method endpoint body target).outcome ≠
      .returned (some (.lib e)) ∧
    (resp.body.data = "" →
      (invokeEndpoint env cfg ctx method endpoint body target).outcome =
        .returned (some (.errorString
          ("nursys: request returned " ++ formatInt resp.statusCode ++ ": ")))) := by
  have h : invokeEndpoint env cfg ctx method endpoint body target =
      { outcome := .returned (some (.errorString
          ("nursys: request returned " ++ formatInt resp.statusCode ++ ": " ++
            resp.body.data))),
        target := target, trace := [.doCall req, .readAll, .close] } := by
    simp only [invokeEndpoint, hreq, hclient, hdo, remoteError, ReadAll]
    rw [if_pos hstatus]
  refine ⟨?_, h, ?_, ?_⟩
  · rw [← hread]
    rfl
  · rw [h]
    simp
  · intro hempty
    rw [h, hempty]
    simp

/-- A response with status 500 whose body breaks off at once: the remote error has an empty
diagnostic body, and the error of the read is not returned. -/
theorem invokeEndpoint_read_error_dropped_witness :
    invokeEndpoint (testEnv TestResponseMessage.fields)
        (testConnection TestResponseMessage.fields (truncatedClient 500 "" .ErrUnexpectedEOF))
        (some background) "GET" "/endpoint" none (some { OperationID := "" }) =
      { outcome := .returned (some (.errorString "nursys: request returned 500: ")),
        target := some { OperationID := "" },
        trace := [.doCall (testRequest background "GET" "null"), .readAll, .close] } :=
  (invokeEndpoint_read_error_dropped (testEnv TestResponseMessage.fields)
    (testConnection TestResponseMessage.fields (truncatedClient 500 "" .ErrUnexpectedEOF))
    (truncatedClient 500 "" .ErrUnexpectedEOF) (some background) "GET" "/endpoint" none
    (some { OperationID := "" }) (testRequest background "GET" "null")
    { statusCode := 500, body := { data := "", err := some .ErrUnexpectedEOF } }
    .ErrUnexpectedEOF rfl rfl rfl (by decide) rfl).2.1

/-- C21, as stated, fails: a response with status 500 whose body breaks off after the bytes
`Internal Ser` gives a remote error whose diagnostic body is these bytes, not the empty
text. -/
theorem invokeEndpoint_read_error_keeps_bytes_read :
    (invokeEndpoint (testEnv TestResponseMessage.fields)
        (testConnection TestResponseMessage.fields
          (truncatedClient 500 "Internal Ser" .ErrUnexpectedEOF))
        (some background) "GET" "/endpoint" none (some { OperationID := "" })).outcome =
      .returned (some (.errorString "nursys: request returned 500: Internal Ser")) ∧
    (Outcome.returned (some (.errorString "nursys: request returned 500: Internal Ser")) :
        Outcome LibError) ≠
      .returned (some (.errorString "nursys: request returned 500: ")) := by
  refine ⟨by rfl, by decide⟩

/-! ## Inputs of `Time.UnmarshalJSON` that are not quoted texts -/

/-- The method `Time.UnmarshalJSON` on an input that is not empty and whose first or last
byte is not a double quote: the error `invalid JSON string`, the receiver keeping its
value. -/
theorem UnmarshalJSON_invalid_JSON_string {θ : Type} (lib : TimeLib θ) (t : θ)
    (data : String) (first : Char) (rest : List Char) (hdata : data.data = first :: rest)
    (hq : first ≠ '"' ∨ (first :: rest).getLast? ≠ some '"') :
    Time.UnmarshalJSON lib t data = .returned t (some (.text "invalid JSON string")) := by
  unfold Time.UnmarshalJSON
  rw [hdata]
  simp only [hq, if_true]

/-- C23, at its failing inputs and elsewhere. On the empty input `Time.UnmarshalJSON`
panics at `data[0]`, and on the input of the one byte `"` it panics at `s[1 : len(s)-1]`;
on every other input it returns, with nil or with an error. -/
theorem UnmarshalJSON_panics_on_short_input {θ : Type} (lib : TimeLib θ) (t : θ) :
    Time.UnmarshalJSON lib t "" = .panicked ∧
    Time.UnmarshalJSON lib t "\"" = .panicked ∧
    ∀ data : String, data ≠ "" → data ≠ "\"" →
      ∃ t1 err, Time.UnmarshalJSON lib t data = .returned t1 err := by
  refine ⟨rfl, rfl, ?_⟩
  intro data h0 h1
  unfold Time.UnmarshalJSON
  cases hd : data.data with
  | nil =>
    exact absurd (show data = "" from String.ext hd) h0
  | cons first rest =>
    simp only
    by_cases hq : first ≠ '"' ∨ (first :: rest).getLast? ≠ some '"'
    · exact ⟨t, _, by rw [if_pos hq]⟩
    · rw [if_neg hq]
      by_cases hr : rest = []
      · have hf : first = '"' := by
          by_contra hne
          exact hq (Or.inl hne)
        subst hr
        subst hf
        exact absurd (show data = "\"" from String.ext hd) h1
      · rw [if_neg hr]
        cases lib.UnmarshalJSON data with
        | some tm => exact ⟨tm, none, rfl⟩
        | none =>
          cases lib.Parse "2006-01-02 15:04:05Z07:00" ⟨rest.dropLast⟩ with
          | some tm => exact ⟨tm, none, rfl⟩
          | none =>
            cases lib.Parse "2006-01-02T15:04:05" ⟨rest.dropLast⟩ with
            | some tm => exact ⟨tm, none, rfl⟩
            | none =>
              cases lib.Parse "2006-01-02T15:04:05-07:00" ⟨rest.dropLast⟩ with
              | some tm => exact ⟨tm, none, rfl⟩
              | none => exact ⟨t, _, rfl⟩

/-- A member whose value makes its field return an error ends the decoding of the object
with an error. -/
theorem storeMembers_abort {τ : Type} (fields : List (FieldDecoder τ))
    (fieldStack : List String) (key : String) (v : Json) (f : FieldDecoder τ)
    (hf : findField fields (unquote key) = some f)
    (hab : ∀ (st : List String) (t : τ) (s : Option LibError), (f.store st v t s).err ≠ none) :
    ∀ (members : List (String × Json)) (t : τ) (savedError : Option LibError),
      (key, v) ∈ members → (storeMembers fields fieldStack members t savedError).err ≠ none := by
  intro members
  induction members with
  | nil => intro t s h; simp at h
  | cons m members ih =>
    intro t s h
    obtain ⟨k1, v1⟩ := m
    rw [storeMembers]
    rcases List.mem_cons.mp h with heq | htail
    · have hk : k1 = key := (Prod.mk.inj heq).1.symm
      have hv : v1 = v := (Prod.mk.inj heq).2.symm
      subst hk
      subst hv
      simp only [hf]
      have := hab (fieldStack ++ [f.name]) t s
      cases hr : (f.store (fieldStack ++ [f.name]) v1 t s).err with
      | none => exact absurd hr this
      | some e => simp [hr]
    · cases hfind : findField fields (unquote k1) with
      | none => simp only; exact ih t s htail
      | some f1 =>
        simp only
        cases hr : (f1.store (fieldStack ++ [f1.name]) v1 t s).err with
        | none => simp only; exact ih _ _ htail
        | some e => simp [hr]

/-- C24. For every input that is not empty and whose first or last byte is not a double
quote, `Time.UnmarshalJSON` returns the error `invalid JSON string` and leaves the receiver
as it was; so it does for the literal `null` and for every input that begins with a digit
or a minus sign.  Hence, when a response with status 200 or 202 has as its body an object
whose member `Transaction` is an object with a member `TransactionDate` of value `null`,
the call of `invokeEndpoint` that `ChangePassword` makes returns an error that is not
nil. -/
theorem UnmarshalJSON_rejects_unquoted {θ υ : Type} (lib : TimeLib θ) (t : θ)
    (data : String) (first : Char) (rest : List Char) (hdata : data.data = first :: rest)
    (hq : first ≠ '"' ∨ (first :: rest).getLast? ≠ some '"') :
    Time.UnmarshalJSON lib t data = .returned t (some (.text "invalid JSON string")) ∧
    Time.UnmarshalJSON lib t "null" = .returned t (some (.text "invalid JSON string")) ∧
    (first.isDigit = true ∨ first = '-' →
      Time.UnmarshalJSON lib t data = .returned t (some (.text "invalid JSON string"))) ∧
    ∀ (parseURL : String → Except LibError υ) (defaultClient : HttpClient LibError υ)
      (zeroTime : θ) (cfg : nsHTTPClient LibError υ)
      (httpClient : HttpClient LibError υ) (ctx : Option Context)
      (request : ChangePasswordSubmitRequestMessage) (req : Request υ)
      (resp : Response LibError) (outer inner : List (String × Json)),
      cfg.httpClient = some httpClient →
      buildRequest (changePasswordEnv lib parseURL defaultClient) cfg ctx "POST"
        "/changepassword" (some request) = .ok req →
      httpClient.Do req = .ok resp →
      (resp.statusCode = 200 ∨ resp.statusCode = 202) →
      readValue resp.body = .ok (.object outer) →
      ("Transaction", Json.object inner) ∈ outer →
      ("TransactionDate", Json.null) ∈ inner →
      ∃ e, (ChangePassword (changePasswordEnv lib parseURL defaultClient) zeroTime cfg ctx
        request).2 = .returned (some (.lib e)) := by
  have hmain := UnmarshalJSON_invalid_JSON_string lib t data first rest hdata hq
  refine ⟨hmain, UnmarshalJSON_invalid_JSON_string lib t "null" 'n' ['u', 'l', 'l'] rfl
    (Or.inl (by decide)), fun _ => hmain, ?_⟩
  intro parseURL defaultClient zeroTime cfg httpClient ctx request req resp outer inner
    hclient hreq hdo hstatus hbody houter hinner
  have hst : ¬(resp.statusCode ≠ 200 ∧ resp.statusCode ≠ 202) := by
    rcases hstatus with h | h <;> simp [h]
  have hT : findField (ChangePasswordSubmitResponseMessage.fields lib)
      (unquote "Transaction") =
      some { name := "Transaction",
             store := storeField (fun r => r.Transaction)
               (fun r t => { r with Transaction := t })
               (decodeObject (Transaction.fields lib)) } := rfl
  have hD : findField (Transaction.fields lib) (unquote "TransactionDate") =
      some { name := "TransactionDate",
             store := storeField (fun t => t.TransactionDate)
               (fun t d => { t with TransactionDate := d }) (decodeTime lib) } := rfl
  have hdate : ∀ (st : List String) (x : Transaction θ) (s : Option LibError),
      ((storeField (fun t => t.TransactionDate)
        (fun t d => { t with TransactionDate := d }) (decodeTime lib)) st .null x s).err ≠
        none := by
    intro st x s
    have hn := UnmarshalJSON_invalid_JSON_string lib x.TransactionDate "null" 'n'
      ['u', 'l', 'l'] rfl (Or.inl (by decide))
    have hl : Json.null.literal = some "null" := rfl
    simp only [storeField, decodeTime, hl, hn]
    simp
  have htrans : ∀ (st : List String) (x : ChangePasswordSubmitResponseMessage θ)
      (s : Option LibError),
      ((storeField (fun r => r.Transaction) (fun r t => { r with Transaction := t })
        (decodeObject (Transaction.fields lib))) st (.object inner) x s).err ≠ none := by
    intro st x s
    simp only [storeField, decodeObject]
    exact storeMembers_abort (Transaction.fields lib) st "TransactionDate" .null _ hD hdate
      inner _ _ hinner
  have hstore := storeMembers_abort (ChangePasswordSubmitResponseMessage.fields lib) []
    "Transaction" (.object inner) _ hT htrans outer
    (ChangePasswordSubmitResponseMessage.zero zeroTime) none houter
  obtain ⟨e, he⟩ := Option.ne_none_iff_exists'.mp hstore
  refine ⟨e, ?_⟩
  have hdec : ((changePasswordEnv lib parseURL defaultClient).decode resp.body
      (ChangePasswordSubmitResponseMessage.zero zeroTime)).2 = some e := by
    simp only [changePasswordEnv, apiEnv, decodeStruct, hbody, decodeObject, Stored.result, he]
  simp only [ChangePassword, invokeEndpoint, hreq, hclient, hdo, hst, if_false, hdec,
    Option.map_some']

/-- A number is rejected as not a JSON string, and a response whose `TransactionDate` is
`null` makes `ChangePassword` return that error. -/
theorem UnmarshalJSON_rejects_unquoted_witness :
    Time.UnmarshalJSON goTime dateTime "20210102" =
      .returned dateTime (some (.text "invalid JSON string")) ∧
    (∃ e, (ChangePassword testChangePasswordEnv GoTime.zero
        (New testChangePasswordEnv "https://example.com/api" "acme" "1234!"
          [WithHTTPClient (some (serverClient 200 nullDateBody))])
        (some background) { NewPassword := "short" }).2 = .returned (some (.lib e))) ∧
    (ChangePassword testChangePasswordEnv GoTime.zero
        (New testChangePasswordEnv "https://example.com/api" "acme" "1234!"
          [WithHTTPClient (some (serverClient 200 nullDateBody))])
        (some background) { NewPassword := "short" }).2 =
      .returned (some (.lib (.text "invalid JSON string"))) :=
  have h := @UnmarshalJSON_rejects_unquoted GoTime String goTime dateTime "20210102" '2'
    ['0', '2', '1', '0', '1', '0', '2'] rfl (Or.inl (by decide))
  ⟨h.1,
   h.2.2.2 testParseURL (serverClient 200 "\x7b\x7d") GoTime.zero
     (New testChangePasswordEnv "https://example.com/api" "acme" "1234!"
       [WithHTTPClient (some (serverClient 200 nullDateBody))])
     (serverClient 200 nullDateBody) (some background) { NewPassword := "short" }
     { ctx := background, method := "POST", url := "https://example.com/api/changepassword",
       header := [("Content-Type", ["application/json"]), ("Username", ["acme"]),
         ("Password", ["1234!"])],
       body := "\x7b\"NewPassword\":\"short\"\x7d" }
     { statusCode := 200, body := { data := nullDateBody, err := none } }
     [("Transaction", .object [("TransactionId", .string "x"), ("TransactionDate", .null)])]
     [("TransactionId", .string "x"), ("TransactionDate", .null)]
     rfl (by rfl) rfl (Or.inl rfl) (by rfl) (by simp) (by simp),
   by rfl⟩

/-! ## Texts with a percent sign -/

/-- A digit is not a percent sign. -/
theorem isDigit_ne_percent {c : Char} (h : c.isDigit = true) : c ≠ '%' := by
  intro hc
  rw [hc] at h
  exact absurd h (by decide)

/-- A run of characters that has a value is made of digits. -/
theorem digitsValue_isDigit (s : List Char) :
    ∀ (n v : Nat), digitsValue s n = some v → ∀ c ∈ s, c.isDigit = true := by
  induction s with
  | nil => intro n v _ c hc; simp at hc
  | cons a s ih =>
    intro n v h c hc
    rw [digitsValue] at h
    by_cases ha : a.isDigit = true
    · simp only [ha, if_true] at h
      rcases List.mem_cons.mp hc with rfl | hm
      · exact ha
      · exact ih _ v h c hm
    · simp [ha] at h

/-- A run of characters that `parseUint` accepts holds no percent sign. -/
theorem parseUint_no_percent (s : List Char) (lo hi v : Nat) (h : parseUint s lo hi = some v) :
    '%' ∉ s := by
  unfold parseUint at h
  cases hd : digitsValue s 0 with
  | none => simp [hd] at h
  | some x =>
    intro hm
    exact isDigit_ne_percent (digitsValue_isDigit s 0 x hd _ hm) rfl

/-- What `getnum` reads is made of digits. -/
theorem getnum_consumed (s : List Char) (isFixed : Bool) (n : Nat) (rest : List Char)
    (h : getnum s isFixed = some (n, rest)) :
    ∃ consumed, s = consumed ++ rest ∧ '%' ∉ consumed := by
  unfold getnum at h
  cases s with
  | nil => simp at h
  | cons a s =>
    simp only at h
    by_cases ha : a.isDigit = true
    · have hap : a ≠ '%' := isDigit_ne_percent ha
      simp only [ha, Bool.not_true, Bool.false_eq_true, if_false] at h
      cases s with
      | nil =>
        simp only at h
        cases isFixed with
        | true => simp at h
        | false =>
          simp only [Bool.false_eq_true, if_false, Option.some.injEq, Prod.mk.injEq] at h
          exact ⟨[a], by simp [← h.2], by simp [Ne.symm hap]⟩
      | cons b s =>
        simp only at h
        by_cases hb : b.isDigit = true
        · simp only [hb, if_true, Option.some.injEq, Prod.mk.injEq] at h
          exact ⟨[a, b], by simp [← h.2],
            by simp [Ne.symm hap, Ne.symm (isDigit_ne_percent hb)]⟩
        · simp only [hb, Bool.false_eq_true, if_false] at h
          cases isFixed with
          | true => simp at h
          | false =>
            simp only [Bool.false_eq_true, if_false, Option.some.injEq, Prod.mk.injEq] at h
            exact ⟨[a], by simp [← h.2], by simp [Ne.symm hap]⟩
    · simp [ha] at h

/-- What `skip` passes over is made of the characters of the layout text and of spaces. -/
theorem skip_consumed (text : List Char) (hp : '%' ∉ text) :
    ∀ (inSpaces : Bool) (value rest : List Char), skip inSpaces text value = some rest →
      ∃ consumed, value = consumed ++ rest ∧ '%' ∉ consumed := by
  induction text with
  | nil =>
    intro b value rest h
    simp only [skip, Option.some.injEq] at h
    exact ⟨[], by simp [h], by simp⟩
  | cons p text ih =>
    intro b value rest h
    have hp' : '%' ∉ text := fun hm => hp (List.mem_cons_of_mem _ hm)
    have hpp : '%' ≠ p := fun he => hp (he ▸ List.mem_cons_self _ _)
    unfold skip at h
    by_cases hs : p = ' '
    · simp only [hs, if_true] at h
      cases b with
      | true =>
        simp only [if_true] at h
        exact ih hp' true value rest h
      | false =>
        simp only [Bool.false_eq_true, if_false] at h
        cases value with
        | nil =>
          simp only at h
          exact ih hp' true [] rest h
        | cons v vs =>
          simp only at h
          by_cases hv : v = ' '
          · simp only [hv, ne_eq, not_true_eq_false, if_false] at h
            obtain ⟨consumed, hc, hn⟩ := ih hp' true _ rest h
            refine ⟨(' ' :: vs).takeWhile (fun c => c = ' ') ++ consumed, ?_, ?_⟩
            · rw [List.append_assoc, ← hc, hv, List.takeWhile_append_dropWhile]
            · intro hm
              rcases List.mem_append.mp hm with h1 | h1
              · have := List.mem_takeWhile_imp h1
                simp at this
              · exact hn h1
          · simp [hv] at h
    · simp only [hs, if_false] at h
      cases value with
      | nil => simp at h
      | cons v vs =>
        simp only at h
        by_cases hv : v = p
        · simp only [hv, if_true] at h
          obtain ⟨consumed, hc, hn⟩ := ih hp' false vs rest h
          refine ⟨p :: consumed, by rw [hv, hc]; rfl, ?_⟩
          intro hm
          rcases List.mem_cons.mp hm with h1 | h1
          · exact hpp h1
          · exact hn h1
        · simp [hv] at h

/-- What is read as a fractional second is a period or a comma and digits. -/
theorem optionalFraction_consumed (allowComma : Bool) (value : List Char) :
    ∃ consumed, value = consumed ++ (optionalFraction allowComma value).2 ∧
      '%' ∉ consumed := by
  unfold optionalFraction
  split
  · rename_i sep d rest
    split
    · rename_i hcond
      refine ⟨sep :: (d :: rest).takeWhile Char.isDigit, ?_, ?_⟩
      · simp only [parseFraction, List.cons_append, List.takeWhile_append_dropWhile]
      · intro hm
        rcases List.mem_cons.mp hm with h1 | h1
        · rcases hcond.1 with hs | hs
          · rw [hs] at h1
            exact absurd h1 (by decide)
          · rw [hs.2] at h1
            exact absurd h1 (by decide)
        · have := List.mem_takeWhile_imp h1
          exact isDigit_ne_percent this rfl
    · exact ⟨[], by simp, by simp⟩
  · exact ⟨[], by simp, by simp⟩

/-- What is read as a zone is `Z`, or a sign, digits and a colon. -/
theorem parseZone_consumed (allowZ : Bool) (value : List Char) (offset : Int)
    (rest : List Char) (h : parseZone allowZ value = some (offset, rest)) :
    ∃ consumed, value = consumed ++ rest ∧ '%' ∉ consumed := by
  unfold parseZone at h
  split at h
  · rename_i rest'
    split at h
    · simp only [Option.some.injEq, Prod.mk.injEq] at h
      exact ⟨['Z'], by simp [h.2], by decide⟩
    · simp at h
  · rename_i sign h1 h2 colon m1 m2 rest' _
    split at h
    · simp at h
    · rename_i hcolon
      have hc : colon = ':' := by
        by_contra hne
        exact hcolon hne
      split at h
      · rename_i hr r1 mm r2 hg1 hg2
        obtain ⟨c1, hc1, hn1⟩ := getnum_consumed _ _ _ _ hg1
        obtain ⟨c2, hc2, hn2⟩ := getnum_consumed _ _ _ _ hg2
        have hh1 : h1 ≠ '%' ∧ h2 ≠ '%' := by
          unfold getnum at hg1
          simp only at hg1
          by_cases ha : h1.isDigit = true
          · by_cases hb : h2.isDigit = true
            · exact ⟨isDigit_ne_percent ha, isDigit_ne_percent hb⟩
            · simp [ha, hb] at hg1
          · simp [ha] at hg1
        have hm1 : m1 ≠ '%' ∧ m2 ≠ '%' := by
          unfold getnum at hg2
          simp only at hg2
          by_cases ha : m1.isDigit = true
          · by_cases hb : m2.isDigit = true
            · exact ⟨isDigit_ne_percent ha, isDigit_ne_percent hb⟩
            · simp [ha, hb] at hg2
          · simp [ha] at hg2
        split at h
        · simp at h
        · split at h
          · rename_i hsign
            simp only [Option.some.injEq, Prod.mk.injEq] at h
            refine ⟨[sign, h1, h2, colon, m1, m2], by simp [h.2], ?_⟩
            rw [hsign, hc]
            simp [Ne.symm hh1.1, Ne.symm hh1.2, Ne.symm hm1.1, Ne.symm hm1.2]
          · split at h
            · rename_i hsign
              simp only [Option.some.injEq, Prod.mk.injEq] at h
              refine ⟨[sign, h1, h2, colon, m1, m2], by simp [h.2], ?_⟩
              rw [hsign, hc]
              simp [Ne.symm hh1.1, Ne.symm hh1.2, Ne.symm hm1.1, Ne.symm hm1.2]
            · simp at h
      · simp at h
  · simp at h

/-- What one element of a layout reads holds no percent sign, when the literal text of the
layout holds none. -/
theorem parseChunk_consumed (chunk : Chunk) (hlit : ∀ text, chunk = .literal text → '%' ∉ text)
    (p p1 : Parsed) (value rest : List Char) (h : parseChunk chunk p value = some (p1, rest)) :
    ∃ consumed, value = consumed ++ rest ∧ '%' ∉ consumed := by
  cases chunk with
  | literal text =>
    simp only [parseChunk, Option.map_eq_some'] at h
    obtain ⟨v, hv, he⟩ := h
    have : v = rest := (Prod.mk.inj he).2
    subst this
    exact skip_consumed text (hlit text rfl) false value v hv
  | longYear =>
    unfold parseChunk at h
    simp only at h
    split at h
    · rename_i a b c d rest'
      split at h
      · simp at h
      · simp only [Option.map_eq_some'] at h
        obtain ⟨y, hy, he⟩ := h
        have hr : rest' = rest := (Prod.mk.inj he).2
        subst hr
        have hd := digitsValue_isDigit [a, b, c, d] 0 y hy
        refine ⟨[a, b, c, d], by simp, ?_⟩
        intro hm
        exact isDigit_ne_percent (hd _ hm) rfl
    · simp at h
  | zeroMonth =>
    unfold parseChunk at h
    simp only at h
    split at h
    · rename_i m rest' hg
      split at h
      · simp at h
      · simp only [Option.some.injEq, Prod.mk.injEq] at h
        rw [← h.2]
        exact getnum_consumed _ _ _ _ hg
    · simp at h
  | zeroDay =>
    unfold parseChunk at h
    simp only at h
    split at h
    · rename_i m rest' hg
      simp only [Option.some.injEq, Prod.mk.injEq] at h
      rw [← h.2]
      exact getnum_consumed _ _ _ _ hg
    · simp at h
  | hour =>
    unfold parseChunk at h
    simp only at h
    split at h
    · rename_i m rest' hg
      split at h
      · simp at h
      · simp only [Option.some.injEq, Prod.mk.injEq] at h
        rw [← h.2]
        exact getnum_consumed _ _ _ _ hg
    · simp at h
  | zeroMinute =>
    unfold parseChunk at h
    simp only at h
    split at h
    · rename_i m rest' hg
      split at h
      · simp at h
      · simp only [Option.some.injEq, Prod.mk.injEq] at h
        rw [← h.2]
        exact getnum_consumed _ _ _ _ hg
    · simp at h
  | zeroSecond =>
    unfold parseChunk at h
    simp only at h
    split at h
    · rename_i m rest' hg
      split at h
      · simp at h
      · simp only [Option.some.injEq, Prod.mk.injEq] at h
        obtain ⟨c1, hc1, hn1⟩ := getnum_consumed _ _ _ _ hg
        obtain ⟨c2, hc2, hn2⟩ := optionalFraction_consumed true rest'
        refine ⟨c1 ++ c2, ?_, ?_⟩
        · rw [List.append_assoc, ← h.2, ← hc2, ← hc1]
        · intro hm
          rcases List.mem_append.mp hm with h1 | h1
          · exact hn1 h1
          · exact hn2 h1
    · simp at h
  | iso8601ColonTZ =>
    simp only [parseChunk, Option.map_eq_some'] at h
    obtain ⟨r, hr, he⟩ := h
    have hrest : r.2 = rest := (Prod.mk.inj he).2
    rw [← hrest]
    exact parseZone_consumed true value r.1 r.2 hr
  | numColonTZ =>
    simp only [parseChunk, Option.map_eq_some'] at h
    obtain ⟨r, hr, he⟩ := h
    have hrest : r.2 = rest := (Prod.mk.inj he).2
    rw [← hrest]
    exact parseZone_consumed false value r.1 r.2 hr

/-- What the elements of a layout read holds no percent sign, when the literal text of the
layout holds none. -/
theorem parseChunks_consumed (layout : List Chunk)
    (hlit : ∀ text, Chunk.literal text ∈ layout → '%' ∉ text) :
    ∀ (p p1 : Parsed) (value rest : List Char), parseChunks layout p value = some (p1, rest) →
      ∃ consumed, value = consumed ++ rest ∧ '%' ∉ consumed := by
  induction layout with
  | nil =>
    intro p p1 value rest h
    simp only [parseChunks, Option.some.injEq, Prod.mk.injEq] at h
    exact ⟨[], by simp [h.2], by simp⟩
  | cons chunk layout ih =>
    intro p p1 value rest h
    rw [parseChunks] at h
    cases hc : parseChunk chunk p value with
    | none => simp [hc] at h
    | some r =>
      obtain ⟨p2, v2⟩ := r
      simp only [hc] at h
      obtain ⟨c1, hc1, hn1⟩ := parseChunk_consumed chunk
        (fun text ht => hlit text (ht ▸ List.mem_cons_self _ _)) p p2 value v2 hc
      obtain ⟨c2, hc2, hn2⟩ := ih (fun text ht => hlit text (List.mem_cons_of_mem _ ht))
        p2 p1 v2 rest h
      refine ⟨c1 ++ c2, by rw [List.append_assoc, ← hc2, ← hc1], ?_⟩
      intro hm
      rcases List.mem_append.mp hm with h1 | h1
      · exact hn1 h1
      · exact hn2 h1

/-- The function `time.Parse` rejects every value with a percent sign, for each layout of
`time.go`. -/
theorem timeParse_percent (layout value : String) (h : '%' ∈ value.data) :
    timeParse layout value = none := by
  have hlayout : ∀ chunks : List Chunk, (∀ text, Chunk.literal text ∈ chunks → '%' ∉ text) →
      parseLayout chunks value = none := by
    intro chunks hlit
    unfold parseLayout
    cases hp : parseChunks chunks Parsed.initial value.data with
    | none => rfl
    | some r =>
      obtain ⟨p, rest⟩ := r
      cases rest with
      | nil =>
        obtain ⟨consumed, hc, hn⟩ := parseChunks_consumed chunks hlit _ _ _ _ hp
        rw [List.append_nil] at hc
        rw [hc] at h
        exact absurd h hn
      | cons c rest => rfl
  have hdt : ∀ (sep : Char) (more : List Chunk), sep ≠ '%' →
      (∀ text, Chunk.literal text ∈ more → '%' ∉ text) →
      ∀ text, Chunk.literal text ∈ dateTimeChunks sep ++ more → '%' ∉ text := by
    intro sep more hsep hmore text hm
    rcases List.mem_append.mp hm with h1 | h1
    · simp only [dateTimeChunks, List.mem_cons, Chunk.literal.injEq, List.mem_singleton,
        List.not_mem_nil, or_false, false_or, reduceCtorEq] at h1
      rcases h1 with h2 | h2 | h2 | h2 | h2 <;> subst h2 <;>
        simp [Ne.symm hsep]
    · exact hmore text h1
  unfold timeParse layoutChunks
  split
  · rename_i chunks hch
    split at hch
    · rw [← Option.some.inj hch]
      exact hlayout _ (hdt 'T' _ (by decide) (by simp))
    · split at hch
      · rw [← Option.some.inj hch]
        exact hlayout _ (hdt ' ' _ (by decide) (by simp))
      · split at hch
        · rw [← Option.some.inj hch]
          have := hdt 'T' [] (by decide) (by simp)
          rw [List.append_nil] at this
          exact hlayout _ this
        · split at hch
          · rw [← Option.some.inj hch]
            exact hlayout _ (hdt 'T' _ (by decide) (by simp))
          · simp at hch
  · rfl

/-- A zone the fast path accepts holds no percent sign. -/
theorem parseZoneRFC3339_no_percent (s : List Char) (offset : Int)
    (h : parseZoneRFC3339 s = some offset) : '%' ∉ s := by
  unfold parseZoneRFC3339 at h
  split at h
  · decide
  · rename_i sign h1 h2 colon m1 m2
    split at h
    · rename_i hr mm hp1 hp2
      have hn1 := parseUint_no_percent _ _ _ _ hp1
      have hn2 := parseUint_no_percent _ _ _ _ hp2
      split at h
      · simp at h
      · rename_i hcolon
        have hc : colon = ':' := by
          by_contra hne
          exact hcolon hne
        have hsign : sign = '+' ∨ sign = '-' := by
          by_cases hs : sign = '+'
          · exact Or.inl hs
          · by_cases hs2 : sign = '-'
            · exact Or.inr hs2
            · simp [hs, hs2] at h
        intro hm
        simp only [List.mem_cons, List.mem_singleton, List.not_mem_nil, or_false] at hm
        rcases hm with h0 | h0 | h0 | h0 | h0 | h0
        · rcases hsign with hs | hs <;> rw [hs] at h0 <;> exact absurd h0 (by decide)
        · exact hn1 (by rw [← h0]; simp)
        · exact hn1 (by rw [← h0]; simp)
        · rw [hc] at h0
          exact absurd h0 (by decide)
        · exact hn2 (by rw [← h0]; simp)
        · exact hn2 (by rw [← h0]; simp)
    · simp at h
  · simp at h

/-- A text the fast path accepts holds no percent sign. -/
theorem parseRFC3339_no_percent (s : List Char) (t : GoTime) (h : parseRFC3339 s = some t) :
    '%' ∉ s := by
  unfold parseRFC3339 at h
  split at h
  · rename_i y1 y2 y3 y4 c1 m1 m2 c2 d1 d2 cT h1 h2 c3 n1 n2 c4 s1 s2 rest
    split at h
    · rename_i year month hpy hpm
      split at h
      · rename_i day hour minute second hpd hph hpn hps
        have hny := parseUint_no_percent _ _ _ _ hpy
        have hnm := parseUint_no_percent _ _ _ _ hpm
        have hnd := parseUint_no_percent _ _ _ _ hpd
        have hnh := parseUint_no_percent _ _ _ _ hph
        have hnn := parseUint_no_percent _ _ _ _ hpn
        have hns := parseUint_no_percent _ _ _ _ hps
        split at h
        · rename_i hsep
          obtain ⟨e1, e2, eT, e3, e4⟩ := hsep
          split at h
          · rename_i offset hz
            have hnz := parseZoneRFC3339_no_percent _ _ hz
            obtain ⟨consumed, hc, hnc⟩ := optionalFraction_consumed false rest
            intro hm
            simp only [List.mem_cons] at hm
            rcases hm with h0 | h0 | h0 | h0 | h0 | h0 | h0 | h0 | h0 | h0 | h0 | h0 | h0 |
              h0 | h0 | h0 | h0 | h0 | h0 | h0
            · exact hny (by rw [← h0]; simp)
            · exact hny (by rw [← h0]; simp)
            · exact hny (by rw [← h0]; simp)
            · exact hny (by rw [← h0]; simp)
            · rw [e1] at h0; exact absurd h0 (by decide)
            · exact hnm (by rw [← h0]; simp)
            · exact hnm (by rw [← h0]; simp)
            · rw [e2] at h0; exact absurd h0 (by decide)
            · exact hnd (by rw [← h0]; simp)
            · exact hnd (by rw [← h0]; simp)
            · rw [eT] at h0; exact absurd h0 (by decide)
            · exact hnh (by rw [← h0]; simp)
            · exact hnh (by rw [← h0]; simp)
            · rw [e3] at h0; exact absurd h0 (by decide)
            · exact hnn (by rw [← h0]; simp)
            · exact hnn (by rw [← h0]; simp)
            · rw [e4] at h0; exact absurd h0 (by decide)
            · exact hns (by rw [← h0]; simp)
            · exact hns (by rw [← h0]; simp)
            · rw [hc] at h0
              rcases List.mem_append.mp h0 with h5 | h5
              · exact hnc h5
              · exact hnz h5
          · simp at h
        · simp at h
      · simp at h
    · simp at h
  · simp at h

/-- The first parser of `Time.UnmarshalJSON` rejects every text with a percent sign. -/
theorem parseStrictRFC3339_percent (text : List Char) (h : '%' ∈ text) :
    parseStrictRFC3339 ⟨text⟩ = none := by
  unfold parseStrictRFC3339
  cases hp : parseRFC3339 text with
  | some t => exact absurd h (parseRFC3339_no_percent text t hp)
  | none => exact timeParse_percent _ ⟨text⟩ h

/-- The result of `Time.UnmarshalJSON` on an input with a percent sign: an error fixed by
the input, the receiver keeping its value. -/
theorem UnmarshalJSON_percent (data : String) (h : '%' ∈ data.data) :
    (∀ t : GoTime, Time.UnmarshalJSON goTime t data =
      .returned t (some (.text "invalid JSON string"))) ∨
    (∀ t : GoTime, Time.UnmarshalJSON goTime t data =
      .returned t (some (.text "invalid time format"))) := by
  cases hd : data.data with
  | nil =>
    rw [hd] at h
    simp at h
  | cons first rest =>
    by_cases hq : first ≠ '"' ∨ (first :: rest).getLast? ≠ some '"'
    · exact Or.inl (fun t => UnmarshalJSON_invalid_JSON_string goTime t data first rest hd hq)
    · right
      have hf : first = '"' := by
        by_contra hne
        exact hq (Or.inl hne)
      have hl : (first :: rest).getLast? = some '"' := by
        by_contra hne
        exact hq (Or.inr hne)
      subst hf
      have hrest : rest ≠ [] := by
        intro hr
        rw [hd, hr] at h
        simp at h
      have hlr : rest.getLast? = some '"' := by
        cases rest with
        | nil => exact absurd rfl hrest
        | cons a rest => rw [List.getLast?_cons_cons] at hl; exact hl
      have hsplit : rest.dropLast ++ ['"'] = rest :=
        List.dropLast_append_getLast? '"' (by rw [hlr]; rfl)
      have hdata : data = quoted rest.dropLast :=
        String.ext (by rw [hd, quoted_data, hsplit])
      have hmem : '%' ∈ rest.dropLast := by
        rw [hd, ← hsplit] at h
        simp only [List.mem_cons, List.mem_append, List.mem_singleton, List.not_mem_nil,
          or_false] at h
        rcases h with h0 | h0 | h0
        · exact absurd h0 (by decide)
        · exact h0
        · exact absurd h0 (by decide)
      intro t
      rw [hdata, UnmarshalJSON_quoted, goTime_UnmarshalJSON, timeUnmarshalJSON_quoted,
        parseStrictRFC3339_percent _ hmem, goTime_Parse, goTime_Parse, goTime_Parse,
        timeParse_percent _ _ hmem, timeParse_percent _ _ hmem, timeParse_percent _ _ hmem]

/-- The receiver enters the result of `Time.UnmarshalJSON` only as the value that stays
when an error is returned: a call on another receiver accepts the same inputs with the
same time, rejects the same inputs with the same error and panics on the same inputs. -/
theorem UnmarshalJSON_receiver {θ : Type} (lib : TimeLib θ) (data : String) (t1 t2 : θ) :
    (∀ tm, Time.UnmarshalJSON lib t1 data = .returned tm none →
      Time.UnmarshalJSON lib t2 data = .returned tm none) ∧
    (∀ tm e, Time.UnmarshalJSON lib t1 data = .returned tm (some e) →
      tm = t1 ∧ Time.UnmarshalJSON lib t2 data = .returned t2 (some e)) ∧
    (Time.UnmarshalJSON lib t1 data = .panicked →
      Time.UnmarshalJSON lib t2 data = .panicked) := by
  unfold Time.UnmarshalJSON
  cases data.data with
  | nil => simp
  | cons first rest =>
    simp only
    by_cases hq : first ≠ '"' ∨ (first :: rest).getLast? ≠ some '"'
    · rw [if_pos hq, if_pos hq]
      refine ⟨fun tm h => by simp at h, fun tm e h => ?_, fun h => by simp at h⟩
      simp only [Unmarshaled.returned.injEq, Option.some.injEq] at h
      exact ⟨h.1.symm, by rw [h.2]⟩
    · rw [if_neg hq, if_neg hq]
      by_cases hr : rest = []
      · rw [if_pos hr, if_pos hr]
        simp
      · rw [if_neg hr, if_neg hr]
        cases lib.UnmarshalJSON data with
        | some a => simp
        | none =>
          cases lib.Parse "2006-01-02 15:04:05Z07:00" ⟨rest.dropLast⟩ with
          | some a => simp
          | none =>
            cases lib.Parse "2006-01-02T15:04:05" ⟨rest.dropLast⟩ with
            | some a => simp
            | none =>
              cases lib.Parse "2006-01-02T15:04:05-07:00" ⟨rest.dropLast⟩ with
              | some a => simp
              | none =>
                refine ⟨fun tm h => by simp at h, fun tm e h => ?_, fun h => by simp at h⟩
                simp only [Unmarshaled.returned.injEq, Option.some.injEq] at h
                exact ⟨h.1.symm, by rw [h.2]⟩

/-- C22. The method `Time.UnmarshalJSON` decodes no percent escapes, and nothing but the
bytes of the input decides its result: every input with a percent sign is rejected, with an
error that the input fixes and a receiver that keeps its value; and for every input the
time decoded, the error returned and a panic are the same whatever the receiver holds.  The
regular expression `timeRegexp` is no argument of the method and enters nowhere. -/
theorem UnmarshalJSON_percent_rejected (data : String) (h : '%' ∈ data.data) :
    (∃ e, ∀ t : GoTime, Time.UnmarshalJSON goTime t data = .returned t (some e)) ∧
    ∀ (d : String) (t1 t2 : GoTime),
      (∀ tm, Time.UnmarshalJSON goTime t1 d = .returned tm none →
        Time.UnmarshalJSON goTime t2 d = .returned tm none) ∧
      (∀ tm e, Time.UnmarshalJSON goTime t1 d = .returned tm (some e) →
        tm = t1 ∧ Time.UnmarshalJSON goTime t2 d = .returned t2 (some e)) ∧
      (Time.UnmarshalJSON goTime t1 d = .panicked →
        Time.UnmarshalJSON goTime t2 d = .panicked) := by
  refine ⟨?_, fun d t1 t2 => UnmarshalJSON_receiver goTime d t1 t2⟩
  rcases UnmarshalJSON_percent data h with h1 | h1
  · exact ⟨_, h1⟩
  · exact ⟨_, h1⟩

/-- The text `2021-01-02T03%3A04%3A05` is rejected, while the text it would be after
percent-decoding, `2021-01-02T03:04:05`, is accepted. -/
theorem UnmarshalJSON_percent_rejected_witness :
    (∃ e, ∀ t : GoTime, Time.UnmarshalJSON goTime t "\"2021-01-02T03%3A04%3A05\"" =
      .returned t (some e)) ∧
    Time.UnmarshalJSON goTime dateTime "\"2021-01-02T03%3A04%3A05\"" =
      .returned dateTime (some (.text "invalid time format")) ∧
    Time.UnmarshalJSON goTime dateTime "\"2021-01-02T03:04:05\"" =
      .returned { year := 2021, month := 1, day := 2, hour := 3, minute := 4, second := 5,
                  nanosecond := 0, offset := 0 } none :=
  ⟨(UnmarshalJSON_percent_rejected "\"2021-01-02T03%3A04%3A05\"" (by decide)).1,
   by rfl, by rfl⟩

/-! ## JSON strings and numerals under the decoder and the encoder -/

/-- The function `unquote` on a text that begins with a well-formed piece: the character
the piece stands for, then the rest. -/
theorem unquoteChars_piece (p : StringPiece) (hp : p.WellFormed) (rest : List Char) :
    unquoteChars none (p.text ++ rest) = p.denotes :: unquoteChars none rest := by
  cases p with
  | char c =>
    obtain ⟨-, hb, -⟩ := hp
    simp only [StringPiece.text, StringPiece.denotes, List.singleton_append]
    rw [unquoteChars]
    · rfl
    all_goals (intros; simp_all)
  | escape e =>
    simp only [StringPiece.WellFormed, List.mem_cons, List.mem_singleton, List.not_mem_nil,
      or_false] at hp
    rcases hp with h | h | h | h | h | h | h | h <;> subst h <;> rfl
  | unicode a b c d =>
    obtain ⟨-, hs⟩ := hp
    simp only [StringPiece.text, StringPiece.denotes, List.cons_append, List.nil_append]
    rw [unquoteChars]
    have h1 : ¬(0xD800 ≤ getu4 a b c d ∧ getu4 a b c d < 0xDC00) := by omega
    have h2 : ¬(0xDC00 ≤ getu4 a b c d ∧ getu4 a b c d < 0xE000) := by omega
    simp only [h1, h2, if_false]
  | pair a b c d e f g h =>
    obtain ⟨-, -, hhi, hlo⟩ := hp
    simp only [StringPiece.text, StringPiece.denotes, List.cons_append, List.nil_append]
    rw [unquoteChars]
    simp only [hhi, and_self, if_true]
    rw [unquoteChars]
    simp only [hlo, and_self, if_true]
    have hx : (getu4 a b c d - 0xD800) * 1024 + (getu4 e f g h - 0xDC00) + 0x10000 =
        0x10000 + (getu4 a b c d - 0xD800) * 0x400 + (getu4 e f g h - 0xDC00) := by omega
    rw [hx]

/-- The function `unquote` on the text of well-formed pieces: the characters they stand
for. -/
theorem unquote_pieces (pieces : List StringPiece) (s : String)
    (h : StringPieces pieces s) :
    unquote ⟨pieces.flatMap StringPiece.text⟩ = s := by
  obtain ⟨hwf, hs⟩ := h
  have key : ∀ ps : List StringPiece, (∀ p ∈ ps, p.WellFormed) →
      unquoteChars none (ps.flatMap StringPiece.text) = ps.map StringPiece.denotes := by
    intro ps
    induction ps with
    | nil => intro _; rfl
    | cons p ps ih =>
      intro hps
      rw [List.flatMap_cons, unquoteChars_piece p (hps p (List.mem_cons_self _ _)),
        ih (fun q hq => hps q (List.mem_cons_of_mem _ hq)), List.map_cons]
  unfold unquote
  rw [key pieces hwf, hs]

/-- The hexadecimal digit characters that `encodeState.string` writes. -/
theorem hexValue_digitChar {d : Nat} (h : d < 16) :
    hexValue (Nat.digitChar d) = d ∧ isHex (Nat.digitChar d) = true := by
  interval_cases d <;> exact ⟨by rfl, by rfl⟩

/-- What `encodeState.string` writes for a character is the text of a well-formed piece
that stands for the character. -/
theorem encodeRune_piece (c : Char) :
    ∃ p : StringPiece, p.WellFormed ∧ p.denotes = c ∧ encodeRune c = p.text := by
  unfold encodeRune
  by_cases h128 : c.toNat < 128
  · rw [if_pos h128]
    by_cases h1 : c = '\\' ∨ c = '"'
    · rw [if_pos h1]
      refine ⟨.escape c, ?_, ?_, rfl⟩
      · rcases h1 with h | h <;> subst h <;> simp [StringPiece.WellFormed]
      · rcases h1 with h | h <;> subst h <;> rfl
    · rw [if_neg h1]
      by_cases h8 : c.toNat = 8
      · rw [if_pos h8]
        exact ⟨.escape 'b', by simp [StringPiece.WellFormed],
          by rw [← Char.ofNat_toNat c, h8]; rfl, rfl⟩
      · rw [if_neg h8]
        by_cases h12 : c.toNat = 12
        · rw [if_pos h12]
          exact ⟨.escape 'f', by simp [StringPiece.WellFormed],
            by rw [← Char.ofNat_toNat c, h12]; rfl, rfl⟩
        · rw [if_neg h12]
          by_cases hn : c = '\n'
          · rw [if_pos hn]
            exact ⟨.escape 'n', by simp [StringPiece.WellFormed], by rw [hn]; rfl, rfl⟩
          · rw [if_neg hn]
            by_cases hr : c = '\r'
            · rw [if_pos hr]
              exact ⟨.escape 'r', by simp [StringPiece.WellFormed], by rw [hr]; rfl, rfl⟩
            · rw [if_neg hr]
              by_cases ht : c = '\t'
              · rw [if_pos ht]
                exact ⟨.escape 't', by simp [StringPiece.WellFormed], by rw [ht]; rfl, rfl⟩
              · rw [if_neg ht]
                by_cases hu : c.toNat < 32 ∨ c = '<' ∨ c = '>' ∨ c = '&'
                · rw [if_pos hu]
                  have hq : c.toNat / 16 < 16 := by omega
                  have hm : c.toNat % 16 < 16 := by omega
                  have hv : getu4 '0' '0' (Nat.digitChar (c.toNat / 16))
                      (Nat.digitChar (c.toNat % 16)) = c.toNat := by
                    unfold getu4
                    rw [(hexValue_digitChar hq).1, (hexValue_digitChar hm).1]
                    have h0 : hexValue '0' = 0 := by rfl
                    rw [h0]
                    omega
                  refine ⟨.unicode '0' '0' (Nat.digitChar (c.toNat / 16))
                    (Nat.digitChar (c.toNat % 16)), ?_, ?_, rfl⟩
                  · refine ⟨⟨by rfl, by rfl, (hexValue_digitChar hq).2,
                      (hexValue_digitChar hm).2⟩, ?_⟩
                    rw [hv]
                    omega
                  · show Char.ofNat _ = c
                    rw [hv, Char.ofNat_toNat]
                · rw [if_neg hu]
                  refine ⟨.char c, ⟨fun h => h1 (Or.inr h), fun h => h1 (Or.inl h), ?_⟩,
                    rfl, rfl⟩
                  omega
  · rw [if_neg h128]
    by_cases hls : c.toNat = 0x2028 ∨ c.toNat = 0x2029
    · rw [if_pos hls]
      have hm : c.toNat % 16 < 16 := by omega
      have hv : getu4 '2' '0' '2' (Nat.digitChar (c.toNat % 16)) = c.toNat := by
        unfold getu4
        rw [(hexValue_digitChar hm).1]
        have h0 : hexValue '0' = 0 := by rfl
        have h2 : hexValue '2' = 2 := by rfl
        rw [h0, h2]
        omega
      refine ⟨.unicode '2' '0' '2' (Nat.digitChar (c.toNat % 16)), ?_, ?_, rfl⟩
      · refine ⟨⟨by rfl, by rfl, by rfl, (hexValue_digitChar hm).2⟩, ?_⟩
        rw [hv]
        omega
      · show Char.ofNat _ = c
        rw [hv, Char.ofNat_toNat]
    · rw [if_neg hls]
      refine ⟨.char c, ⟨?_, ?_, by omega⟩, rfl, rfl⟩
      · intro h
        rw [h] at h128
        exact h128 (by decide)
      · intro h
        rw [h] at h128
        exact h128 (by decide)

/-- What `json.Marshal` writes for a Go string: between two quotes, the text of well-formed
pieces that stand for the characters of the string. -/
theorem encodeString_pieces (s : String) :
    ∃ pieces, StringPieces pieces s ∧
      encodeString s = ⟨'"' :: pieces.flatMap StringPiece.text ++ ['"']⟩ := by
  have key : ∀ cs : List Char, ∃ pieces : List StringPiece,
      (∀ p ∈ pieces, p.WellFormed) ∧ pieces.map StringPiece.denotes = cs ∧
      cs.flatMap encodeRune = pieces.flatMap StringPiece.text := by
    intro cs
    induction cs with
    | nil => exact ⟨[], by simp, rfl, rfl⟩
    | cons c cs ih =>
      obtain ⟨ps, hwf, hd, ht⟩ := ih
      obtain ⟨p, hp, hpd, hpt⟩ := encodeRune_piece c
      refine ⟨p :: ps, ?_, ?_, ?_⟩
      · intro q hq
        rcases List.mem_cons.mp hq with h | h
        · rw [h]; exact hp
        · exact hwf q h
      · rw [List.map_cons, hpd, hd]
      · rw [List.flatMap_cons, List.flatMap_cons, hpt, ht]
  obtain ⟨pieces, hwf, hd, ht⟩ := key s.data
  exact ⟨pieces, ⟨hwf, hd⟩, by unfold encodeString; rw [ht]⟩

/-- The function `parseDigits` on digit characters: the digits are taken in, most
significant first. -/
theorem parseDigits_digitChars (ds : List Nat) (hds : ∀ d ∈ ds, d < 10) (n : Nat) :
    parseDigits (ds.map Nat.digitChar) n = some (ds.foldl (fun acc d => 10 * acc + d) n) := by
  induction ds generalizing n with
  | nil => rfl
  | cons d ds ih =>
    have hd : d < 10 := hds d (List.mem_cons_self _ _)
    have hv : (Nat.digitChar d).toNat - 48 = d := digitValue_digitChar hd
    simp only [List.map_cons, parseDigits, digitChar_isDigit hd, if_true, hv, List.foldl_cons]
    exact ih (fun x hx => hds x (List.mem_cons_of_mem _ hx)) _

/-- The function `parseDigits` on a decimal numeral: the number it was made from. -/
theorem parseDigits_toDigits (m : Nat) : parseDigits (Nat.toDigits 10 m) 0 = some m := by
  rw [toDigits_eq_digits]
  by_cases h0 : m = 0
  · subst h0; rfl
  · rw [if_neg h0, parseDigits_digitChars _ (fun d hd =>
      Nat.digits_lt_base (by norm_num) (List.mem_reverse.mp hd))]
    congr 1
    rw [List.foldl_reverse]
    conv_rhs => rw [← Nat.ofDigits_digits 10 m]
    rw [Nat.ofDigits_eq_foldr]
    simp only [Nat.cast_id]
    congr 1
    funext d acc
    omega

/-- A decimal numeral does not begin with a minus sign. -/
theorem toDigits_head (m : Nat) :
    ∃ c cs, Nat.toDigits 10 m = c :: cs ∧ c ≠ '-' := by
  cases h : Nat.toDigits 10 m with
  | nil =>
    have := parseDigits_toDigits m
    rw [h] at this
    have h0 : m = 0 := by simpa [parseDigits] using this.symm
    subst h0
    exact absurd h (by decide)
  | cons c cs =>
    refine ⟨c, cs, rfl, ?_⟩
    obtain ⟨d, hd, hc⟩ := toDigits_mem m c (by rw [h]; exact List.mem_cons_self _ _)
    rw [hc]
    exact (digitChar_ne_colon hd).2

/-- The call `strconv.ParseInt` on the decimal numeral of a number below `2 ^ 63`. -/
theorem parseInt64_repr (m : Nat) (h : m < 2 ^ 63) :
    parseInt64 (Nat.repr m) = some (m : Int) := by
  obtain ⟨c, cs, hcs, hc⟩ := toDigits_head m
  have hdata : (Nat.repr m).data = c :: cs := hcs
  have hp := parseDigits_toDigits m
  rw [hcs] at hp
  unfold parseInt64
  rw [hdata]
  split
  · rename_i heq
    simp only [List.cons.injEq] at heq
    exact absurd heq.1 hc
  · rename_i heq
    rw [hp]
    simp only [h, if_true]

/-- The call `strconv.ParseInt` on a minus sign and the decimal numeral of a number up to
`2 ^ 63`. -/
theorem parseInt64_neg_repr (m : Nat) (h : m ≤ 2 ^ 63) :
    parseInt64 ("-" ++ Nat.repr m) = some (-(m : Int)) := by
  have hdata : ("-" ++ Nat.repr m).data = '-' :: Nat.toDigits 10 m := rfl
  unfold parseInt64
  rw [hdata]
  simp only [parseDigits_toDigits, h, if_true]

/-! ## Objects written for a struct, under `decodeState.object` -/

/-- The loop of `decodeState.object` stores the first member and, unless that returned an
error, goes on with the others. -/
theorem storeMembers_cons {τ : Type} (fields : List (FieldDecoder τ))
    (fieldStack : List String) (m : String × Json) (members : List (String × Json)) (t : τ)
    (savedError : Option LibError) :
    storeMembers fields fieldStack (m :: members) t savedError =
      match (storeMembers fields fieldStack [m] t savedError).err with
      | some _ => storeMembers fields fieldStack [m] t savedError
      | none =>
        storeMembers fields fieldStack members
          (storeMembers fields fieldStack [m] t savedError).value
          (storeMembers fields fieldStack [m] t savedError).savedError := by
  obtain ⟨key, v⟩ := m
  simp only [storeMembers]
  cases findField fields (unquote key) with
  | none => rfl
  | some f =>
    simp only
    cases hr : (f.store (fieldStack ++ [f.name]) v t savedError).err with
    | none => simp only [hr]
    | some e => simp only [hr]

/-- A member whose key selects no field is skipped. -/
theorem storeMembers_skipped {τ : Type} (fields : List (FieldDecoder τ))
    (fieldStack : List String) (m : String × Json) (t : τ) (savedError : Option LibError)
    (h : selectedField fields m.1 = none) :
    storeMembers fields fieldStack [m] t savedError =
      { value := t, savedError := savedError, err := none } := by
  obtain ⟨key, v⟩ := m
  simp only [selectedField, Option.map_eq_none'] at h
  simp only [storeMembers, h]

/-- A member whose key selects a field is stored by the decoder of a field of that name. -/
theorem storeMembers_selected {τ : Type} (fields : List (FieldDecoder τ))
    (fieldStack : List String) (m : String × Json) (t : τ) (savedError : Option LibError)
    (name : String) (h : selectedField fields m.1 = some name) :
    ∃ f ∈ fields, f.name = name ∧
      storeMembers fields fieldStack [m] t savedError =
        match (f.store (fieldStack ++ [name]) m.2 t savedError).err with
        | some _ => f.store (fieldStack ++ [name]) m.2 t savedError
        | none =>
          { value := (f.store (fieldStack ++ [name]) m.2 t savedError).value,
            savedError := (f.store (fieldStack ++ [name]) m.2 t savedError).savedError,
            err := none } := by
  obtain ⟨key, v⟩ := m
  simp only [selectedField, Option.map_eq_some'] at h
  obtain ⟨f, hf, hname⟩ := h
  refine ⟨f, ?_, hname, ?_⟩
  · unfold findField at hf
    split at hf
    · rename_i g hg
      simp only [Option.some.injEq] at hf
      rw [← hf]
      exact List.mem_of_find?_eq_some hg
    · exact List.mem_of_find?_eq_some hf
  · simp only [storeMembers, hf, hname]

/-- When every member is stored without an error, returned or saved, so is the object. -/
theorem storeMembers_accepted {τ : Type} (fields : List (FieldDecoder τ))
    (fieldStack : List String) (savedError : Option LibError)
    (members : List (String × Json))
    (h : ∀ m ∈ members, ∀ t,
      (storeMembers fields fieldStack [m] t savedError).err = none ∧
      (storeMembers fields fieldStack [m] t savedError).savedError = savedError) (t : τ) :
    (storeMembers fields fieldStack members t savedError).err = none ∧
    (storeMembers fields fieldStack members t savedError).savedError = savedError := by
  induction members generalizing t with
  | nil => exact ⟨rfl, rfl⟩
  | cons m members ih =>
    obtain ⟨he, hs⟩ := h m (List.mem_cons_self _ _) t
    rw [storeMembers_cons, he]
    simp only
    rw [hs]
    exact ih (fun n hn => h n (List.mem_cons_of_mem _ hn)) _

/-- What no member changes, the object leaves as it was. -/
theorem storeMembers_untouched {τ α : Type} (fields : List (FieldDecoder τ))
    (fieldStack : List String) (savedError : Option LibError) (get : τ → α)
    (members : List (String × Json))
    (h : ∀ m ∈ members, ∀ t,
      (storeMembers fields fieldStack [m] t savedError).err = none ∧
      (storeMembers fields fieldStack [m] t savedError).savedError = savedError ∧
      get (storeMembers fields fieldStack [m] t savedError).value = get t) (t : τ) :
    get (storeMembers fields fieldStack members t savedError).value = get t := by
  induction members generalizing t with
  | nil => rfl
  | cons m members ih =>
    obtain ⟨he, hs, hg⟩ := h m (List.mem_cons_self _ _) t
    rw [storeMembers_cons, he]
    simp only
    rw [hs, ih (fun n hn => h n (List.mem_cons_of_mem _ hn)) _, hg]

/-- The member that selects a field is the one whose value is written for the field. -/
theorem FieldWritten_selected {τ α : Type} (fields : List (FieldDecoder τ))
    (members : List (String × Json)) (name : String) (Written : Json → α → Prop)
    (zero a : α) (honce : SelectOnce fields members)
    (hw : FieldWritten fields members name Written zero a) (m : String × Json)
    (hm : m ∈ members) (hsel : selectedField fields m.1 = some name) : Written m.2 a := by
  rcases hw with ⟨n, hn, hnsel, hnw⟩ | ⟨hnone, -⟩
  · by_cases hmn : m = n
    · rw [hmn]; exact hnw
    · have hsymm : Symmetric (fun m n : String × Json =>
          selectedField fields m.1 = selectedField fields n.1 →
            selectedField fields m.1 = none) := by
        intro x y hxy hyx
        rw [hyx]
        exact hxy hyx.symm
      have := List.Pairwise.forall hsymm honce hm hn hmn (by rw [hsel, hnsel])
      rw [hsel] at this
      exact absurd this (by simp)
  · exact absurd hsel (hnone m hm)

/-- The field that the members of an object written for a struct give: when every member
is stored without an error, a member that does not select the field leaves it alone, and
the member that selects it stores the value written there into a fresh field, then a fresh
field holds that value after the object is stored. -/
theorem storeMembers_field {τ α : Type} (fields : List (FieldDecoder τ))
    (fieldStack : List String) (savedError : Option LibError) (name : String)
    (get : τ → α) (Written : Json → α → Prop) (zero a : α)
    (members : List (String × Json))
    (hacc : ∀ m ∈ members, ∀ t,
      (storeMembers fields fieldStack [m] t savedError).err = none ∧
      (storeMembers fields fieldStack [m] t savedError).savedError = savedError)
    (hother : ∀ m ∈ members, selectedField fields m.1 ≠ some name → ∀ t,
      get (storeMembers fields fieldStack [m] t savedError).value = get t)
    (hthis : ∀ m ∈ members, selectedField fields m.1 = some name → Written m.2 a →
      ∀ t, get t = zero → get (storeMembers fields fieldStack [m] t savedError).value = a)
    (honce : SelectOnce fields members)
    (hw : FieldWritten fields members name Written zero a) (t : τ) (ht : get t = zero) :
    get (storeMembers fields fieldStack members t savedError).value = a := by
  induction members generalizing t with
  | nil =>
    rcases hw with ⟨n, hn, -⟩ | ⟨-, ha⟩
    · exact absurd hn (List.not_mem_nil _)
    · rw [ha]; exact ht
  | cons m members ih =>
    obtain ⟨he, hs⟩ := hacc m (List.mem_cons_self _ _) t
    have hrel := List.pairwise_cons.mp honce
    rw [storeMembers_cons, he]
    simp only
    rw [hs]
    by_cases hsel : selectedField fields m.1 = some name
    · have hwm := FieldWritten_selected fields _ name Written zero a honce hw m
        (List.mem_cons_self _ _) hsel
      rw [storeMembers_untouched fields fieldStack savedError get members]
      · exact hthis m (List.mem_cons_self _ _) hsel hwm t ht
      · intro n hn t'
        obtain ⟨he', hs'⟩ := hacc n (List.mem_cons_of_mem _ hn) t'
        refine ⟨he', hs', hother n (List.mem_cons_of_mem _ hn) ?_ t'⟩
        intro hnsel
        have := hrel.1 n hn (by rw [hsel, hnsel])
        rw [hsel] at this
        exact absurd this (by simp)
    · apply ih (fun n hn => hacc n (List.mem_cons_of_mem _ hn))
        (fun n hn => hother n (List.mem_cons_of_mem _ hn))
        (fun n hn => hthis n (List.mem_cons_of_mem _ hn)) hrel.2
      · rcases hw with ⟨n, hn, hnsel, hnw⟩ | ⟨hnone, ha⟩
        · rcases List.mem_cons.mp hn with h | h
          · rw [h] at hnsel; exact absurd hnsel hsel
          · exact Or.inl ⟨n, h, hnsel, hnw⟩
        · exact Or.inr ⟨fun n hn => hnone n (List.mem_cons_of_mem _ hn), ha⟩
      · rw [hother m (List.mem_cons_self _ _) hsel t]
        exact ht

/-! ## The values of `transaction.go` under the decoder -/

/-- A member of an object written for a `TransactionError`, stored into any element: no
error is returned or saved, a field the member does not select stays, and a fresh field the
member selects gets the value written there. -/
theorem TransactionError_member (fieldStack : List String) (savedError : Option LibError)
    (members : List (String × Json)) (e : TransactionError)
    (honce : SelectOnce TransactionError.fields members)
    (hid : FieldWritten TransactionError.fields members "ErrorID" Int64Written 0 e.ErrorID)
    (hmsg : FieldWritten TransactionError.fields members "ErrorMessage" StringWritten ""
      e.ErrorMessage)
    (m : String × Json) (hm : m ∈ members) (t : TransactionError) :
    ∃ after, storeMembers TransactionError.fields fieldStack [m] t savedError =
        { value := after, savedError := savedError, err := none } ∧
      (selectedField TransactionError.fields m.1 ≠ some "ErrorID" →
        after.ErrorID = t.ErrorID) ∧
      (selectedField TransactionError.fields m.1 = some "ErrorID" → t.ErrorID = 0 →
        after.ErrorID = e.ErrorID) ∧
      (selectedField TransactionError.fields m.1 ≠ some "ErrorMessage" →
        after.ErrorMessage = t.ErrorMessage) ∧
      (selectedField TransactionError.fields m.1 = some "ErrorMessage" →
        t.ErrorMessage = "" → after.ErrorMessage = e.ErrorMessage) := by
  cases hsel : selectedField TransactionError.fields m.1 with
  | none =>
    exact ⟨t, storeMembers_skipped _ _ _ _ _ hsel, by simp⟩
  | some name =>
    obtain ⟨f, hf, hname, heq⟩ :=
      storeMembers_selected _ fieldStack m t savedError name hsel
    simp only [TransactionError.fields, List.mem_cons, List.mem_singleton,
      List.not_mem_nil, or_false] at hf
    rcases hf with rfl | rfl
    · simp only at hname
      subst hname
      have hw := FieldWritten_selected _ _ _ _ _ _ honce hid m hm hsel
      rcases hw with ⟨hv, hn⟩ | ⟨k, hk, hn, hv⟩ | ⟨k, hk, hn, hv⟩
      · rw [hv] at heq
        exact ⟨t, by simpa [storeInt64] using heq, by simp [hn]⟩
      · rw [hv] at heq
        exact ⟨{ t with ErrorID := e.ErrorID },
          by simpa [storeInt64, parseInt64_repr k hk, hn] using heq, by simp⟩
      · rw [hv] at heq
        exact ⟨{ t with ErrorID := e.ErrorID },
          by simpa [storeInt64, parseInt64_neg_repr k hk, hn] using heq, by simp⟩
    · simp only at hname
      subst hname
      have hw := FieldWritten_selected _ _ _ _ _ _ honce hmsg m hm hsel
      rcases hw with ⟨hv, hn⟩ | ⟨pieces, hp, hv⟩
      · rw [hv] at heq
        exact ⟨t, by simpa [storeString] using heq, by simp [hn]⟩
      · rw [hv] at heq
        exact ⟨{ t with ErrorMessage := e.ErrorMessage },
          by simpa [storeString, unquote_pieces pieces _ hp] using heq, by simp⟩

/-- A value written for a `TransactionError`, decoded into any element: no error is
returned or saved; decoded into a zero element, it gives the `TransactionError`. -/
theorem TransactionError_decodes (fieldStack : List String) (savedError : Option LibError)
    (v : Json) (e : TransactionError) (h : TransactionErrorWritten v e) :
    (∀ t, (decodeObject TransactionError.fields fieldStack v t savedError).err = none ∧
      (decodeObject TransactionError.fields fieldStack v t savedError).savedError =
        savedError) ∧
    (decodeObject TransactionError.fields fieldStack v { ErrorID := 0, ErrorMessage := "" }
      savedError).value = e := by
  obtain ⟨members, hv, honce, hid, hmsg⟩ := h
  subst hv
  have hmember := TransactionError_member fieldStack savedError members e honce hid hmsg
  have hacc : ∀ m ∈ members, ∀ t,
      (storeMembers TransactionError.fields fieldStack [m] t savedError).err = none ∧
      (storeMembers TransactionError.fields fieldStack [m] t savedError).savedError =
        savedError := by
    intro m hm t
    obtain ⟨after, heq, -⟩ := hmember m hm t
    rw [heq]
    exact ⟨rfl, rfl⟩
  refine ⟨fun t => storeMembers_accepted _ _ _ _ hacc t, ?_⟩
  have h1 := storeMembers_field TransactionError.fields fieldStack savedError "ErrorID"
    (fun t => t.ErrorID) Int64Written 0 e.ErrorID members hacc
    (fun m hm hsel t => by
      obtain ⟨after, heq, h, -⟩ := hmember m hm t
      rw [heq]; exact h hsel)
    (fun m hm hsel _ t ht => by
      obtain ⟨after, heq, -, h, -⟩ := hmember m hm t
      rw [heq]; exact h hsel ht)
    honce hid { ErrorID := 0, ErrorMessage := "" } rfl
  have h2 := storeMembers_field TransactionError.fields fieldStack savedError "ErrorMessage"
    (fun t => t.ErrorMessage) StringWritten "" e.ErrorMessage members hacc
    (fun m hm hsel t => by
      obtain ⟨after, heq, -, -, h, -⟩ := hmember m hm t
      rw [heq]; exact h hsel)
    (fun m hm hsel _ t ht => by
      obtain ⟨after, heq, -, -, -, h⟩ := hmember m hm t
      rw [heq]; exact h hsel ht)
    honce hmsg { ErrorID := 0, ErrorMessage := "" } rfl
  show (storeMembers TransactionError.fields fieldStack members _ savedError).value = e
  cases e
  cases hr : (storeMembers TransactionError.fields fieldStack members
    { ErrorID := 0, ErrorMessage := "" } savedError).value
  rw [hr] at h1 h2
  simp only at h1 h2
  rw [h1, h2]

/-- An array written for a slice of `TransactionError`, stored over any elements: no error
is returned or saved; stored into a slice without elements, it gives the slice. -/
theorem storeElements_TransactionError (fieldStack : List String)
    (savedError : Option LibError) (items : List Json) (list : List TransactionError)
    (h : List.Forall₂ TransactionErrorWritten items list) :
    (∀ old, (storeElements { ErrorID := 0, ErrorMessage := "" }
        (decodeObject TransactionError.fields) fieldStack items old savedError).err = none ∧
      (storeElements { ErrorID := 0, ErrorMessage := "" }
        (decodeObject TransactionError.fields) fieldStack items old savedError).savedError =
        savedError) ∧
    (storeElements { ErrorID := 0, ErrorMessage := "" }
      (decodeObject TransactionError.fields) fieldStack items [] savedError).value = list := by
  induction items generalizing list with
  | nil =>
    cases h
    exact ⟨fun old => ⟨rfl, rfl⟩, rfl⟩
  | cons v items ih =>
    cases h with
    | cons hve hrest =>
      rename_i e list
      obtain ⟨hacc, hval⟩ := TransactionError_decodes fieldStack savedError v e hve
      obtain ⟨ih1, ih2⟩ := ih list hrest
      refine ⟨fun old => ?_, ?_⟩
      · obtain ⟨he, hs⟩ := hacc (old.headD { ErrorID := 0, ErrorMessage := "" })
        simp only [storeElements, he, hs]
        exact ih1 old.tail
      · obtain ⟨he, hs⟩ := hacc { ErrorID := 0, ErrorMessage := "" }
        simp only [storeElements, List.headD_nil, he, hs, List.tail_nil, hval, ih2]

/-- A member of an object written for a `Transaction`, stored into any `Transaction`: no
error is returned or saved, a field the member does not select stays, and a fresh field the
member selects gets the value written there. -/
theorem Transaction_member {θ : Type} (lib : TimeLib θ) (zeroTime : θ)
    (fieldStack : List String) (savedError : Option LibError)
    (members : List (String × Json)) (tx : Transaction θ)
    (honce : SelectOnce (Transaction.fields lib) members)
    (hid : FieldWritten (Transaction.fields lib) members "TransactionId" StringWritten ""
      tx.TransactionID)
    (hdate : FieldWritten (Transaction.fields lib) members "TransactionDate"
      (TimeWritten lib zeroTime) zeroTime tx.TransactionDate)
    (hcomment : FieldWritten (Transaction.fields lib) members "TransactionComment"
      StringWritten "" tx.TransactionComment)
    (hflag : FieldWritten (Transaction.fields lib) members "TransactionSuccessFlag"
      BoolWritten false tx.TransactionSuccessFlag)
    (herrors : FieldWritten (Transaction.fields lib) members "TransactionErrors"
      TransactionErrorsWritten none tx.TransactionErrors)
    (m : String × Json) (hm : m ∈ members) (t : Transaction θ) :
    ∃ after, storeMembers (Transaction.fields lib) fieldStack [m] t savedError =
        { value := after, savedError := savedError, err := none } ∧
      ((selectedField (Transaction.fields lib) m.1 ≠ some "TransactionId" →
          after.TransactionID = t.TransactionID) ∧
        (selectedField (Transaction.fields lib) m.1 = some "TransactionId" →
          t.TransactionID = "" → after.TransactionID = tx.TransactionID)) ∧
      ((selectedField (Transaction.fields lib) m.1 ≠ some "TransactionDate" →
          after.TransactionDate = t.TransactionDate) ∧
        (selectedField (Transaction.fields lib) m.1 = some "TransactionDate" →
          t.TransactionDate = zeroTime → after.TransactionDate = tx.TransactionDate)) ∧
      ((selectedField (Transaction.fields lib) m.1 ≠ some "TransactionComment" →
          after.TransactionComment = t.TransactionComment) ∧
        (selectedField (Transaction.fields lib) m.1 = some "TransactionComment" →
          t.TransactionComment = "" → after.TransactionComment = tx.TransactionComment)) ∧
      ((selectedField (Transaction.fields lib) m.1 ≠ some "TransactionSuccessFlag" →
          after.TransactionSuccessFlag = t.TransactionSuccessFlag) ∧
        (selectedField (Transaction.fields lib) m.1 = some "TransactionSuccessFlag" →
          t.TransactionSuccessFlag = false →
          after.TransactionSuccessFlag = tx.TransactionSuccessFlag)) ∧
      ((selectedField (Transaction.fields lib) m.1 ≠ some "TransactionErrors" →
          after.TransactionErrors = t.TransactionErrors) ∧
        (selectedField (Transaction.fields lib) m.1 = some "TransactionErrors" →
          t.TransactionErrors = none →
          after.TransactionErrors = tx.TransactionErrors)) := by
  cases hsel : selectedField (Transaction.fields lib) m.1 with
  | none =>
    exact ⟨t, storeMembers_skipped _ _ _ _ _ hsel, by simp⟩
  | some name =>
    obtain ⟨f, hf, hname, heq⟩ :=
      storeMembers_selected _ fieldStack m t savedError name hsel
    simp only [Transaction.fields, List.mem_cons, List.mem_singleton,
      List.not_mem_nil, or_false] at hf
    rcases hf with rfl | rfl | rfl | rfl | rfl
    · simp only at hname
      subst hname
      have hw := FieldWritten_selected _ _ _ _ _ _ honce hid m hm hsel
      rcases hw with ⟨hv, hn⟩ | ⟨pieces, hp, hv⟩
      · rw [hv] at heq
        exact ⟨t, by simpa [storeString] using heq, by simp [hn]⟩
      · rw [hv] at heq
        exact ⟨{ t with TransactionID := tx.TransactionID },
          by simpa [storeString, unquote_pieces pieces _ hp] using heq, by simp⟩
    · simp only at hname
      subst hname
      have hw := FieldWritten_selected _ _ _ _ _ _ honce hdate m hm hsel
      obtain ⟨raw, hv, hu⟩ := hw
      have hu' := (UnmarshalJSON_receiver lib (quoted raw.data) zeroTime
        t.TransactionDate).1 _ hu
      have hlit : (Json.string raw).literal = some (quoted raw.data) := rfl
      rw [hv] at heq
      exact ⟨{ t with TransactionDate := tx.TransactionDate },
        by simpa [storeField, decodeTime, hlit, hu'] using heq, by simp⟩
    · simp only at hname
      subst hname
      have hw := FieldWritten_selected _ _ _ _ _ _ honce hcomment m hm hsel
      rcases hw with ⟨hv, hn⟩ | ⟨pieces, hp, hv⟩
      · rw [hv] at heq
        exact ⟨t, by simpa [storeString] using heq, by simp [hn]⟩
      · rw [hv] at heq
        exact ⟨{ t with TransactionComment := tx.TransactionComment },
          by simpa [storeString, unquote_pieces pieces _ hp] using heq, by simp⟩
    · simp only at hname
      subst hname
      have hw := FieldWritten_selected _ _ _ _ _ _ honce hflag m hm hsel
      rcases hw with ⟨hv, hn⟩ | hv
      · rw [hv] at heq
        exact ⟨t, by simpa [storeBool] using heq, by simp [hn]⟩
      · rw [hv] at heq
        exact ⟨{ t with TransactionSuccessFlag := tx.TransactionSuccessFlag },
          by simpa [storeBool] using heq, by simp⟩
    · simp only at hname
      subst hname
      have hw := FieldWritten_selected _ _ _ _ _ _ honce herrors m hm hsel
      rcases hw with ⟨hv, hn⟩ | ⟨items, list, hv, hn, hitems⟩
      · rw [hv] at heq
        exact ⟨{ t with TransactionErrors := none },
          by simpa [storeField, decodeSlice] using heq, by simp [hn]⟩
      · rw [hv] at heq
        obtain ⟨hacc, hval⟩ := storeElements_TransactionError
          (fieldStack ++ ["TransactionErrors"]) savedError items list hitems
        obtain ⟨he, hs⟩ := hacc (t.TransactionErrors.getD [])
        refine ⟨{ t with TransactionErrors := some (storeElements
          { ErrorID := 0, ErrorMessage := "" } (decodeObject TransactionError.fields)
          (fieldStack ++ ["TransactionErrors"]) items (t.TransactionErrors.getD [])
          savedError).value },
          by simpa [storeField, decodeSlice, he, hs] using heq, ?_⟩
        refine ⟨by simp, by simp, by simp, by simp, by simp, ?_⟩
        intro _ ht
        simp only [ht, Option.getD_none, hval, hn]

/-- A value written for a `Transaction`, decoded into any `Transaction`: no error is
returned or saved; decoded into the zero `Transaction`, it gives the `Transaction`. -/
theorem Transaction_decodes {θ : Type} (lib : TimeLib θ) (zeroTime : θ)
    (fieldStack : List String) (savedError : Option LibError) (v : Json)
    (tx : Transaction θ) (h : TransactionWritten lib zeroTime v tx) :
    (∀ t, (decodeObject (Transaction.fields lib) fieldStack v t savedError).err = none ∧
      (decodeObject (Transaction.fields lib) fieldStack v t savedError).savedError =
        savedError) ∧
    (decodeObject (Transaction.fields lib) fieldStack v
      (ChangePasswordSubmitResponseMessage.zero zeroTime).Transaction savedError).value =
        tx := by
  obtain ⟨members, hv, honce, hid, hdate, hcomment, hflag, herrors⟩ := h
  subst hv
  have hmember := Transaction_member lib zeroTime fieldStack savedError members tx honce
    hid hdate hcomment hflag herrors
  have hacc : ∀ m ∈ members, ∀ t,
      (storeMembers (Transaction.fields lib) fieldStack [m] t savedError).err = none ∧
      (storeMembers (Transaction.fields lib) fieldStack [m] t savedError).savedError =
        savedError := by
    intro m hm t
    obtain ⟨after, heq, -⟩ := hmember m hm t
    rw [heq]
    exact ⟨rfl, rfl⟩
  refine ⟨fun t => storeMembers_accepted _ _ _ _ hacc t, ?_⟩
  have h1 := storeMembers_field (Transaction.fields lib) fieldStack savedError
    "TransactionId" (fun t => t.TransactionID) StringWritten "" tx.TransactionID members hacc
    (fun m hm hsel t => by
      obtain ⟨after, heq, h, -⟩ := hmember m hm t
      rw [heq]; exact h.1 hsel)
    (fun m hm hsel _ t ht => by
      obtain ⟨after, heq, h, -⟩ := hmember m hm t
      rw [heq]; exact h.2 hsel ht)
    honce hid (ChangePasswordSubmitResponseMessage.zero zeroTime).Transaction rfl
  have h2 := storeMembers_field (Transaction.fields lib) fieldStack savedError
    "TransactionDate" (fun t => t.TransactionDate) (TimeWritten lib zeroTime) zeroTime
    tx.TransactionDate members hacc
    (fun m hm hsel t => by
      obtain ⟨after, heq, -, h, -⟩ := hmember m hm t
      rw [heq]; exact h.1 hsel)
    (fun m hm hsel _ t ht => by
      obtain ⟨after, heq, -, h, -⟩ := hmember m hm t
      rw [heq]; exact h.2 hsel ht)
    honce hdate (ChangePasswordSubmitResponseMessage.zero zeroTime).Transaction rfl
  have h3 := storeMembers_field (Transaction.fields lib) fieldStack savedError
    "TransactionComment" (fun t => t.TransactionComment) StringWritten ""
    tx.TransactionComment members hacc
    (fun m hm hsel t => by
      obtain ⟨after, heq, -, -, h, -⟩ := hmember m hm t
      rw [heq]; exact h.1 hsel)
    (fun m hm hsel _ t ht => by
      obtain ⟨after, heq, -, -, h, -⟩ := hmember m hm t
      rw [heq]; exact h.2 hsel ht)
    honce hcomment (ChangePasswordSubmitResponseMessage.zero zeroTime).Transaction rfl
  have h4 := storeMembers_field (Transaction.fields lib) fieldStack savedError
    "TransactionSuccessFlag" (fun t => t.TransactionSuccessFlag) BoolWritten false
    tx.TransactionSuccessFlag members hacc
    (fun m hm hsel t => by
      obtain ⟨after, heq, -, -, -, h, -⟩ := hmember m hm t
      rw [heq]; exact h.1 hsel)
    (fun m hm hsel _ t ht => by
      obtain ⟨after, heq, -, -, -, h, -⟩ := hmember m hm t
      rw [heq]; exact h.2 hsel ht)
    honce hflag (ChangePasswordSubmitResponseMessage.zero zeroTime).Transaction rfl
  have h5 := storeMembers_field (Transaction.fields lib) fieldStack savedError
    "TransactionErrors" (fun t => t.TransactionErrors) TransactionErrorsWritten none
    tx.TransactionErrors members hacc
    (fun m hm hsel t => by
      obtain ⟨after, heq, -, -, -, -, h⟩ := hmember m hm t
      rw [heq]; exact h.1 hsel)
    (fun m hm hsel _ t ht => by
      obtain ⟨after, heq, -, -, -, -, h⟩ := hmember m hm t
      rw [heq]; exact h.2 hsel ht)
    honce herrors (ChangePasswordSubmitResponseMessage.zero zeroTime).Transaction rfl
  show (storeMembers (Transaction.fields lib) fieldStack members _ savedError).value = tx
  cases tx
  cases hr : (storeMembers (Transaction.fields lib) fieldStack members
    (ChangePasswordSubmitResponseMessage.zero zeroTime).Transaction savedError).value
  rw [hr] at h1 h2 h3 h4 h5
  simp only at h1 h2 h3 h4 h5
  rw [h1, h2, h3, h4, h5]

/-- A value written for a `ChangePasswordSubmitResponseMessage`, decoded into the zero
response: no error is returned or saved, and the response is the one written. -/
theorem ChangePasswordSubmitResponseMessage_decodes {θ : Type} (lib : TimeLib θ)
    (zeroTime : θ) (v : Json) (response : ChangePasswordSubmitResponseMessage θ)
    (h : ResponseWritten lib zeroTime v response) :
    (decodeObject (ChangePasswordSubmitResponseMessage.fields lib) [] v
      (ChangePasswordSubmitResponseMessage.zero zeroTime) none).result =
        (response, none) := by
  obtain ⟨members, hv, honce, htx⟩ := h
  subst hv
  have hmember : ∀ m ∈ members, ∀ t : ChangePasswordSubmitResponseMessage θ,
      ∃ after, storeMembers (ChangePasswordSubmitResponseMessage.fields lib) [] [m] t
          none = { value := after, savedError := none, err := none } ∧
        (selectedField (ChangePasswordSubmitResponseMessage.fields lib) m.1 ≠
            some "Transaction" → after.Transaction = t.Transaction) ∧
        (selectedField (ChangePasswordSubmitResponseMessage.fields lib) m.1 =
            some "Transaction" →
          t.Transaction = (ChangePasswordSubmitResponseMessage.zero zeroTime).Transaction →
          after.Transaction = response.Transaction) := by
    intro m hm t
    cases hsel : selectedField (ChangePasswordSubmitResponseMessage.fields lib) m.1 with
    | none => exact ⟨t, storeMembers_skipped _ _ _ _ _ hsel, by simp⟩
    | some name =>
      obtain ⟨f, hf, hname, heq⟩ := storeMembers_selected _ [] m t none name hsel
      simp only [ChangePasswordSubmitResponseMessage.fields, List.mem_singleton] at hf
      subst hf
      simp only at hname
      subst hname
      have hw := FieldWritten_selected _ _ _ _ _ _ honce htx m hm hsel
      obtain ⟨hacc, hval⟩ := Transaction_decodes lib zeroTime ["Transaction"] none
        m.2 response.Transaction hw
      obtain ⟨he, hs⟩ := hacc t.Transaction
      refine ⟨{ t with Transaction := (decodeObject (Transaction.fields lib)
        ["Transaction"] m.2 t.Transaction none).value },
        by simpa [storeField, he, hs] using heq, by simp, ?_⟩
      intro _ ht
      simp only [ht, hval]
  have hacc : ∀ m ∈ members, ∀ t,
      (storeMembers (ChangePasswordSubmitResponseMessage.fields lib) [] [m] t none).err =
        none ∧
      (storeMembers (ChangePasswordSubmitResponseMessage.fields lib) [] [m] t
        none).savedError = none := by
    intro m hm t
    obtain ⟨after, heq, -⟩ := hmember m hm t
    rw [heq]
    exact ⟨rfl, rfl⟩
  obtain ⟨he, hs⟩ := storeMembers_accepted _ _ _ _ hacc
    (ChangePasswordSubmitResponseMessage.zero zeroTime)
  have h1 := storeMembers_field (ChangePasswordSubmitResponseMessage.fields lib) [] none
    "Transaction" (fun r => r.Transaction) (TransactionWritten lib zeroTime)
    (ChangePasswordSubmitResponseMessage.zero zeroTime).Transaction response.Transaction
    members hacc
    (fun m hm hsel t => by
      obtain ⟨after, heq, h, -⟩ := hmember m hm t
      rw [heq]; exact h hsel)
    (fun m hm hsel _ t ht => by
      obtain ⟨after, heq, -, h⟩ := hmember m hm t
      rw [heq]; exact h hsel ht)
    honce htx (ChangePasswordSubmitResponseMessage.zero zeroTime) rfl
  show (storeMembers (ChangePasswordSubmitResponseMessage.fields lib) [] members _
    none).result = (response, none)
  unfold Stored.result
  rw [he, hs]
  cases response
  cases hr : (storeMembers (ChangePasswordSubmitResponseMessage.fields lib) [] members
    (ChangePasswordSubmitResponseMessage.zero zeroTime) none).value
  rw [hr] at h1
  simp only at h1
  rw [h1]

/-! ## `ChangePassword` on a delivered body -/

/-- A JSON string without escapes is written for the Go string of the same characters. -/
theorem StringWritten_plain (s : String)
    (h : ∀ c ∈ s.data, c ≠ '"' ∧ c ≠ '\\' ∧ 32 ≤ c.toNat) :
    StringWritten (.string s) s := by
  refine Or.inr ⟨s.data.map .char, ⟨?_, ?_⟩, ?_⟩
  · intro p hp
    obtain ⟨c, hc, rfl⟩ := List.mem_map.mp hp
    exact h c hc
  · rw [List.map_map]
    exact List.map_id _
  · congr 1
    apply String.ext
    show s.data = (s.data.map StringPiece.char).flatMap StringPiece.text
    induction s.data with
    | nil => rfl
    | cons c cs ih => rw [List.map_cons, List.flatMap_cons, ← ih]; rfl

set_option maxRecDepth 100000 in
/-- The body of `Test_ChangePassword_Failed` is written for the response the test
expects. -/
theorem changePasswordFailedJson_written :
    ResponseWritten goTime GoTime.zero changePasswordFailedJson
      { Transaction :=
          { TransactionID := "xfaca386-x034-41x8-90xf-96xd23318348",
            TransactionDate :=
              { year := 2021, month := 8, day := 31, hour := 15, minute := 47, second := 0,
                nanosecond := 265942100, offset := -18000 },
            TransactionComment := "", TransactionSuccessFlag := false,
            TransactionErrors := some [{ ErrorID := 210, ErrorMessage :=
              "Password must be between 8 and 50 characters in length. " }] } } := by
  refine ⟨_, rfl, by decide, Or.inl ⟨_, List.mem_cons_self _ _, by rfl, ?_⟩⟩
  refine ⟨_, rfl, by decide, ?_, ?_, ?_, ?_, ?_⟩
  · exact Or.inl ⟨("TransactionId", .string "xfaca386-x034-41x8-90xf-96xd23318348"),
      by simp, by rfl, StringWritten_plain _ (by decide)⟩
  · exact Or.inl ⟨("TransactionDate", .string "2021-08-31T15:47:00.2659421-05:00"),
      by simp, by rfl, ⟨_, rfl, by rfl⟩⟩
  · exact Or.inl ⟨("TransactionComment", .string ""), by simp, by rfl,
      StringWritten_plain _ (by decide)⟩
  · exact Or.inl ⟨("TransactionSuccessFlag", .bool false), by simp, by rfl, Or.inr rfl⟩
  · refine Or.inl ⟨("TransactionErrors", .array [.object [("ErrorID", .number "210"),
      ("ErrorMessage",
        .string "Password must be between 8 and 50 characters in length. ")]]),
      by simp, by rfl, Or.inr ⟨_, _, rfl, rfl, List.Forall₂.cons ?_ List.Forall₂.nil⟩⟩
    refine ⟨_, rfl, by decide, ?_, ?_⟩
    · exact Or.inl ⟨("ErrorID", .number "210"), by simp, by rfl,
        Or.inr (Or.inl ⟨210, by norm_num, rfl, by rfl⟩)⟩
    · exact Or.inl ⟨("ErrorMessage",
        .string "Password must be between 8 and 50 characters in length. "), by simp,
        by rfl, StringWritten_plain _ (by decide)⟩

set_option maxRecDepth 100000 in
/-- The reordered body is written for a response with the two errors it lists. -/
theorem reorderedFailedJson_written :
    ResponseWritten goTime GoTime.zero reorderedFailedJson
      { Transaction :=
          { TransactionID := "ABC",
            TransactionDate :=
              { year := 2021, month := 8, day := 31, hour := 15, minute := 47, second := 0,
                nanosecond := 0, offset := -18000 },
            TransactionComment := "", TransactionSuccessFlag := false,
            TransactionErrors := some [{ ErrorID := -7, ErrorMessage := "too \"short\"\n" },
              { ErrorID := 210, ErrorMessage := "" }] } } := by
  refine ⟨_, rfl, by decide, Or.inl ⟨_, List.mem_cons_of_mem _ (List.mem_cons_self _ _),
    by rfl, ?_⟩⟩
  refine ⟨_, rfl, by decide, ?_, ?_, ?_, ?_, ?_⟩
  · exact Or.inl ⟨("TransactionId", .string "A\\u0042C"), by simp, by rfl,
      Or.inr ⟨[.char 'A', .unicode '0' '0' '4' '2', .char 'C'], ⟨by decide, by rfl⟩,
        by rfl⟩⟩
  · exact Or.inl ⟨("transactiondate", .string "2021-08-31 15:47:00-05:00"),
      by simp, by rfl, ⟨_, rfl, by rfl⟩⟩
  · exact Or.inl ⟨("TransactionComment", .null), by simp, by rfl, Or.inl ⟨rfl, rfl⟩⟩
  · exact Or.inl ⟨("TransactionSuccessFlag", .bool false), by simp, by rfl, Or.inr rfl⟩
  · refine Or.inl ⟨("TransactionErrors", .array [
      .object [("ErrorMessage", .string "too \\\"short\\\"\\n"),
        ("Detail", .array [.number "1", .number "2"]), ("ErrorID", .number "-7")],
      .object [("ErrorID", .number "210")]]),
      by simp, by rfl, Or.inr ⟨_, _, rfl, rfl,
        List.Forall₂.cons ?_ (List.Forall₂.cons ?_ List.Forall₂.nil)⟩⟩
    · refine ⟨_, rfl, by decide, ?_, ?_⟩
      · exact Or.inl ⟨("ErrorID", .number "-7"), by simp, by rfl,
          Or.inr (Or.inr ⟨7, by norm_num, rfl, by rfl⟩)⟩
      · exact Or.inl ⟨("ErrorMessage", .string "too \\\"short\\\"\\n"), by simp, by rfl,
          Or.inr ⟨[.char 't', .char 'o', .char 'o', .char ' ', .escape '"', .char 's',
            .char 'h', .char 'o', .char 'r', .char 't', .escape '"', .escape 'n'],
            ⟨by decide, by rfl⟩, by rfl⟩⟩
    · refine ⟨_, rfl, by decide, ?_, ?_⟩
      · exact Or.inl ⟨("ErrorID", .number "210"), by simp, by rfl,
          Or.inr (Or.inl ⟨210, by norm_num, rfl, by rfl⟩)⟩
      · exact Or.inr ⟨by decide, rfl⟩

/-- C17. A business failure carried in a delivered body is not a call error.  For every
response of status 200 to the request of `ChangePassword` whose body holds a JSON value
written for a response message with a `Transaction` whose `TransactionSuccessFlag` is
`false` and whose `TransactionErrors` is a list (the members of each object in any order,
among members that select no field, the strings with their escapes), the request was a
`POST` to the base URL followed by `/changepassword` with the body `{"NewPassword":p}`, `p`
being a JSON string that denotes the new password, and `ChangePassword` returns the nil
error and the response written: its `TransactionSuccessFlag` is `false`, its
`TransactionDate` is the time `UnmarshalJSON` of `time.go` gives for the timestamp, and its
`TransactionErrors` are the errors of the body, in order. -/
theorem ChangePassword_business_failure {θ υ : Type} (lib : TimeLib θ)
    (parseURL : String → Except LibError υ) (defaultClient : HttpClient LibError υ)
    (zeroTime : θ) (cfg : nsHTTPClient LibError υ) (httpClient : HttpClient LibError υ)
    (ctx : Option Context) (request : ChangePasswordSubmitRequestMessage)
    (req : Request υ) (resp : Response LibError) (v : Json)
    (transactionID transactionComment : String) (transactionDate : θ)
    (transactionErrors : List TransactionError)
    (hclient : cfg.httpClient = some httpClient)
    (hreq : buildRequest (changePasswordEnv lib parseURL defaultClient) cfg ctx "POST"
      "/changepassword" (some request) = .ok req)
    (hdo : httpClient.Do req = .ok resp) (hstatus : resp.statusCode = 200)
    (hbody : readValue resp.body = .ok v)
    (hwritten : ResponseWritten lib zeroTime v
      { Transaction :=
          { TransactionID := transactionID, TransactionDate := transactionDate,
            TransactionComment := transactionComment, TransactionSuccessFlag := false,
            TransactionErrors := some transactionErrors } }) :
    (req.method = "POST" ∧
      parseURL (cfg.endpointURL ++ "/changepassword") = .ok req.url ∧
      ∃ pieces, StringPieces pieces request.NewPassword ∧
        req.body =
          "\x7b\"NewPassword\":\"" ++ ⟨pieces.flatMap StringPiece.text⟩ ++ "\"\x7d") ∧
    ChangePassword (changePasswordEnv lib parseURL defaultClient) zeroTime cfg ctx request =
      ({ Transaction :=
          { TransactionID := transactionID, TransactionDate := transactionDate,
            TransactionComment := transactionComment, TransactionSuccessFlag := false,
            TransactionErrors := some transactionErrors } },
       .returned none) := by
  obtain ⟨jsonStr, c, u, hm, -, -, hu, hr⟩ := buildRequest_eq_ok _ _ _ _ _ _ _ hreq
  obtain ⟨pieces, hpieces, henc⟩ := encodeString_pieces request.NewPassword
  have hm' : jsonStr =
      "\x7b\"NewPassword\":\"" ++ ⟨pieces.flatMap StringPiece.text⟩ ++ "\"\x7d" := by
    simp only [jsonMarshal, changePasswordEnv, apiEnv, Except.ok.injEq,
      ChangePasswordSubmitRequestMessage.marshal, henc] at hm
    rw [← hm]
    apply String.ext
    simp [String.data_append]
  have hu' : parseURL (cfg.endpointURL ++ "/changepassword") = .ok u := hu
  refine ⟨⟨by rw [hr]; rfl, by rw [hr]; exact hu', pieces, hpieces, by rw [hr, hm']⟩, ?_⟩
  have hst : ¬(resp.statusCode ≠ 200 ∧ resp.statusCode ≠ 202) := by
    rw [hstatus]
    decide
  have hdec : (changePasswordEnv lib parseURL defaultClient).decode resp.body
      (ChangePasswordSubmitResponseMessage.zero zeroTime) =
      ({ Transaction :=
          { TransactionID := transactionID, TransactionDate := transactionDate,
            TransactionComment := transactionComment, TransactionSuccessFlag := false,
            TransactionErrors := some transactionErrors } }, none) := by
    show decodeStruct _ _ _ = _
    unfold decodeStruct
    rw [hbody]
    exact ChangePasswordSubmitResponseMessage_decodes lib zeroTime v _ hwritten
  simp only [ChangePassword, invokeEndpoint, hreq, hclient, hdo, hst, if_false, hdec,
    Option.map_none', Option.getD_some]

set_option maxRecDepth 100000 in
/-- Two scenarios.  In that of `Test_ChangePassword_Failed` the request is a `POST` with
the body `{"NewPassword":"short"}`, the server answers with the transaction of error 210,
and `ChangePassword` returns that transaction and the nil error.  In the other the body has
its members in another order, among members that select no field, with escapes in its
strings, and `ChangePassword` returns its transaction with both errors, in order, and the
nil error. -/
theorem ChangePassword_business_failure_witness :
    buildRequest testChangePasswordEnv
        (New testChangePasswordEnv "https://example.com/api" "acme" "1234!"
          [WithHTTPClient (some (serverClient 200 changePasswordFailedBody))])
        (some background) "POST" "/changepassword" (some { NewPassword := "short" }) =
      .ok { ctx := background, method := "POST",
            url := "https://example.com/api/changepassword",
            header := [("Content-Type", ["application/json"]), ("Username", ["acme"]),
              ("Password", ["1234!"])],
            body := "\x7b\"NewPassword\":\"short\"\x7d" } ∧
    ChangePassword testChangePasswordEnv GoTime.zero
        (New testChangePasswordEnv "https://example.com/api" "acme" "1234!"
          [WithHTTPClient (some (serverClient 200 changePasswordFailedBody))])
        (some background) { NewPassword := "short" } =
      ({ Transaction :=
          { TransactionID := "xfaca386-x034-41x8-90xf-96xd23318348",
            TransactionDate :=
              { year := 2021, month := 8, day := 31, hour := 15, minute := 47, second := 0,
                nanosecond := 265942100, offset := -18000 },
            TransactionComment := "", TransactionSuccessFlag := false,
            TransactionErrors := some [{ ErrorID := 210, ErrorMessage :=
              "Password must be between 8 and 50 characters in length. " }] } },
       .returned none) ∧
    ChangePassword testChangePasswordEnv GoTime.zero
        (New testChangePasswordEnv "https://example.com/api" "acme" "1234!"
          [WithHTTPClient (some (serverClient 200 reorderedFailedBody))])
        (some background) { NewPassword := "short" } =
      ({ Transaction :=
          { TransactionID := "ABC",
            TransactionDate :=
              { year := 2021, month := 8, day := 31, hour := 15, minute := 47, second := 0,
                nanosecond := 0, offset := -18000 },
            TransactionComment := "", TransactionSuccessFlag := false,
            TransactionErrors := some [{ ErrorID := -7, ErrorMessage := "too \"short\"\n" },
              { ErrorID := 210, ErrorMessage := "" }] } },
       .returned none) :=
  ⟨by rfl,
   (ChangePassword_business_failure goTime testParseURL (serverClient 200 "\x7b\x7d")
      GoTime.zero
      (New testChangePasswordEnv "https://example.com/api" "acme" "1234!"
        [WithHTTPClient (some (serverClient 200 changePasswordFailedBody))])
      (serverClient 200 changePasswordFailedBody) (some background)
      { NewPassword := "short" }
      { ctx := background, method := "POST",
        url := "https://example.com/api/changepassword",
        header := [("Content-Type", ["application/json"]), ("Username", ["acme"]),
          ("Password", ["1234!"])],
        body := "\x7b\"NewPassword\":\"short\"\x7d" }
      { statusCode := 200, body := { data := changePasswordFailedBody, err := none } }
      changePasswordFailedJson
      "xfaca386-x034-41x8-90xf-96xd23318348" ""
      { year := 2021, month := 8, day := 31, hour := 15, minute := 47, second := 0,
        nanosecond := 265942100, offset := -18000 }
      [{ ErrorID := 210,
         ErrorMessage := "Password must be between 8 and 50 characters in length. " }]
      rfl (by rfl) rfl rfl (by rfl) changePasswordFailedJson_written).2,
   (ChangePassword_business_failure goTime testParseURL (serverClient 200 "\x7b\x7d")
      GoTime.zero
      (New testChangePasswordEnv "https://example.com/api" "acme" "1234!"
        [WithHTTPClient (some (serverClient 200 reorderedFailedBody))])
      (serverClient 200 reorderedFailedBody) (some background) { NewPassword := "short" }
      { ctx := background, method := "POST",
        url := "https://example.com/api/changepassword",
        header := [("Content-Type", ["application/json"]), ("Username", ["acme"]),
          ("Password", ["1234!"])],
        body := "\x7b\"NewPassword\":\"short\"\x7d" }
      { statusCode := 200, body := { data := reorderedFailedBody, err := none } }
      reorderedFailedJson "ABC" ""
      { year := 2021, month := 8, day := 31, hour := 15, minute := 47, second := 0,
        nanosecond := 0, offset := -18000 }
      [{ ErrorID := -7, ErrorMessage := "too \"short\"\n" },
       { ErrorID := 210, ErrorMessage := "" }]
      rfl (by rfl) rfl rfl (by rfl) reorderedFailedJson_written).2⟩

end Nursys
